import Mathlib

/-!
# PicoPeeker: the inspection engine of `picopeeker.h`

A shallow embedding of the header-only memory inspector: the region table, the
command parser, the hex-dump renderer and the pattern searcher.

Conventions of the embedding.

* `uint32_t` and `size_t` values are natural numbers; every operation that can
  leave the 32-bit range is written with an explicit `% 4294967296`.
* A C string is the list of its characters before the terminating NUL.
* `stdout` and the raw pointer reads are recorded together, in program order, as
  a list of `Event`s: one `print` per `printf` call and one `load` per byte
  fetched through the `uint8_t*` view. `fflush` does not change the stream
  content and is not recorded.
* The two loops whose 32-bit counter can wrap (`for i += 16` of the hex dump and
  `for offset++` of the search) are driven by a fuel argument; `none` means the
  fuel ran out before the loop left.
* Memory is a fixed function from addresses to bytes for the duration of one
  command; the writes the application makes concurrently are outside the model.
* The C library functions used by the parser (`strtok`, `strtoul`, `atoi`,
  the `printf` conversions) follow ISO C and, where ISO C leaves the result
  open, the newlib implementation shipped with the Pico SDK on its 32-bit
  targets (`unsigned long` is 32 bits wide).
-/

namespace PicoPeeker

/-! ## Configuration constants -/

@[reducible] def PICOPEEKER_CMD_BUFFER_SIZE : Nat := 128
@[reducible] def PICOPEEKER_MAX_PATTERN_SIZE : Nat := 64
@[reducible] def PICOPEEKER_MAX_READ_SIZE : Nat := 4096
@[reducible] def PICOPEEKER_MAX_SEARCH_RESULTS : Nat := 100

@[reducible] def PICOPEEKER_ROM_START : Nat := 0x00000000
@[reducible] def PICOPEEKER_ROM_END : Nat := 0x00004000
@[reducible] def PICOPEEKER_FLASH_START : Nat := 0x10000000
@[reducible] def PICOPEEKER_FLASH_END : Nat := 0x10400000
@[reducible] def PICOPEEKER_SRAM_START : Nat := 0x20000000
@[reducible] def PICOPEEKER_SRAM_END : Nat := 0x20082000
@[reducible] def PICOPEEKER_PERIPH_START : Nat := 0x40000000
@[reducible] def PICOPEEKER_PERIPH_END : Nat := 0x60000000

/-! ## Machine arithmetic -/

/-- Reduction of a natural number to the `uint32_t` range. -/
def wrap32 (n : Nat) : Nat := n % 4294967296

/-- Subtraction of two `uint32_t` values, `a - b` in C. -/
def sub32 (a b : Nat) : Nat := (a % 4294967296 + 4294967296 - b % 4294967296) % 4294967296

/-- Conversion of an `int` to `uint32_t`. -/
def toU32 (z : Int) : Nat := (z % 4294967296).toNat

/-! ## Observable behaviour -/

/-- One observable step: a `printf` call or one byte read through a raw pointer. -/
inductive Event where
  | print (s : List Char)
  | load (addr : Nat)
  deriving DecidableEq

/-- The device the service runs on: the byte stored at every address and the
address of the application's `main`. -/
structure Target where
  mem : Nat → Nat
  main_addr : Nat

/-- The `uint8_t` read by `ptr[k]` when `ptr + k` is the address `a`. -/
def Target.byteAt (env : Target) (a : Nat) : Nat := env.mem a % 256

/-- The `printf` calls of a trace, in order. -/
def prints : List Event → List (List Char)
  | [] => []
  | Event.print s :: es => s :: prints es
  | Event.load _ :: es => prints es

/-- The addresses read by a trace, in order. -/
def loads : List Event → List Nat
  | [] => []
  | Event.print _ :: es => loads es
  | Event.load a :: es => a :: loads es

/-- The text written to `stdout` by a trace. -/
def stdout (es : List Event) : List Char := (prints es).flatten

/-! ## C library: character classes and number parsing -/

/-- The C locale `isspace`. -/
def isspace (c : Char) : Bool :=
  c.toNat == 32 || (9 ≤ c.toNat && c.toNat ≤ 13)

/-- The value of a character as a digit in `strtoul`/`strtol`: decimal digits and
letters of either case. -/
def digitVal (c : Char) : Option Nat :=
  if 48 ≤ c.toNat ∧ c.toNat ≤ 57 then some (c.toNat - 48)
  else if 97 ≤ c.toNat ∧ c.toNat ≤ 122 then some (c.toNat - 87)
  else if 65 ≤ c.toNat ∧ c.toNat ≤ 90 then some (c.toNat - 55)
  else none

/-- The value of the longest prefix of digits valid in `base`, accumulated from
`acc`; parsing stops at the first other character. -/
def accumDigits (base : Nat) : List Char → Nat → Nat
  | [], acc => acc
  | c :: cs, acc =>
    match digitVal c with
    | some d => if d < base then accumDigits base cs (acc * base + d) else acc
    | none => acc

/-- The sign scanned by `strtoul`/`strtol` after the white space, and the rest. -/
def scanSign (s : List Char) : Bool × List Char :=
  match s with
  | [] => (false, [])
  | c :: r => if c = '-' then (true, r) else if c = '+' then (false, r) else (false, c :: r)

/-- The optional `0x`/`0X` prefix skipped in base 16. -/
def skipHexMark (base : Nat) (s : List Char) : List Char :=
  match s with
  | c :: x :: r => if base = 16 ∧ c = '0' ∧ (x = 'x' ∨ x = 'X') then r else c :: x :: r
  | s => s

/-- The magnitude scanned by `strtoul`/`strtol` and whether a minus sign came first. -/
def scanNumber (s : List Char) (base : Nat) : Bool × Nat :=
  let p := scanSign (s.dropWhile isspace)
  (p.1, accumDigits base (skipHexMark base p.2) 0)

/-- The C `strtoul(s, NULL, base)` on a 32-bit `unsigned long`: `ULONG_MAX` on
overflow, the negation in the unsigned type after a minus sign. -/
def strtoul (s : List Char) (base : Nat) : Nat :=
  let p := scanNumber s base
  if p.2 > 4294967295 then 4294967295
  else if p.1 then sub32 0 p.2 else p.2

/-- The C `strtol(s, NULL, base)` on a 32-bit `long`: saturates at `LONG_MAX` and
`LONG_MIN`. -/
def strtol (s : List Char) (base : Nat) : Int :=
  let p := scanNumber s base
  if p.1 then (if p.2 > 2147483648 then -2147483648 else -(p.2 : Int))
  else (if p.2 > 2147483647 then 2147483647 else (p.2 : Int))

/-- The C `atoi`, which newlib defines as `(int) strtol(s, NULL, 10)`. -/
def atoi (s : List Char) : Int := strtol s 10

/-- One call of `strtok` with the single delimiter `delim` on the text the saved
pointer refers to: `none` for a NULL result, otherwise the token and the text the
saved pointer refers to afterwards. -/
def strtok (s : List Char) (delim : Char) : Option (List Char × List Char) :=
  match s.dropWhile (fun c => c == delim) with
  | [] => none
  | c :: r =>
    some ((c :: r).takeWhile (fun c => c != delim),
          ((c :: r).dropWhile (fun c => c != delim)).drop 1)

/-! ## C library: the `printf` conversions in use -/

/-- The character of a digit below 36, lower case. -/
def digitChar (d : Nat) : Char :=
  if d < 10 then Char.ofNat (48 + d) else Char.ofNat (87 + d)

/-- The digits of `n` in `base`, most significant first, prepended to `acc`; the
first argument bounds the number of digits. -/
def toDigits (base : Nat) : Nat → Nat → List Char → List Char
  | 0, _, acc => acc
  | fuel + 1, n, acc =>
    if n < base then digitChar n :: acc
    else toDigits base fuel (n / base) (digitChar (n % base) :: acc)

/-- Zero padding on the left up to `width` characters. -/
def padZero (width : Nat) (s : List Char) : List Char :=
  List.replicate (width - s.length) '0' ++ s

/-- Conversion `%u` (and `%zu`, `%d` of a non-negative value) of a 32-bit value. -/
def fmt_u (v : Nat) : List Char := toDigits 10 10 (wrap32 v) []

/-- Conversion `%08x` of a 32-bit value. -/
def fmt_08x (v : Nat) : List Char := padZero 8 (toDigits 16 8 (wrap32 v) [])

/-- Conversion `%02x` of a 32-bit value. -/
def fmt_02x (v : Nat) : List Char := padZero 2 (toDigits 16 8 (wrap32 v) [])

/-! ## HexDumpRenderer -/

/-- `P "text"` is one `printf` call writing `text`. -/
def P (s : String) : Event := Event.print s.toList

/-- The hex cell of column `j` in the row at offset `i`: the body of the first
inner loop of `_picopeeker_send_hex_dump`. -/
def hexCell (env : Target) (address length i j : Nat) : List Event :=
  if wrap32 (i + j) < length then
    [Event.load (wrap32 (address + wrap32 (i + j))),
     Event.print (fmt_02x (env.byteAt (wrap32 (address + wrap32 (i + j)))) ++ [' '])]
  else [P "   "]

/-- The character shown for a byte in the ASCII column. -/
def asciiChar (c : Nat) : Char := if c ≥ 32 ∧ c ≤ 126 then Char.ofNat c else '.'

/-- The second inner loop, `for(j; j < 16 && (i + j) < length; j++)`, from column
`j` with `n = 16 - j` columns left. -/
def asciiLoop (env : Target) (address length i : Nat) : Nat → Nat → List Event
  | 0, _ => []
  | n + 1, j =>
    if wrap32 (i + j) < length then
      Event.load (wrap32 (address + wrap32 (i + j))) ::
      Event.print [asciiChar (env.byteAt (wrap32 (address + wrap32 (i + j))))] ::
      asciiLoop env address length i n (j + 1)
    else []

/-- One iteration of the row loop of `_picopeeker_send_hex_dump`, at offset `i`. -/
def hexRow (env : Target) (address length i : Nat) : List Event :=
  [Event.print (fmt_08x (address + i) ++ [':', ' '])] ++
  (List.range 16).flatMap (hexCell env address length i) ++
  [P " "] ++
  asciiLoop env address length i 16 0 ++
  [P "\n"]

/-- The row loop `for(uint32_t i = 0; i < length; i += 16)` from offset `i`. -/
def hexLoop (env : Target) (address length : Nat) : Nat → Nat → Option (List Event)
  | 0, _ => none
  | fuel + 1, i =>
    if i < length then
      (hexLoop env address length fuel (wrap32 (i + 16))).map
        (fun rest => hexRow env address length i ++ rest)
    else some []

/-- The four `printf` calls that open a hex dump. -/
def hexHeader (address length : Nat) : List Event :=
  [P "=== HEX DUMP ===\n",
   Event.print ("Address: 0x".toList ++ fmt_08x address ++ ", Length: ".toList ++
     fmt_u length ++ " bytes\n\n".toList),
   P "Address:  00 01 02 03 04 05 06 07 08 09 0A 0B 0C 0D 0E 0F  ASCII\n",
   P "--------  -----------------------------------------------  ----------------\n"]

/-- The function `_picopeeker_send_hex_dump(address, length)`. -/
def _picopeeker_send_hex_dump (fuel : Nat) (env : Target) (address length : Nat) :
    Option (List Event) :=
  (hexLoop env address length fuel 0).map
    (fun rows => hexHeader address length ++ rows ++ [P "\n===END===\n"])

/-! ## LandmarkReporter -/

/-- The function `_picopeeker_send_landmarks()`. -/
def _picopeeker_send_landmarks (env : Target) : List Event :=
  [P "LANDMARKS:\n",
   Event.print ("main=0x".toList ++ fmt_08x env.main_addr ++ "\n".toList),
   P "END_LANDMARKS\n\n"]

/-! ## PatternSearcher -/

/-- The comparison loop `for(size_t i = 0; i < pattern_len; i++)` at `offset`,
from index `i` with the pattern bytes from `i` on: the reads it makes and the
final value of `match`. -/
def matchLoop (env : Target) (start_addr offset : Nat) : List Nat → Nat → List Event × Bool
  | [], _ => ([], true)
  | p :: ps, i =>
    if env.byteAt (wrap32 (start_addr + wrap32 (offset + i))) ≠ p then
      ([Event.load (wrap32 (start_addr + wrap32 (offset + i)))], false)
    else
      (Event.load (wrap32 (start_addr + wrap32 (offset + i))) ::
         (matchLoop env start_addr offset ps (i + 1)).1,
       (matchLoop env start_addr offset ps (i + 1)).2)

/-- The `printf` call reporting a hit. -/
def foundLine (found_addr : Nat) : Event :=
  Event.print ("FOUND: 0x".toList ++ fmt_08x found_addr ++ "\n".toList)

/-- The `printf` call made when the result limit is reached. -/
def stopLine : Event :=
  Event.print ("(stopping after ".toList ++ fmt_u PICOPEEKER_MAX_SEARCH_RESULTS ++
    " matches)\n".toList)

/-- The scan loop `for(uint32_t offset = 0; offset <= total_size - pattern_len;
offset++)`, where `bound` is the value of `total_size - pattern_len`: the trace
from `offset` on and the final `found_count`. -/
def searchLoop (env : Target) (start_addr bound : Nat) (pattern : List Nat) :
    Nat → Nat → Nat → Option (List Event × Nat)
  | 0, _, _ => none
  | fuel + 1, offset, found_count =>
    if offset ≤ bound then
      if (matchLoop env start_addr offset pattern 0).2 then
        if found_count + 1 ≥ PICOPEEKER_MAX_SEARCH_RESULTS then
          some ((matchLoop env start_addr offset pattern 0).1 ++
                  [foundLine (wrap32 (start_addr + offset)), stopLine],
                found_count + 1)
        else
          (searchLoop env start_addr bound pattern fuel (wrap32 (offset + 1))
              (found_count + 1)).map
            (fun r => ((matchLoop env start_addr offset pattern 0).1 ++
                        foundLine (wrap32 (start_addr + offset)) :: r.1, r.2))
      else
        (searchLoop env start_addr bound pattern fuel (wrap32 (offset + 1)) found_count).map
          (fun r => ((matchLoop env start_addr offset pattern 0).1 ++ r.1, r.2))
    else some ([], found_count)

/-- The `printf` calls that open a region search, the pattern echo included. -/
def searchHeader (start_addr end_addr : Nat) (region_name : List Char) (pattern : List Nat) :
    List Event :=
  [Event.print ("=== SEARCHING ".toList ++ region_name ++ " ===\n".toList),
   Event.print ("Range: 0x".toList ++ fmt_08x start_addr ++ " - 0x".toList ++
     fmt_08x end_addr ++ " (".toList ++ fmt_u (sub32 end_addr start_addr) ++
     " bytes)\n".toList),
   P "Pattern: "] ++
  pattern.map (fun b => Event.print (fmt_02x b ++ [' '])) ++
  [Event.print ("(".toList ++ fmt_u pattern.length ++ " bytes)\n\n".toList)]

/-- The `printf` call that closes a region search. -/
def totalLine (region_name : List Char) (found_count : Nat) : Event :=
  Event.print ("Total matches in ".toList ++ region_name ++ ": ".toList ++
    fmt_u found_count ++ "\n\n".toList)

/-- The function `_picopeeker_search_region(start_addr, end_addr, region_name,
pattern, pattern_len)`, with `pattern_len = pattern.length`. -/
def _picopeeker_search_region (fuel : Nat) (env : Target) (start_addr end_addr : Nat)
    (region_name : List Char) (pattern : List Nat) : Option (List Event) :=
  (searchLoop env start_addr (sub32 (sub32 end_addr start_addr) pattern.length) pattern
      fuel 0 0).map
    (fun r => searchHeader start_addr end_addr region_name pattern ++ r.1 ++
      [totalLine region_name r.2])

/-- The function `_picopeeker_search_memory(pattern, pattern_len, search_flash,
search_sram)`. -/
def _picopeeker_search_memory (fuel : Nat) (env : Target) (pattern : List Nat)
    (search_flash search_sram : Bool) : Option (List Event) :=
  (if search_flash then
      _picopeeker_search_region fuel env PICOPEEKER_FLASH_START PICOPEEKER_FLASH_END
        "FLASH".toList pattern
    else some []).bind fun flash =>
  (if search_sram then
      _picopeeker_search_region fuel env PICOPEEKER_SRAM_START PICOPEEKER_SRAM_END
        "SRAM".toList pattern
    else some []).map fun sram =>
  flash ++ sram ++ [P "===END===\n"]

/-! ## RegionTable -/

/-- The region lookup of the READ command: the `if`/`else if` chain over the four
regions, giving `region_end`, or `none` when the chain ends in the error branch. -/
def boundsFor (address : Nat) : Option Nat :=
  if address ≥ PICOPEEKER_ROM_START ∧ address < PICOPEEKER_ROM_END then
    some PICOPEEKER_ROM_END
  else if address ≥ PICOPEEKER_FLASH_START ∧ address < PICOPEEKER_FLASH_END then
    some PICOPEEKER_FLASH_END
  else if address ≥ PICOPEEKER_SRAM_START ∧ address < PICOPEEKER_SRAM_END then
    some PICOPEEKER_SRAM_END
  else if address ≥ PICOPEEKER_PERIPH_START ∧ address < PICOPEEKER_PERIPH_END then
    some PICOPEEKER_PERIPH_END
  else none

/-- The regions as `(start, end)` pairs, in the order the lookup tests them. -/
def regionTable : List (Nat × Nat) :=
  [(PICOPEEKER_ROM_START, PICOPEEKER_ROM_END),
   (PICOPEEKER_FLASH_START, PICOPEEKER_FLASH_END),
   (PICOPEEKER_SRAM_START, PICOPEEKER_SRAM_END),
   (PICOPEEKER_PERIPH_START, PICOPEEKER_PERIPH_END)]

/-! ## CommandParser -/

/-- The response to an address outside every region. -/
def addressError : List Event :=
  [P "ERROR: Address out of valid range\n",
   P "Valid ranges:\n",
   Event.print ("  ROM:         0x".toList ++ fmt_08x PICOPEEKER_ROM_START ++ "-0x".toList ++
     fmt_08x (PICOPEEKER_ROM_END - 1) ++ "\n".toList),
   Event.print ("  Flash:       0x".toList ++ fmt_08x PICOPEEKER_FLASH_START ++ "-0x".toList ++
     fmt_08x (PICOPEEKER_FLASH_END - 1) ++ "\n".toList),
   Event.print ("  SRAM:        0x".toList ++ fmt_08x PICOPEEKER_SRAM_START ++ "-0x".toList ++
     fmt_08x (PICOPEEKER_SRAM_END - 1) ++ "\n".toList),
   Event.print ("  Peripherals: 0x".toList ++ fmt_08x PICOPEEKER_PERIPH_START ++ "-0x".toList ++
     fmt_08x (PICOPEEKER_PERIPH_END - 1) ++ "\n".toList)]

/-- The `printf` call announcing a clamped length. -/
def clampWarning (length max_length : Nat) : Event :=
  Event.print ("WARNING: Length clamped from ".toList ++ fmt_u length ++ " to ".toList ++
    fmt_u max_length ++ " bytes to stay within region bounds\n".toList)

/-- The `printf` call rejecting a pattern of a wrong byte length. -/
def patternLengthError : Event :=
  Event.print ("ERROR: Pattern length must be 1-".toList ++ fmt_u PICOPEEKER_MAX_PATTERN_SIZE ++
    " bytes\n".toList)

/-- The `printf` call rejecting a read length. -/
def lengthError : Event :=
  Event.print ("ERROR: Length must be 1-".toList ++ fmt_u PICOPEEKER_MAX_READ_SIZE ++
    "\n".toList)

/-- The pattern decoding loop: byte `i` is `(uint8_t)strtoul(hex_byte, NULL, 16)` for
the two-character string `hex_byte = {token[i*2], token[i*2+1]}`. -/
def decodePattern (token : List Char) (pattern_len : Nat) : List Nat :=
  (List.range pattern_len).map fun i =>
    strtoul [token.getD (i * 2) (Char.ofNat 0), token.getD (i * 2 + 1) (Char.ofNat 0)] 16 % 256

/-- The part shared by the SEARCH and SEARCHFLASH branches once `strtok` has given
the pattern token: the length checks, the decoding and the search call. -/
def searchCommand (fuel : Nat) (env : Target) (token : List Char)
    (search_flash search_sram : Bool) : Option (List Event) :=
  if token.length % 2 ≠ 0 then
    some [P "ERROR: Hex pattern must have even number of digits\n"]
  else if token.length / 2 = 0 ∨ token.length / 2 > PICOPEEKER_MAX_PATTERN_SIZE then
    some [patternLengthError]
  else
    _picopeeker_search_memory fuel env (decodePattern token (token.length / 2))
      search_flash search_sram

/-- The READ branch after the keyword: the address and length fields, the length
check, the region lookup, the clamp and the dump. -/
def readCommand (fuel : Nat) (env : Target) (rest : List Char) : Option (List Event) :=
  match strtok rest ':' with
  | none => some [P "ERROR: Missing address\n"]
  | some (token, rest) =>
    match strtok rest ':' with
    | none => some [P "ERROR: Missing length\n"]
    | some (token2, _) =>
      if toU32 (atoi token2) = 0 ∨ toU32 (atoi token2) > PICOPEEKER_MAX_READ_SIZE then
        some [lengthError]
      else
        match boundsFor (strtoul token 16) with
        | none => some addressError
        | some region_end =>
          if wrap32 (strtoul token 16 + toU32 (atoi token2)) > region_end then
            (_picopeeker_send_hex_dump fuel env (strtoul token 16)
                (sub32 region_end (strtoul token 16))).map
              (fun dump =>
                clampWarning (toU32 (atoi token2)) (sub32 region_end (strtoul token 16)) :: dump)
          else
            _picopeeker_send_hex_dump fuel env (strtoul token 16) (toU32 (atoi token2))

/-- The function `_picopeeker_parse_command(cmd)`. -/
def _picopeeker_parse_command (fuel : Nat) (env : Target) (cmd : List Char) :
    Option (List Event) :=
  if cmd = "LANDMARKS".toList then some (_picopeeker_send_landmarks env)
  else
    match strtok cmd ':' with
    | none => some [P "ERROR: Invalid command\n"]
    | some (token, rest) =>
      if token = "SEARCH".toList then
        match strtok rest ':' with
        | none =>
          some [P "ERROR: Missing search pattern\n", P "Usage: SEARCH:HEXPATTERN\n",
                P "Example: SEARCH:DEADBEEF\n"]
        | some (token, _) => searchCommand fuel env token false true
      else if token = "SEARCHFLASH".toList then
        match strtok rest ':' with
        | none =>
          some [P "ERROR: Missing search pattern\n", P "Usage: SEARCHFLASH:HEXPATTERN\n",
                P "Example: SEARCHFLASH:48656C6C6F (search for \x27Hello\x27)\n"]
        | some (token, _) => searchCommand fuel env token true false
      else if token ≠ "READ".toList then some [P "ERROR: Invalid command\n"]
      else readCommand fuel env rest

/-! ## The standalone program `memory_explorer.c`

The standalone example carries its own copy of the engine. Its row loop and its
comparison loop are the same code as the library's and share `hexLoop` and
`matchLoop`; the texts it prints differ and are given here. -/

namespace MemoryExplorer

/-- The addresses of the two globals the standalone program reports as landmarks. -/
structure Globals where
  global_var : Nat
  global_uninitialized : Nat

/-- Conversion `%d` of a 32-bit argument, read as a signed `int`. -/
def fmt_d (v : Nat) : List Char :=
  if wrap32 v ≥ 2147483648 then '-' :: toDigits 10 10 (4294967296 - wrap32 v) []
  else toDigits 10 10 (wrap32 v) []

/-- The function `send_hex_dump(address, length)`. -/
def send_hex_dump (fuel : Nat) (env : Target) (address length : Nat) : Option (List Event) :=
  (hexLoop env address length fuel 0).map fun rows =>
    [P "=== HEX DUMP ===\n",
     Event.print ("Address: 0x".toList ++ fmt_08x address ++ ", Length: ".toList ++
       fmt_d length ++ " bytes\n\n".toList),
     P "Address:  00 01 02 03 04 05 06 07 08 09 0A 0B 0C 0D 0E 0F  ASCII\n",
     P "--------  -----------------------------------------------  ----------------\n"] ++
    rows ++ [P "\n===END===\n"]

/-- The function `send_landmarks()`. -/
def send_landmarks (env : Target) (g : Globals) : List Event :=
  [P "LANDMARKS:\n",
   Event.print ("global_var=0x".toList ++ fmt_08x g.global_var ++ "\n".toList),
   Event.print ("global_uninitialized=0x".toList ++ fmt_08x g.global_uninitialized ++
     "\n".toList),
   Event.print ("main=0x".toList ++ fmt_08x env.main_addr ++ "\n".toList),
   P "END_LANDMARKS\n\n"]

/-- The `printf` calls reporting one hit at `found_addr`. -/
def foundEvents (found_addr : Nat) : List Event :=
  [Event.print ("FOUND: 0x".toList ++ fmt_08x found_addr)] ++
  (if found_addr ≥ 0x20081f00 ∧ found_addr ≤ 0x20081fff then
    [P " (Maybe Self-Referential - command buffer)"] else []) ++
  [P "\n"]

/-- The scan loop of `search_memory`, where `bound` is the value of
`total_size - pattern_len`. -/
def searchLoop (env : Target) (start_addr bound : Nat) (pattern : List Nat) :
    Nat → Nat → Nat → Option (List Event × Nat)
  | 0, _, _ => none
  | fuel + 1, offset, found_count =>
    if offset ≤ bound then
      if (matchLoop env start_addr offset pattern 0).2 then
        if found_count + 1 ≥ 100 then
          some ((matchLoop env start_addr offset pattern 0).1 ++
                  foundEvents (wrap32 (start_addr + offset)) ++
                  [P "(stopping after 100 matches)\n"],
                found_count + 1)
        else
          (searchLoop env start_addr bound pattern fuel (wrap32 (offset + 1))
              (found_count + 1)).map
            (fun r => ((matchLoop env start_addr offset pattern 0).1 ++
                        foundEvents (wrap32 (start_addr + offset)) ++ r.1, r.2))
      else
        (searchLoop env start_addr bound pattern fuel (wrap32 (offset + 1)) found_count).map
          (fun r => ((matchLoop env start_addr offset pattern 0).1 ++ r.1, r.2))
    else some ([], found_count)

/-- The function `search_memory(pattern, pattern_len)`, with
`pattern_len = pattern.length`. -/
def search_memory (fuel : Nat) (env : Target) (pattern : List Nat) : Option (List Event) :=
  (searchLoop env 0x20000000 (sub32 (sub32 0x20082000 0x20000000) pattern.length) pattern
      fuel 0 0).map fun r =>
    [P "=== SEARCHING SRAM ===\n",
     Event.print ("Range: 0x".toList ++ fmt_08x 0x20000000 ++ " - 0x".toList ++
       fmt_08x 0x20082000 ++ " (".toList ++ fmt_u (sub32 0x20082000 0x20000000) ++
       " bytes)\n".toList),
     P "Pattern: "] ++
    pattern.map (fun b => Event.print (fmt_02x b ++ [' '])) ++
    [Event.print ("(".toList ++ fmt_u pattern.length ++ " bytes)\n\n".toList)] ++
    r.1 ++
    [Event.print ("\nTotal matches: ".toList ++ fmt_d r.2 ++ "\n".toList),
     P "===END===\n"]

/-- The response of the standalone program to an address outside every region. -/
def addressError : List Event :=
  [P "ERROR: Address out of valid range\n",
   P "Valid ranges:\n",
   P "  ROM:         0x00000000-0x00003FFF\n",
   P "  Flash:       0x10000000-0x103FFFFF\n",
   P "  SRAM:        0x20000000-0x20081FFF\n",
   P "  Peripherals: 0x40000000-0x5FFFFFFF\n"]

/-- The region lookup of the standalone READ branch, with its literal bounds. -/
def boundsFor (address : Nat) : Option Nat :=
  if address ≥ 0x00000000 ∧ address < 0x00004000 then some 0x00004000
  else if address ≥ 0x10000000 ∧ address < 0x10400000 then some 0x10400000
  else if address ≥ 0x20000000 ∧ address < 0x20082000 then some 0x20082000
  else if address ≥ 0x40000000 ∧ address < 0x60000000 then some 0x60000000
  else none

/-- The READ branch of `parse_command` after the keyword. -/
def readCommand (fuel : Nat) (env : Target) (rest : List Char) : Option (List Event) :=
  match strtok rest ':' with
  | none => some [P "ERROR: Missing address\n"]
  | some (token, rest) =>
    match strtok rest ':' with
    | none => some [P "ERROR: Missing length\n"]
    | some (token2, _) =>
      if toU32 (atoi token2) = 0 ∨ toU32 (atoi token2) > 4096 then
        some [P "ERROR: Length must be 1-4096\n"]
      else
        match boundsFor (strtoul token 16) with
        | none => some addressError
        | some region_end =>
          if wrap32 (strtoul token 16 + toU32 (atoi token2)) > region_end then
            (send_hex_dump fuel env (strtoul token 16)
                (sub32 region_end (strtoul token 16))).map
              (fun dump =>
                clampWarning (toU32 (atoi token2)) (sub32 region_end (strtoul token 16)) :: dump)
          else
            send_hex_dump fuel env (strtoul token 16) (toU32 (atoi token2))

/-- The function `parse_command(cmd)` of the standalone program. -/
def parse_command (fuel : Nat) (env : Target) (g : Globals) (cmd : List Char) :
    Option (List Event) :=
  if cmd = "LANDMARKS".toList then some (send_landmarks env g)
  else
    match strtok cmd ':' with
    | none => some [P "ERROR: Invalid command\n"]
    | some (token, rest) =>
      if token = "SEARCH".toList then
        match strtok rest ':' with
        | none =>
          some [P "ERROR: Missing search pattern\n", P "Usage: SEARCH:HEXPATTERN\n",
                P "Example: SEARCH:DEADBEEF\n"]
        | some (token, _) =>
          if token.length % 2 ≠ 0 then
            some [P "ERROR: Hex pattern must have even number of digits\n"]
          else if token.length / 2 = 0 ∨ token.length / 2 > 64 then
            some [P "ERROR: Pattern length must be 1-64 bytes (2-128 hex digits)\n"]
          else search_memory fuel env (decodePattern token (token.length / 2))
      else if token ≠ "READ".toList then some [P "ERROR: Invalid command\n"]
      else readCommand fuel env rest

end MemoryExplorer

/-! ## Closed forms used in the statements -/

/-- The offsets `i, i + 16, ...` below `length` visited by the row loop from `i`. -/
def rowOffsets (length i : Nat) : List Nat := List.range' i ((length - i + 15) / 16) 16

/-- The addresses of the bytes shown in the row at offset `i` of a dump of
`length` bytes at `address`. -/
def rowAddrs (address length i : Nat) : List Nat :=
  (List.range (min 16 (length - i))).map fun j => address + i + j

/-- The scan loop of `_picopeeker_search_region` unrolled over an explicit list of
offsets: the trace and the final `found_count`. -/
def scanOffsets (env : Target) (start_addr : Nat) (pattern : List Nat) :
    List Nat → Nat → List Event × Nat
  | [], found_count => ([], found_count)
  | o :: os, found_count =>
    if (matchLoop env start_addr o pattern 0).2 then
      if found_count + 1 ≥ PICOPEEKER_MAX_SEARCH_RESULTS then
        ((matchLoop env start_addr o pattern 0).1 ++
            [foundLine (wrap32 (start_addr + o)), stopLine],
          found_count + 1)
      else
        ((matchLoop env start_addr o pattern 0).1 ++
            foundLine (wrap32 (start_addr + o)) ::
              (scanOffsets env start_addr pattern os (found_count + 1)).1,
          (scanOffsets env start_addr pattern os (found_count + 1)).2)
    else
      ((matchLoop env start_addr o pattern 0).1 ++
          (scanOffsets env start_addr pattern os found_count).1,
        (scanOffsets env start_addr pattern os found_count).2)

/-- The pattern occurs at offset `o` of the region starting at `start_addr`: all
`pattern.length` bytes from `start_addr + o` on equal the pattern bytes. -/
def occursAt (env : Target) (start_addr : Nat) (pattern : List Nat) (o : Nat) : Bool :=
  decide (∀ i, i < pattern.length → env.byteAt (start_addr + o + i) = pattern.getD i 0)

/-- The offsets `0 .. region_size - pattern_len` at which the pattern occurs, in
increasing order. -/
def matchOffsets (env : Target) (start_addr end_addr : Nat) (pattern : List Nat) : List Nat :=
  (List.range (end_addr - start_addr - pattern.length + 1)).filter
    (occursAt env start_addr pattern)

/-- The keyword of a search command: `SEARCHFLASH` for Flash, `SEARCH` for SRAM. -/
def searchKeyword (flash : Bool) : List Char :=
  if flash then "SEARCHFLASH".toList else "SEARCH".toList

/-- The first address of the region a search command scans. -/
def scopeStart (flash : Bool) : Nat :=
  if flash then PICOPEEKER_FLASH_START else PICOPEEKER_SRAM_START

/-- The end of the region a search command scans. -/
def scopeEnd (flash : Bool) : Nat :=
  if flash then PICOPEEKER_FLASH_END else PICOPEEKER_SRAM_END

/-- The label under which a search command reports its region. -/
def scopeName (flash : Bool) : List Char :=
  if flash then "FLASH".toList else "SRAM".toList

/-- The value of a hexadecimal digit character, `none` for any other character:
`0`-`9`, `a`-`f` and `A`-`F`. -/
def hexValue (c : Char) : Option Nat :=
  if 48 ≤ c.toNat ∧ c.toNat ≤ 57 then some (c.toNat - 48)
  else if 97 ≤ c.toNat ∧ c.toNat ≤ 102 then some (c.toNat - 97 + 10)
  else if 65 ≤ c.toNat ∧ c.toNat ≤ 70 then some (c.toNat - 65 + 10)
  else none

/-- The lower-case hexadecimal digit of a value below 16. -/
def lowerHexDigit (d : Nat) : Char := "0123456789abcdef".toList.getD d '0'

/-! ## InputAssembler and InspectionService

The static `_picopeeker_state` is a record; `cmd_buffer` is the whole array of
`PICOPEEKER_CMD_BUFFER_SIZE` characters. One poll of `getchar_timeout_us(0)` is
an `Option Char`: `none` for `PICO_ERROR_TIMEOUT`, `some c` for a received byte.
`sleep_ms` and, in the standalone program, the LED are not recorded. The NULs that
`strtok` writes into the dispatched line fall below the old cursor, in bytes that
are written again before they are read, and are not recorded either. -/

/-- The type of the static `_picopeeker_state`. -/
structure PeekerState where
  initialized : Bool
  cmd_buffer : List Char
  cmd_index : Nat

/-- The initial value `_picopeeker_state = {0}`. -/
def _picopeeker_state : PeekerState :=
  ⟨false, List.replicate PICOPEEKER_CMD_BUFFER_SIZE (Char.ofNat 0), 0⟩

/-- The C string held by a character array: the characters before the first NUL. -/
def cstr (buf : List Char) : List Char := buf.takeWhile (fun c => c != Char.ofNat 0)

/-- The line discipline of one iteration of the `while(true)` loop: the next state
and, when a command is complete, the buffer passed to the parser. -/
def lineStep (s : PeekerState) (c : Option Char) : PeekerState × Option (List Char) :=
  match c with
  | none => (s, none)
  | some c =>
    if c = '\n' ∨ c = '\r' then
      if s.cmd_index > 0 then
        (⟨s.initialized, s.cmd_buffer.set s.cmd_index (Char.ofNat 0), 0⟩,
          some (s.cmd_buffer.set s.cmd_index (Char.ofNat 0)))
      else (s, none)
    else if s.cmd_index < PICOPEEKER_CMD_BUFFER_SIZE - 1 then
      (⟨s.initialized, s.cmd_buffer.set s.cmd_index c, s.cmd_index + 1⟩, none)
    else (s, none)

/-- The line discipline over a sequence of polls: the state reached and the buffers
passed to the parser, in order. -/
def lineLoop (s : PeekerState) : List (Option Char) → PeekerState × List (List Char)
  | [] => (s, [])
  | c :: cs =>
    ((lineLoop (lineStep s c).1 cs).1,
      (lineStep s c).2.toList ++ (lineLoop (lineStep s c).1 cs).2)

/-- One iteration of the `while(true)` loop of `_picopeeker_core1_main`: the next
state and what the iteration prints and reads. -/
def core1_iteration (fuel : Nat) (env : Target) (s : PeekerState) (c : Option Char) :
    Option (PeekerState × List Event) :=
  match (lineStep s c).2 with
  | none => some ((lineStep s c).1, [])
  | some buf =>
    (_picopeeker_parse_command fuel env (cstr buf)).map fun ev => ((lineStep s c).1, ev)

/-- The `while(true)` loop of `_picopeeker_core1_main` over a sequence of polls. -/
def core1_loop (fuel : Nat) (env : Target) :
    PeekerState → List (Option Char) → Option (PeekerState × List Event)
  | s, [] => some (s, [])
  | s, c :: cs =>
    (core1_iteration fuel env s c).bind fun r =>
      (core1_loop fuel env r.1 cs).map fun q => (q.1, r.2 ++ q.2)

/-- The usage banner printed when the service starts. -/
def core1_banner : List Event :=
  [P "PicoPeeker ready!\n",
   P "Commands:\n",
   P "  READ:0xADDRESS:LENGTH   - Read memory\n",
   P "  SEARCH:HEXPATTERN       - Search SRAM for hex pattern\n",
   P "  SEARCHFLASH:HEXPATTERN  - Search Flash for hex pattern\n",
   P "  LANDMARKS               - Show memory landmarks\n",
   P "Examples:\n",
   P "  READ:0x20000000:256\n",
   P "  SEARCH:2A000000 (search for int 42 in SRAM)\n",
   P "  SEARCHFLASH:48656C6C6F (search for \x27Hello\x27 in Flash)\n\n"]

/-- The function `_picopeeker_core1_main()` up to the end of the polls `inputs`:
the banner, the landmarks, then the loop. -/
def _picopeeker_core1_main (fuel : Nat) (env : Target) (s : PeekerState)
    (inputs : List (Option Char)) : Option (PeekerState × List Event) :=
  (core1_loop fuel env s inputs).map fun r =>
    (r.1, core1_banner ++ _picopeeker_send_landmarks env ++ r.2)

/-- The function `picopeeker_start()`: the next state and the number of calls of
`multicore_launch_core1` it makes. -/
def picopeeker_start (s : PeekerState) : PeekerState × Nat :=
  if s.initialized then (s, 0)
  else (⟨true, s.cmd_buffer, 0⟩, 1)

/-- A sequence of `n` calls of `picopeeker_start()`: the state reached and the
total number of launches. -/
def startTimes : Nat → PeekerState → PeekerState × Nat
  | 0, s => (s, 0)
  | n + 1, s =>
    ((startTimes n (picopeeker_start s).1).1,
      (picopeeker_start s).2 + (startTimes n (picopeeker_start s).1).2)

/-- One iteration of the `while(true)` loop of `main` in `memory_explorer.c`, whose
`cmd_buffer` and `cmd_index` are locals handled by the same code. -/
def MemoryExplorer.main_iteration (fuel : Nat) (env : Target) (g : MemoryExplorer.Globals)
    (s : PeekerState) (c : Option Char) : Option (PeekerState × List Event) :=
  match (lineStep s c).2 with
  | none => some ((lineStep s c).1, [])
  | some buf =>
    (MemoryExplorer.parse_command fuel env g (cstr buf)).map fun ev => ((lineStep s c).1, ev)

/-! ## Closed forms of the hex dump rows -/

/-- The sixteen hex cells of the row at offset `i`. -/
def rowCells (env : Target) (address length i : Nat) : List (List Char) :=
  (List.range 16).map fun j =>
    if i + j < length then fmt_02x (env.byteAt (wrap32 (address + (i + j)))) ++ [' ']
    else "   ".toList

/-- The characters of the ASCII column of the row at offset `i`, one `printf` each. -/
def rowAscii (env : Target) (address length i : Nat) : List (List Char) :=
  (List.range (min 16 (length - i))).map fun j =>
    [asciiChar (env.byteAt (wrap32 (address + (i + j))))]

/-- The `printf` calls of the row at offset `i`. -/
def rowPrints (env : Target) (address length i : Nat) : List (List Char) :=
  [fmt_08x (address + i) ++ [':', ' ']] ++ rowCells env address length i ++ [" ".toList] ++
    rowAscii env address length i ++ ["\n".toList]

/-- The byte a hex cell spells: sixteen times the value of its first digit plus the
value of its second; `none` for a blank cell. -/
def cellValue (cell : List Char) : Option Nat :=
  match cell with
  | [c1, c2, _] =>
    match hexValue c1, hexValue c2 with
    | some d1, some d2 => some (16 * d1 + d2)
    | _, _ => none
  | _ => none

/-! ## Accepted and rejected command lines -/

/-- The line is a search command the parser accepts: a search keyword and a pattern
token of `2k` characters with `1 <= k <= 64`. -/
def AcceptedSearch (cmd : List Char) : Prop :=
  ∃ flash rest tok r2 k, strtok cmd ':' = some (searchKeyword flash, rest) ∧
    strtok rest ':' = some (tok, r2) ∧ tok.length = 2 * k ∧ 1 ≤ k ∧ k ≤ 64

/-- The line is a READ command the parser accepts: both fields present, a length in
`1..4096` and an address inside a region. -/
def AcceptedRead (cmd : List Char) : Prop :=
  ∃ rest ta r2 tl r3 e, strtok cmd ':' = some ("READ".toList, rest) ∧
    strtok rest ':' = some (ta, r2) ∧ strtok r2 ':' = some (tl, r3) ∧
    1 ≤ toU32 (atoi tl) ∧ toU32 (atoi tl) ≤ 4096 ∧ boundsFor (strtoul ta 16) = some e

/-- The responses of the parser to a line it rejects. -/
def errorResponses : List (List Event) :=
  [[P "ERROR: Invalid command\n"],
   [P "ERROR: Missing search pattern\n", P "Usage: SEARCH:HEXPATTERN\n",
    P "Example: SEARCH:DEADBEEF\n"],
   [P "ERROR: Missing search pattern\n", P "Usage: SEARCHFLASH:HEXPATTERN\n",
    P "Example: SEARCHFLASH:48656C6C6F (search for \x27Hello\x27)\n"],
   [P "ERROR: Hex pattern must have even number of digits\n"],
   [patternLengthError],
   [P "ERROR: Missing address\n"],
   [P "ERROR: Missing length\n"],
   [lengthError],
   addressError]


/-! ## Reading the output -/

/-- The FOUND lines of a trace: the `printf` texts that begin with `FOUND: `. -/
def foundLines (ev : List Event) : List (List Char) :=
  (prints ev).filter fun s => "FOUND: ".toList.isPrefixOf s

/-- The character is a decimal digit or a lower-case letter `a`-`f`. -/
def isLowerHex (c : Char) : Bool :=
  (48 ≤ c.toNat && c.toNat ≤ 57) || (97 ≤ c.toNat && c.toNat ≤ 102)


/-! ## Lines of the response

The response is the text written to `stdout`; a line runs up to a newline
character. -/

/-- Whether some line of `text` begins with `w`, where `b` tells whether `text`
itself starts at the beginning of a line. -/
def lineStartsWith (w : List Char) : Bool → List Char → Bool
  | _, [] => false
  | b, c :: cs => (b && w.isPrefixOf (c :: cs)) || lineStartsWith w (c == '\n') cs

/-- Whether the position after `s` is the beginning of a line, where `b` tells
whether the position before `s` is. -/
def endsLine (b : Bool) (s : List Char) : Bool :=
  match s.getLast? with
  | none => b
  | some c => c == '\n'

/-! ## Lines with empty fields

The line a command line is compared with: the leading `:` characters removed and
every run of consecutive `:` replaced by a single one. -/

/-- Replaces every run of consecutive `:` by a single `:`. -/
def collapseColons : List Char → List Char
  | c :: d :: cs =>
    if c = ':' ∧ d = ':' then collapseColons (d :: cs) else c :: collapseColons (d :: cs)
  | l => l

/-- Removes the leading `:` characters and collapses every run of `:`. -/
def normalizeLine (s : List Char) : List Char :=
  collapseColons (s.dropWhile (fun c => c == ':'))

/-! ## Numeric fields

What `strtoul` and `atoi` find at the start of a field, in the words of the C
standard: optional white space, an optional sign, then the digits. -/

/-- The text of a numeric field after the white space and the sign that the
conversions skip. -/
def numberBody (s : List Char) : List Char := (scanSign (s.dropWhile isspace)).2

/-- The character is a hexadecimal digit, of either case. -/
def isHexDigit (c : Char) : Bool := (hexValue c).isSome

/-- The character is a decimal digit. -/
def isDecDigit (c : Char) : Bool := decide (48 ≤ c.toNat ∧ c.toNat ≤ 57)

/-- A digit, as told by `isDigit`, follows the optional white space and sign of the
field. -/
def startsWithDigit (isDigit : Char → Bool) (s : List Char) : Bool :=
  match numberBody s with
  | [] => false
  | c :: _ => isDigit c

/-! ## Properties of the region table -/

theorem boundsFor_eq_some_iff (a e : Nat) :
    boundsFor a = some e ↔ ∃ s, (s, e) ∈ regionTable ∧ s ≤ a ∧ a < e := by
  unfold boundsFor regionTable
  simp only [PICOPEEKER_ROM_START, PICOPEEKER_ROM_END, PICOPEEKER_FLASH_START,
    PICOPEEKER_FLASH_END, PICOPEEKER_SRAM_START, PICOPEEKER_SRAM_END, PICOPEEKER_PERIPH_START,
    PICOPEEKER_PERIPH_END, List.mem_cons, Prod.mk.injEq, List.mem_nil_iff, or_false]
  constructor
  · intro h
    split_ifs at h with h1 h2 h3 h4 <;> simp only [Option.some.injEq] at h
    · exact ⟨0, by omega, by omega, by omega⟩
    · exact ⟨268435456, by omega, by omega, by omega⟩
    · exact ⟨536870912, by omega, by omega, by omega⟩
    · exact ⟨1073741824, by omega, by omega, by omega⟩
  · rintro ⟨s, hs, h1, h2⟩
    split_ifs with g1 g2 g3 g4
    · simp only [Option.some.injEq]; omega
    · simp only [Option.some.injEq]; omega
    · simp only [Option.some.injEq]; omega
    · simp only [Option.some.injEq]; omega
    · exfalso; omega

theorem boundsFor_eq_none_iff (a : Nat) :
    boundsFor a = none ↔ ∀ r ∈ regionTable, ¬ (r.1 ≤ a ∧ a < r.2) := by
  unfold boundsFor regionTable
  simp only [PICOPEEKER_ROM_START, PICOPEEKER_ROM_END, PICOPEEKER_FLASH_START,
    PICOPEEKER_FLASH_END, PICOPEEKER_SRAM_START, PICOPEEKER_SRAM_END, PICOPEEKER_PERIPH_START,
    PICOPEEKER_PERIPH_END, List.mem_cons, List.mem_nil_iff, or_false, forall_eq_or_imp,
    forall_eq]
  split_ifs with g1 g2 g3 g4
  · simp only [reduceCtorEq, false_iff]; omega
  · simp only [reduceCtorEq, false_iff]; omega
  · simp only [reduceCtorEq, false_iff]; omega
  · simp only [reduceCtorEq, false_iff]; omega
  · simp only [true_iff]; omega

/-- C4: the lookup gives the end of the region for every address of ROM, Flash,
SRAM and the peripheral range and nothing for any other address; every region has
`start < end`, the regions are pairwise disjoint, and an address lies in at most
one of them. -/
theorem boundsFor_classifies :
    (∀ a : Nat,
      (a < 0x00004000 → boundsFor a = some 0x00004000) ∧
      (0x10000000 ≤ a ∧ a < 0x10400000 → boundsFor a = some 0x10400000) ∧
      (0x20000000 ≤ a ∧ a < 0x20082000 → boundsFor a = some 0x20082000) ∧
      (0x40000000 ≤ a ∧ a < 0x60000000 → boundsFor a = some 0x60000000) ∧
      (¬ a < 0x00004000 ∧ ¬ (0x10000000 ≤ a ∧ a < 0x10400000) ∧
        ¬ (0x20000000 ≤ a ∧ a < 0x20082000) ∧ ¬ (0x40000000 ≤ a ∧ a < 0x60000000) →
        boundsFor a = none)) ∧
    (∀ r ∈ regionTable, r.1 < r.2) ∧
    regionTable.Pairwise (fun r q => r.2 ≤ q.1 ∨ q.2 ≤ r.1) ∧
    (∀ a : Nat, ∀ r ∈ regionTable, ∀ q ∈ regionTable,
      r.1 ≤ a ∧ a < r.2 → q.1 ≤ a ∧ a < q.2 → r = q) ∧
    (∀ a e : Nat, boundsFor a = some e ↔ ∃ s, (s, e) ∈ regionTable ∧ s ≤ a ∧ a < e) := by
  refine ⟨?_, ?_, ?_, ?_, boundsFor_eq_some_iff⟩
  · intro a
    unfold boundsFor
    simp only [PICOPEEKER_ROM_START, PICOPEEKER_ROM_END, PICOPEEKER_FLASH_START,
      PICOPEEKER_FLASH_END, PICOPEEKER_SRAM_START, PICOPEEKER_SRAM_END,
      PICOPEEKER_PERIPH_START, PICOPEEKER_PERIPH_END]
    refine ⟨?_, ?_, ?_, ?_, ?_⟩ <;> intro h <;> split_ifs <;> first | rfl | omega
  · decide
  · decide
  · intro a r hr q hq h1 h2
    simp only [regionTable, PICOPEEKER_ROM_START, PICOPEEKER_ROM_END, PICOPEEKER_FLASH_START,
      PICOPEEKER_FLASH_END, PICOPEEKER_SRAM_START, PICOPEEKER_SRAM_END,
      PICOPEEKER_PERIPH_START, PICOPEEKER_PERIPH_END, List.mem_cons, List.mem_nil_iff,
      or_false] at hr hq
    rcases hr with rfl | rfl | rfl | rfl <;> rcases hq with rfl | rfl | rfl | rfl <;>
      first | rfl | (exfalso; simp only at h1 h2; omega)

/-! ## Traces -/

theorem loads_append (xs ys : List Event) : loads (xs ++ ys) = loads xs ++ loads ys := by
  induction xs with
  | nil => rfl
  | cons x xs ih => cases x <;> simp [loads, ih]

theorem prints_append (xs ys : List Event) : prints (xs ++ ys) = prints xs ++ prints ys := by
  induction xs with
  | nil => rfl
  | cons x xs ih => cases x <;> simp [prints, ih]

theorem loads_flatMap {α : Type} (l : List α) (f : α → List Event) :
    loads (l.flatMap f) = l.flatMap fun x => loads (f x) := by
  induction l with
  | nil => rfl
  | cons x xs ih => simp [List.flatMap_cons, loads_append, ih]

theorem wrap32_of_lt {n : Nat} (h : n < 4294967296) : wrap32 n = n := Nat.mod_eq_of_lt h

theorem sub32_of_le {a b : Nat} (h : b ≤ a) (ha : a < 4294967296) : sub32 a b = a - b := by
  unfold sub32; omega

/-! ## The hex dump in closed form -/

theorem rowOffsets_of_lt {length i : Nat} (h : i < length) :
    rowOffsets length i = i :: rowOffsets length (i + 16) := by
  unfold rowOffsets
  have e : (length - i + 15) / 16 = (length - (i + 16) + 15) / 16 + 1 := by omega
  rw [e, List.range'_succ]

theorem rowOffsets_of_ge {length i : Nat} (h : length ≤ i) : rowOffsets length i = [] := by
  unfold rowOffsets
  have e : (length - i + 15) / 16 = 0 := by omega
  rw [e]; rfl

theorem hexLoop_eq (env : Target) (address length : Nat) (hl : length ≤ 4294967280) :
    ∀ fuel i, (length - i + 15) / 16 < fuel →
      hexLoop env address length fuel i =
        some ((rowOffsets length i).flatMap (hexRow env address length)) := by
  intro fuel
  induction fuel with
  | zero => intro i h; omega
  | succ fuel ih =>
    intro i h
    unfold hexLoop
    by_cases hi : i < length
    · have hw : wrap32 (i + 16) = i + 16 := wrap32_of_lt (by omega)
      rw [if_pos hi, hw, ih (i + 16) (by omega), rowOffsets_of_lt hi]
      simp [List.flatMap_cons]
    · rw [if_neg hi, rowOffsets_of_ge (by omega)]
      rfl

theorem send_hex_dump_eq (fuel : Nat) (env : Target) (address length : Nat)
    (hl : length ≤ 4294967280) (hf : (length + 15) / 16 < fuel) :
    _picopeeker_send_hex_dump fuel env address length =
      some (hexHeader address length ++
        (rowOffsets length 0).flatMap (hexRow env address length) ++ [P "\n===END===\n"]) := by
  unfold _picopeeker_send_hex_dump
  rw [hexLoop_eq env address length hl fuel 0 (by simpa using hf)]
  rfl

theorem flatMap_range_ite {α : Type} (f : Nat → α) (k : Nat) :
    ∀ m, (List.range m).flatMap (fun j => if j < k then [f j] else []) =
      (List.range (min m k)).map f := by
  intro m
  induction m with
  | zero => simp
  | succ m ih =>
    rw [List.range_succ, List.flatMap_append, ih]
    by_cases h : m < k
    · have e : min (m + 1) k = min m k + 1 := by omega
      have e2 : min m k = m := by omega
      rw [e, List.range_succ, List.map_append, e2]
      simp [h]
    · have e : min (m + 1) k = min m k := by omega
      rw [e]
      simp [h]

theorem loads_hexCells (env : Target) (address length i : Nat)
    (hi : i + 16 ≤ 4294967296) (ha : address + length ≤ 4294967296) :
    loads ((List.range 16).flatMap (hexCell env address length i)) =
      rowAddrs address length i := by
  rw [loads_flatMap]
  have h : ∀ j ∈ List.range 16, loads (hexCell env address length i j) =
      (fun j => if j < length - i then [address + i + j] else []) j := by
    intro j hj
    have hj16 : j < 16 := List.mem_range.mp hj
    have hw : wrap32 (i + j) = i + j := wrap32_of_lt (by omega)
    unfold hexCell
    rw [hw]
    by_cases c : i + j < length
    · have hw2 : wrap32 (address + (i + j)) = address + i + j := by
        rw [wrap32_of_lt (by omega)]; omega
      have c2 : j < length - i := by omega
      simp [c, c2, hw2, loads]
    · have c2 : ¬ j < length - i := by omega
      simp [c, c2, loads, P]
  rw [List.flatMap_congr h, flatMap_range_ite]
  rfl

theorem loads_asciiLoop (env : Target) (address length i : Nat)
    (ha : address + length ≤ 4294967296) :
    ∀ n j, i + j + n ≤ 4294967296 →
      loads (asciiLoop env address length i n j) =
        (List.range' j (min n (length - i - j))).map fun j => address + i + j := by
  intro n
  induction n with
  | zero => intro j _; simp [asciiLoop, loads]
  | succ n ih =>
    intro j hj
    have hw : wrap32 (i + j) = i + j := wrap32_of_lt (by omega)
    unfold asciiLoop
    rw [hw]
    by_cases c : i + j < length
    · have hw2 : wrap32 (address + (i + j)) = address + i + j := by
        rw [wrap32_of_lt (by omega)]; omega
      have e : min (n + 1) (length - i - j) = min n (length - i - (j + 1)) + 1 := by omega
      rw [if_pos c, hw2, e, List.range'_succ]
      simp [loads, ih (j + 1) (by omega)]
    · have e : min (n + 1) (length - i - j) = 0 := by omega
      rw [if_neg c, e]
      rfl

theorem loads_hexRow (env : Target) (address length i : Nat)
    (hi : i + 16 ≤ 4294967296) (ha : address + length ≤ 4294967296) :
    loads (hexRow env address length i) =
      rowAddrs address length i ++ rowAddrs address length i := by
  unfold hexRow
  simp only [loads_append, loads_hexCells env address length i hi ha,
    loads_asciiLoop env address length i ha 16 0 (by omega)]
  simp [loads, P, rowAddrs, List.range_eq_range']

theorem mem_loads_send_hex_dump (fuel : Nat) (env : Target) (address length : Nat)
    (hl : length ≤ 4294967280) (ha : address + length ≤ 4294967296)
    (hf : (length + 15) / 16 < fuel) :
    ∃ dump, _picopeeker_send_hex_dump fuel env address length = some dump ∧
      dump.head? = some (P "=== HEX DUMP ===\n") ∧
      ∀ x, x ∈ loads dump ↔ address ≤ x ∧ x < address + length := by
  refine ⟨_, send_hex_dump_eq fuel env address length hl hf, rfl, ?_⟩
  intro x
  have hrow : ∀ i ∈ rowOffsets length 0, loads (hexRow env address length i) =
      rowAddrs address length i ++ rowAddrs address length i := by
    intro i hi
    unfold rowOffsets at hi
    obtain ⟨r, hr, rfl⟩ := List.mem_range'.mp hi
    exact loads_hexRow env address length _ (by omega) ha
  simp only [loads_append, loads_flatMap, List.flatMap_congr hrow]
  simp only [hexHeader, P, loads, List.nil_append, List.append_nil, List.mem_flatMap,
    List.mem_append, or_self, rowAddrs, List.mem_map, List.mem_range, rowOffsets,
    List.mem_range']
  constructor
  · rintro ⟨i, ⟨r, hr, rfl⟩, j, hj, rfl⟩
    omega
  · intro h
    exact ⟨16 * ((x - address) / 16), ⟨(x - address) / 16, by omega, by omega⟩,
      (x - address) % 16, by omega, by omega⟩

/-! ## The parser, branch by branch -/

theorem strtok_landmarks {cmd : List Char} (h : cmd = "LANDMARKS".toList) :
    strtok cmd ':' = some ("LANDMARKS".toList, []) := by
  subst h; decide

theorem parse_read (fuel : Nat) (env : Target) {cmd rest : List Char}
    (h : strtok cmd ':' = some ("READ".toList, rest)) :
    _picopeeker_parse_command fuel env cmd = readCommand fuel env rest := by
  have hne : cmd ≠ "LANDMARKS".toList := by
    intro hc
    rw [strtok_landmarks hc] at h
    have hk : "LANDMARKS".toList = "READ".toList := (Prod.mk.inj (Option.some.inj h)).1
    revert hk; decide
  have h1 : "READ".toList ≠ "SEARCH".toList := by decide
  have h2 : "READ".toList ≠ "SEARCHFLASH".toList := by decide
  unfold _picopeeker_parse_command
  rw [if_neg hne, h]
  simp only [if_neg h1, if_neg h2, ne_eq, not_true_eq_false, if_false]

theorem readCommand_in_region (fuel : Nat) (env : Target) {rest ta r2 tl r3 : List Char}
    {e : Nat} (hta : strtok rest ':' = some (ta, r2)) (htl : strtok r2 ':' = some (tl, r3))
    (hl1 : 1 ≤ toU32 (atoi tl)) (hl2 : toU32 (atoi tl) ≤ 4096)
    (hb : boundsFor (strtoul ta 16) = some e) :
    readCommand fuel env rest =
      (_picopeeker_send_hex_dump fuel env (strtoul ta 16)
          (min (toU32 (atoi tl)) (e - strtoul ta 16))).map
        (fun dump =>
          (if strtoul ta 16 + toU32 (atoi tl) > e then
            [clampWarning (toU32 (atoi tl)) (e - strtoul ta 16)] else []) ++ dump) := by
  obtain ⟨s, hs, h1, h2⟩ := (boundsFor_eq_some_iff _ _).mp hb
  have he : e ≤ 1610612736 := by
    simp only [regionTable, PICOPEEKER_ROM_START, PICOPEEKER_ROM_END, PICOPEEKER_FLASH_START,
      PICOPEEKER_FLASH_END, PICOPEEKER_SRAM_START, PICOPEEKER_SRAM_END,
      PICOPEEKER_PERIPH_START, PICOPEEKER_PERIPH_END, List.mem_cons, Prod.mk.injEq,
      List.mem_nil_iff, or_false] at hs
    omega
  have hlen : ¬ (toU32 (atoi tl) = 0 ∨ toU32 (atoi tl) > PICOPEEKER_MAX_READ_SIZE) := by
    simp only [PICOPEEKER_MAX_READ_SIZE]; omega
  unfold readCommand
  simp only [hta, htl, if_neg hlen, hb]
  rw [wrap32_of_lt (by omega), sub32_of_le (by omega) (by omega)]
  by_cases c : strtoul ta 16 + toU32 (atoi tl) > e
  · have m : min (toU32 (atoi tl)) (e - strtoul ta 16) = e - strtoul ta 16 := by omega
    rw [if_pos c, if_pos c, m]
    rfl
  · have m : min (toU32 (atoi tl)) (e - strtoul ta 16) = toU32 (atoi tl) := by omega
    rw [if_neg c, if_neg c, m]
    simp

/-! ## READ: clamping, rejection and the order of the checks -/

/-- C1: a READ command whose address lies in a region `[s, e)` of the table and whose
length `l` is in `1..4096` dumps exactly `min l (e - a)` bytes starting at `a`: the
bytes read are those at `a .. a + min l (e - a) - 1`, and the dump is preceded by
the clamp warning naming `l` and `e - a` exactly when `a + l > e`. -/
theorem read_clamps_to_region (fuel : Nat) (env : Target) (cmd rest ta r2 tl r3 : List Char)
    (s e : Nat)
    (hcmd : strtok cmd ':' = some ("READ".toList, rest))
    (hta : strtok rest ':' = some (ta, r2)) (htl : strtok r2 ':' = some (tl, r3))
    (hreg : (s, e) ∈ regionTable) (hs : s ≤ strtoul ta 16) (he : strtoul ta 16 < e)
    (hl1 : 1 ≤ toU32 (atoi tl)) (hl2 : toU32 (atoi tl) ≤ 4096) (hf : 257 ≤ fuel) :
    ∃ dump,
      _picopeeker_send_hex_dump fuel env (strtoul ta 16)
          (min (toU32 (atoi tl)) (e - strtoul ta 16)) = some dump ∧
      dump.head? = some (P "=== HEX DUMP ===\n") ∧
      (∀ x, x ∈ loads dump ↔
        strtoul ta 16 ≤ x ∧ x < strtoul ta 16 + min (toU32 (atoi tl)) (e - strtoul ta 16)) ∧
      _picopeeker_parse_command fuel env cmd =
        some ((if strtoul ta 16 + toU32 (atoi tl) > e then
            [Event.print ("WARNING: Length clamped from ".toList ++ fmt_u (toU32 (atoi tl)) ++
              " to ".toList ++ fmt_u (e - strtoul ta 16) ++
              " bytes to stay within region bounds\n".toList)]
          else []) ++ dump) := by
  have hb : boundsFor (strtoul ta 16) = some e :=
    (boundsFor_eq_some_iff _ _).mpr ⟨s, hreg, hs, he⟩
  have hE : e ≤ 1610612736 := by
    simp only [regionTable, PICOPEEKER_ROM_START, PICOPEEKER_ROM_END, PICOPEEKER_FLASH_START,
      PICOPEEKER_FLASH_END, PICOPEEKER_SRAM_START, PICOPEEKER_SRAM_END,
      PICOPEEKER_PERIPH_START, PICOPEEKER_PERIPH_END, List.mem_cons, Prod.mk.injEq,
      List.mem_nil_iff, or_false] at hreg
    omega
  obtain ⟨dump, hd, hh, hm⟩ := mem_loads_send_hex_dump fuel env (strtoul ta 16)
    (min (toU32 (atoi tl)) (e - strtoul ta 16)) (by omega) (by omega) (by omega)
  refine ⟨dump, hd, hh, hm, ?_⟩
  rw [parse_read fuel env hcmd, readCommand_in_region fuel env hta htl hl1 hl2 hb, hd]
  rfl

theorem read_clamps_to_region_witness :
    ∃ dump,
      _picopeeker_send_hex_dump 257 ⟨fun _ => 0, 0⟩ 0x20081ff0 16 = some dump ∧
      dump.head? = some (P "=== HEX DUMP ===\n") ∧
      (∀ x, x ∈ loads dump ↔ 0x20081ff0 ≤ x ∧ x < 0x20081ff0 + 16) ∧
      _picopeeker_parse_command 257 ⟨fun _ => 0, 0⟩ "READ:0x20081ff0:32".toList =
        some ([Event.print
          "WARNING: Length clamped from 32 to 16 bytes to stay within region bounds\n".toList]
          ++ dump) :=
  read_clamps_to_region 257 ⟨fun _ => 0, 0⟩ "READ:0x20081ff0:32".toList
    "0x20081ff0:32".toList "0x20081ff0".toList "32".toList "32".toList [] 0x20000000 0x20082000
    (by decide) (by decide) (by decide) (by decide) (by decide) (by decide) (by decide)
    (by decide) (by decide)

/-- C2: a READ command with a length in `1..4096` whose address lies in none of the
four regions is answered by the address error followed by the valid-range table;
no dump is produced and no memory byte is read. -/
theorem read_outside_regions_rejected (fuel : Nat) (env : Target)
    (cmd rest ta r2 tl r3 : List Char)
    (hcmd : strtok cmd ':' = some ("READ".toList, rest))
    (hta : strtok rest ':' = some (ta, r2)) (htl : strtok r2 ':' = some (tl, r3))
    (hl1 : 1 ≤ toU32 (atoi tl)) (hl2 : toU32 (atoi tl) ≤ 4096)
    (hout : ∀ r ∈ regionTable, ¬ (r.1 ≤ strtoul ta 16 ∧ strtoul ta 16 < r.2)) :
    ∃ ev, _picopeeker_parse_command fuel env cmd = some ev ∧
      loads ev = [] ∧
      prints ev =
        ["ERROR: Address out of valid range\n".toList,
         "Valid ranges:\n".toList,
         "  ROM:         0x00000000-0x00003fff\n".toList,
         "  Flash:       0x10000000-0x103fffff\n".toList,
         "  SRAM:        0x20000000-0x20081fff\n".toList,
         "  Peripherals: 0x40000000-0x5fffffff\n".toList] := by
  have hb : boundsFor (strtoul ta 16) = none := (boundsFor_eq_none_iff _).mpr hout
  have hlen : ¬ (toU32 (atoi tl) = 0 ∨ toU32 (atoi tl) > PICOPEEKER_MAX_READ_SIZE) := by
    simp only [PICOPEEKER_MAX_READ_SIZE]; omega
  refine ⟨addressError, ?_, by decide, by decide⟩
  rw [parse_read fuel env hcmd]
  unfold readCommand
  simp only [hta, htl, if_neg hlen, hb]

theorem read_outside_regions_rejected_witness :
    ∃ ev, _picopeeker_parse_command 0 ⟨fun _ => 0, 0⟩ "READ:0x90000000:10".toList = some ev ∧
      loads ev = [] ∧
      prints ev =
        ["ERROR: Address out of valid range\n".toList,
         "Valid ranges:\n".toList,
         "  ROM:         0x00000000-0x00003fff\n".toList,
         "  Flash:       0x10000000-0x103fffff\n".toList,
         "  SRAM:        0x20000000-0x20081fff\n".toList,
         "  Peripherals: 0x40000000-0x5fffffff\n".toList] :=
  read_outside_regions_rejected 0 ⟨fun _ => 0, 0⟩ "READ:0x90000000:10".toList
    "0x90000000:10".toList "0x90000000".toList "10".toList "10".toList []
    (by decide) (by decide) (by decide) (by decide) (by decide) (by decide)

theorem read_order_library (fuel : Nat) (env : Target) (cmd rest : List Char)
    (hcmd : strtok cmd ':' = some ("READ".toList, rest)) :
    (strtok rest ':' = none →
      _picopeeker_parse_command fuel env cmd = some [P "ERROR: Missing address\n"]) ∧
    (∀ ta r2, strtok rest ':' = some (ta, r2) →
      (strtok r2 ':' = none →
        _picopeeker_parse_command fuel env cmd = some [P "ERROR: Missing length\n"]) ∧
      (∀ tl r3, strtok r2 ':' = some (tl, r3) →
        (toU32 (atoi tl) = 0 ∨ toU32 (atoi tl) > 4096 →
          _picopeeker_parse_command fuel env cmd =
            some [Event.print "ERROR: Length must be 1-4096\n".toList]) ∧
        (1 ≤ toU32 (atoi tl) ∧ toU32 (atoi tl) ≤ 4096 →
          (boundsFor (strtoul ta 16) = none →
            _picopeeker_parse_command fuel env cmd = some addressError) ∧
          (∀ e, boundsFor (strtoul ta 16) = some e → 257 ≤ fuel →
            ∃ ev, _picopeeker_parse_command fuel env cmd = some ev ∧
              (ev.head? = some (P "=== HEX DUMP ===\n") ∨
               ev.head? = some (clampWarning (toU32 (atoi tl)) (e - strtoul ta 16))))))) := by
  rw [parse_read fuel env hcmd]
  refine ⟨?_, ?_⟩
  · intro h
    unfold readCommand
    simp only [h]
  · intro ta r2 hta
    refine ⟨?_, ?_⟩
    · intro h
      unfold readCommand
      simp only [hta, h]
    · intro tl r3 htl
      refine ⟨?_, ?_⟩
      · intro h
        have hlen : toU32 (atoi tl) = 0 ∨ toU32 (atoi tl) > PICOPEEKER_MAX_READ_SIZE := h
        unfold readCommand
        simp only [hta, htl, if_pos hlen]
        rfl
      · rintro ⟨hl1, hl2⟩
        refine ⟨?_, ?_⟩
        · intro hb
          have hlen : ¬ (toU32 (atoi tl) = 0 ∨ toU32 (atoi tl) > PICOPEEKER_MAX_READ_SIZE) := by
            simp only [PICOPEEKER_MAX_READ_SIZE]; omega
          unfold readCommand
          simp only [hta, htl, if_neg hlen, hb]
        · intro e hb hf
          obtain ⟨s, hs, h1, h2⟩ := (boundsFor_eq_some_iff _ _).mp hb
          have hE : e ≤ 1610612736 := by
            simp only [regionTable, PICOPEEKER_ROM_START, PICOPEEKER_ROM_END,
              PICOPEEKER_FLASH_START, PICOPEEKER_FLASH_END, PICOPEEKER_SRAM_START,
              PICOPEEKER_SRAM_END, PICOPEEKER_PERIPH_START, PICOPEEKER_PERIPH_END,
              List.mem_cons, Prod.mk.injEq, List.mem_nil_iff, or_false] at hs
            omega
          obtain ⟨dump, hd, hh, -⟩ := mem_loads_send_hex_dump fuel env (strtoul ta 16)
            (min (toU32 (atoi tl)) (e - strtoul ta 16)) (by omega) (by omega) (by omega)
          rw [readCommand_in_region fuel env hta htl hl1 hl2 hb, hd]
          refine ⟨_, rfl, ?_⟩
          by_cases c : strtoul ta 16 + toU32 (atoi tl) > e
          · right; simp only [if_pos c]; rfl
          · left; simp only [if_neg c]; exact hh


theorem standalone_boundsFor (a : Nat) : MemoryExplorer.boundsFor a = boundsFor a := rfl

theorem standalone_parse_read (fuel : Nat) (env : Target) (g : MemoryExplorer.Globals)
    {cmd rest : List Char} (h : strtok cmd ':' = some ("READ".toList, rest)) :
    MemoryExplorer.parse_command fuel env g cmd = MemoryExplorer.readCommand fuel env rest := by
  have hne : cmd ≠ "LANDMARKS".toList := by
    intro hc
    rw [strtok_landmarks hc] at h
    have hk : "LANDMARKS".toList = "READ".toList := (Prod.mk.inj (Option.some.inj h)).1
    revert hk; decide
  have h1 : "READ".toList ≠ "SEARCH".toList := by decide
  unfold MemoryExplorer.parse_command
  rw [if_neg hne, h]
  simp only [if_neg h1, ne_eq, not_true_eq_false, if_false]

theorem standalone_send_hex_dump_head (fuel : Nat) (env : Target) (address length : Nat)
    (hl : length ≤ 4294967280) (hf : (length + 15) / 16 < fuel) :
    ∃ dump, MemoryExplorer.send_hex_dump fuel env address length = some dump ∧
      dump.head? = some (P "=== HEX DUMP ===\n") := by
  unfold MemoryExplorer.send_hex_dump
  rw [hexLoop_eq env address length hl fuel 0 (by simpa using hf)]
  exact ⟨_, rfl, rfl⟩

theorem read_order_standalone (fuel : Nat) (env : Target) (g : MemoryExplorer.Globals)
    (cmd rest : List Char) (hcmd : strtok cmd ':' = some ("READ".toList, rest)) :
    (strtok rest ':' = none →
      MemoryExplorer.parse_command fuel env g cmd = some [P "ERROR: Missing address\n"]) ∧
    (∀ ta r2, strtok rest ':' = some (ta, r2) →
      (strtok r2 ':' = none →
        MemoryExplorer.parse_command fuel env g cmd = some [P "ERROR: Missing length\n"]) ∧
      (∀ tl r3, strtok r2 ':' = some (tl, r3) →
        (toU32 (atoi tl) = 0 ∨ toU32 (atoi tl) > 4096 →
          MemoryExplorer.parse_command fuel env g cmd =
            some [Event.print "ERROR: Length must be 1-4096\n".toList]) ∧
        (1 ≤ toU32 (atoi tl) ∧ toU32 (atoi tl) ≤ 4096 →
          (boundsFor (strtoul ta 16) = none →
            MemoryExplorer.parse_command fuel env g cmd = some MemoryExplorer.addressError) ∧
          (∀ e, boundsFor (strtoul ta 16) = some e → 257 ≤ fuel →
            ∃ ev, MemoryExplorer.parse_command fuel env g cmd = some ev ∧
              (ev.head? = some (P "=== HEX DUMP ===\n") ∨
               ev.head? = some (clampWarning (toU32 (atoi tl)) (e - strtoul ta 16))))))) := by
  rw [standalone_parse_read fuel env g hcmd]
  refine ⟨?_, ?_⟩
  · intro h
    unfold MemoryExplorer.readCommand
    simp only [h]
  · intro ta r2 hta
    refine ⟨?_, ?_⟩
    · intro h
      unfold MemoryExplorer.readCommand
      simp only [hta, h]
    · intro tl r3 htl
      refine ⟨?_, ?_⟩
      · intro h
        unfold MemoryExplorer.readCommand
        simp only [hta, htl, if_pos h]
        rfl
      · rintro ⟨hl1, hl2⟩
        have hlen : ¬ (toU32 (atoi tl) = 0 ∨ toU32 (atoi tl) > 4096) := by omega
        refine ⟨?_, ?_⟩
        · intro hb
          unfold MemoryExplorer.readCommand
          simp only [hta, htl, if_neg hlen, standalone_boundsFor, hb]
        · intro e hb hf
          obtain ⟨s, hs, h1, h2⟩ := (boundsFor_eq_some_iff _ _).mp hb
          have hE : e ≤ 1610612736 := by
            simp only [regionTable, PICOPEEKER_ROM_START, PICOPEEKER_ROM_END,
              PICOPEEKER_FLASH_START, PICOPEEKER_FLASH_END, PICOPEEKER_SRAM_START,
              PICOPEEKER_SRAM_END, PICOPEEKER_PERIPH_START, PICOPEEKER_PERIPH_END,
              List.mem_cons, Prod.mk.injEq, List.mem_nil_iff, or_false] at hs
            omega
          unfold MemoryExplorer.readCommand
          simp only [hta, htl, if_neg hlen, standalone_boundsFor, hb]
          rw [wrap32_of_lt (by omega), sub32_of_le (by omega) (by omega)]
          by_cases c : strtoul ta 16 + toU32 (atoi tl) > e
          · obtain ⟨dump, hd, -⟩ := standalone_send_hex_dump_head fuel env (strtoul ta 16)
              (e - strtoul ta 16) (by omega) (by omega)
            rw [if_pos c, hd]
            exact ⟨_, rfl, Or.inr rfl⟩
          · obtain ⟨dump, hd, hh⟩ := standalone_send_hex_dump_head fuel env (strtoul ta 16)
              (toU32 (atoi tl)) (by omega) (by omega)
            rw [if_neg c, hd]
            exact ⟨_, rfl, Or.inl hh⟩

/-- C5: the checks of READ run in the stated order, in the library parser and in
the parser of the standalone program alike. With the keyword READ read: no address
field gives the missing-address error; an address field and no length field gives
the missing-length error; a length of 0 or above 4096 (a negative number converted
to `uint32_t` included) gives the length error whatever the address is; a length
in `1..4096` never gives the length error: the answer is the address error when
the address is in no region and otherwise starts with the clamp warning or the
dump header. -/
theorem read_validation_order (fuel : Nat) (env : Target) (g : MemoryExplorer.Globals)
    (cmd rest : List Char) (hcmd : strtok cmd ':' = some ("READ".toList, rest)) :
    ((strtok rest ':' = none →
      _picopeeker_parse_command fuel env cmd = some [P "ERROR: Missing address\n"]) ∧
    (∀ ta r2, strtok rest ':' = some (ta, r2) →
      (strtok r2 ':' = none →
        _picopeeker_parse_command fuel env cmd = some [P "ERROR: Missing length\n"]) ∧
      (∀ tl r3, strtok r2 ':' = some (tl, r3) →
        (toU32 (atoi tl) = 0 ∨ toU32 (atoi tl) > 4096 →
          _picopeeker_parse_command fuel env cmd =
            some [Event.print "ERROR: Length must be 1-4096\n".toList]) ∧
        (1 ≤ toU32 (atoi tl) ∧ toU32 (atoi tl) ≤ 4096 →
          (boundsFor (strtoul ta 16) = none →
            _picopeeker_parse_command fuel env cmd = some addressError) ∧
          (∀ e, boundsFor (strtoul ta 16) = some e → 257 ≤ fuel →
            ∃ ev, _picopeeker_parse_command fuel env cmd = some ev ∧
              (ev.head? = some (P "=== HEX DUMP ===\n") ∨
               ev.head? = some (clampWarning (toU32 (atoi tl)) (e - strtoul ta 16)))))))) ∧
    ((strtok rest ':' = none →
      MemoryExplorer.parse_command fuel env g cmd = some [P "ERROR: Missing address\n"]) ∧
    (∀ ta r2, strtok rest ':' = some (ta, r2) →
      (strtok r2 ':' = none →
        MemoryExplorer.parse_command fuel env g cmd = some [P "ERROR: Missing length\n"]) ∧
      (∀ tl r3, strtok r2 ':' = some (tl, r3) →
        (toU32 (atoi tl) = 0 ∨ toU32 (atoi tl) > 4096 →
          MemoryExplorer.parse_command fuel env g cmd =
            some [Event.print "ERROR: Length must be 1-4096\n".toList]) ∧
        (1 ≤ toU32 (atoi tl) ∧ toU32 (atoi tl) ≤ 4096 →
          (boundsFor (strtoul ta 16) = none →
            MemoryExplorer.parse_command fuel env g cmd = some MemoryExplorer.addressError) ∧
          (∀ e, boundsFor (strtoul ta 16) = some e → 257 ≤ fuel →
            ∃ ev, MemoryExplorer.parse_command fuel env g cmd = some ev ∧
              (ev.head? = some (P "=== HEX DUMP ===\n") ∨
               ev.head? = some (clampWarning (toU32 (atoi tl)) (e - strtoul ta 16)))))))) :=
  ⟨read_order_library fuel env cmd rest hcmd, read_order_standalone fuel env g cmd rest hcmd⟩

theorem read_validation_order_witness :
    _picopeeker_parse_command 0 ⟨fun _ => 0, 0⟩ "READ:0x90000000:-1".toList =
      some [Event.print "ERROR: Length must be 1-4096\n".toList] ∧
    MemoryExplorer.parse_command 0 ⟨fun _ => 0, 0⟩ ⟨0, 0⟩ "READ:0x90000000:-1".toList =
      some [Event.print "ERROR: Length must be 1-4096\n".toList] :=
  have h := read_validation_order 0 ⟨fun _ => 0, 0⟩ ⟨0, 0⟩ "READ:0x90000000:-1".toList
    "0x90000000:-1".toList (by decide)
  ⟨((h.1.2 "0x90000000".toList "-1".toList (by decide)).2 "-1".toList [] (by decide)).1
      (by decide),
   ((h.2.2 "0x90000000".toList "-1".toList (by decide)).2 "-1".toList [] (by decide)).1
      (by decide)⟩

/-! ## The search in closed form -/

theorem searchLoop_eq_scan (env : Target) (start_addr bound : Nat) (pattern : List Nat)
    (hb : bound ≤ 4294967294) :
    ∀ fuel offset found_count, bound + 1 - offset < fuel →
      searchLoop env start_addr bound pattern fuel offset found_count =
        some (scanOffsets env start_addr pattern
          (List.range' offset (bound + 1 - offset)) found_count) := by
  intro fuel
  induction fuel with
  | zero => intro offset fc h; omega
  | succ fuel ih =>
    intro offset fc h
    unfold searchLoop
    by_cases ho : offset ≤ bound
    · have hw : wrap32 (offset + 1) = offset + 1 := wrap32_of_lt (by omega)
      have e : bound + 1 - offset = (bound + 1 - (offset + 1)) + 1 := by omega
      rw [if_pos ho, hw, e, List.range'_succ, ih (offset + 1) _ (by omega),
        ih (offset + 1) _ (by omega)]
      simp only [scanOffsets]
      split_ifs <;> rfl
    · have e : bound + 1 - offset = 0 := by omega
      rw [if_neg ho, e]
      rfl

theorem matchLoop_snd (env : Target) (start_addr offset : Nat) :
    ∀ (ps : List Nat) (i : Nat), (matchLoop env start_addr offset ps i).2 = true ↔
      ∀ k, k < ps.length →
        env.byteAt (wrap32 (start_addr + wrap32 (offset + (i + k)))) = ps.getD k 0 := by
  intro ps
  induction ps with
  | nil => intro i; simp [matchLoop]
  | cons p ps ih =>
    intro i
    unfold matchLoop
    by_cases c : env.byteAt (wrap32 (start_addr + wrap32 (offset + i))) = p
    · simp only [ne_eq, c, not_true_eq_false, if_false, ih (i + 1), List.length_cons]
      constructor
      · intro h k hk
        cases k with
        | zero => simpa using c
        | succ k =>
          have := h k (by omega)
          simpa [Nat.add_assoc, Nat.add_comm 1 k] using this
      · intro h k hk
        have := h (k + 1) (by omega)
        simpa [Nat.add_assoc, Nat.add_comm 1 k] using this
    · simp only [ne_eq, c, not_false_eq_true, if_true, List.length_cons]
      constructor
      · intro h; cases h
      · intro h
        exact absurd (by simpa using h 0 (by omega)) c

theorem loads_matchLoop (env : Target) (start_addr offset : Nat) :
    ∀ (ps : List Nat) (i x : Nat), x ∈ loads (matchLoop env start_addr offset ps i).1 →
      ∃ k, k < ps.length ∧ x = wrap32 (start_addr + wrap32 (offset + (i + k))) := by
  intro ps
  induction ps with
  | nil => intro i x h; simp [matchLoop, loads] at h
  | cons p ps ih =>
    intro i x h
    unfold matchLoop at h
    split_ifs at h with c
    · simp only [loads, List.mem_singleton] at h
      exact ⟨0, by simp, by simpa using h⟩
    · simp only [loads, List.mem_cons] at h
      rcases h with h | h
      · exact ⟨0, by simp, by simpa using h⟩
      · obtain ⟨k, hk, hx⟩ := ih (i + 1) x h
        refine ⟨k + 1, by simpa using hk, ?_⟩
        rw [hx]
        congr 3
        omega

theorem prints_matchLoop (env : Target) (start_addr offset : Nat) :
    ∀ (ps : List Nat) (i : Nat), prints (matchLoop env start_addr offset ps i).1 = [] := by
  intro ps
  induction ps with
  | nil => intro i; rfl
  | cons p ps ih =>
    intro i
    unfold matchLoop
    split_ifs
    · rfl
    · simp only [prints]; exact ih (i + 1)

theorem stopLine_eq : stopLine = Event.print "(stopping after 100 matches)\n".toList := by
  decide

theorem prints_scanOffsets (env : Target) (start_addr : Nat) (pattern : List Nat) :
    ∀ (offs : List Nat) (fc : Nat), fc < 100 →
      prints (scanOffsets env start_addr pattern offs fc).1 =
        ((offs.filter fun o => (matchLoop env start_addr o pattern 0).2).take (100 - fc)).map
            (fun o => "FOUND: 0x".toList ++ fmt_08x (wrap32 (start_addr + o)) ++ "\n".toList) ++
          (if 100 - fc ≤ (offs.filter fun o => (matchLoop env start_addr o pattern 0).2).length
            then ["(stopping after 100 matches)\n".toList] else []) := by
  intro offs
  induction offs with
  | nil => intro fc h; simp [scanOffsets, prints]; omega
  | cons o os ih =>
    intro fc h
    simp only [scanOffsets]
    by_cases c : (matchLoop env start_addr o pattern 0).2 = true
    · have fe : (List.filter (fun o => (matchLoop env start_addr o pattern 0).2) (o :: os)) =
          o :: List.filter (fun o => (matchLoop env start_addr o pattern 0).2) os :=
        List.filter_cons_of_pos (p := fun o => (matchLoop env start_addr o pattern 0).2) c
      rw [if_pos c, fe]
      by_cases d : fc + 1 ≥ PICOPEEKER_MAX_SEARCH_RESULTS
      · have e : 100 - fc = 1 := by simp only [PICOPEEKER_MAX_SEARCH_RESULTS] at d; omega
        rw [if_pos d, e]
        simp [prints_append, prints_matchLoop, prints, foundLine, stopLine_eq]
      · have d2 : fc + 1 < 100 := by simp only [PICOPEEKER_MAX_SEARCH_RESULTS] at d; omega
        have e : 100 - fc = (100 - (fc + 1)) + 1 := by omega
        rw [if_neg d, e]
        simp only [prints_append, prints_matchLoop, prints, foundLine, List.nil_append,
          ih (fc + 1) d2, List.take_succ_cons, List.map_cons, List.cons_append,
          List.length_cons, Nat.add_le_add_iff_right]
    · have fe : (List.filter (fun o => (matchLoop env start_addr o pattern 0).2) (o :: os)) =
          List.filter (fun o => (matchLoop env start_addr o pattern 0).2) os :=
        List.filter_cons_of_neg (p := fun o => (matchLoop env start_addr o pattern 0).2) c
      rw [if_neg c, fe]
      simp only [prints_append, prints_matchLoop, List.nil_append, ih fc h]

theorem count_scanOffsets (env : Target) (start_addr : Nat) (pattern : List Nat) :
    ∀ (offs : List Nat) (fc : Nat), fc < 100 →
      (scanOffsets env start_addr pattern offs fc).2 =
        fc + min (100 - fc)
          (offs.filter fun o => (matchLoop env start_addr o pattern 0).2).length := by
  intro offs
  induction offs with
  | nil => intro fc h; simp [scanOffsets]
  | cons o os ih =>
    intro fc h
    simp only [scanOffsets]
    by_cases c : (matchLoop env start_addr o pattern 0).2 = true
    · have fe : (List.filter (fun o => (matchLoop env start_addr o pattern 0).2) (o :: os)) =
          o :: List.filter (fun o => (matchLoop env start_addr o pattern 0).2) os :=
        List.filter_cons_of_pos (p := fun o => (matchLoop env start_addr o pattern 0).2) c
      rw [if_pos c, fe]
      by_cases d : fc + 1 ≥ PICOPEEKER_MAX_SEARCH_RESULTS
      · rw [if_pos d]
        simp only [PICOPEEKER_MAX_SEARCH_RESULTS] at d
        simp only [List.length_cons]
        omega
      · have d2 : fc + 1 < 100 := by simp only [PICOPEEKER_MAX_SEARCH_RESULTS] at d; omega
        rw [if_neg d]
        simp only [ih (fc + 1) d2, List.length_cons]
        omega
    · have fe : (List.filter (fun o => (matchLoop env start_addr o pattern 0).2) (o :: os)) =
          List.filter (fun o => (matchLoop env start_addr o pattern 0).2) os :=
        List.filter_cons_of_neg (p := fun o => (matchLoop env start_addr o pattern 0).2) c
      rw [if_neg c, fe]
      simp only [ih fc h]

theorem loads_scanOffsets (env : Target) (start_addr : Nat) (pattern : List Nat) :
    ∀ (offs : List Nat) (fc x : Nat), x ∈ loads (scanOffsets env start_addr pattern offs fc).1 →
      ∃ o ∈ offs, ∃ k, k < pattern.length ∧ x = wrap32 (start_addr + wrap32 (o + k)) := by
  intro offs
  induction offs with
  | nil => intro fc x h; simp [scanOffsets, loads] at h
  | cons o os ih =>
    intro fc x h
    have key : x ∈ loads (matchLoop env start_addr o pattern 0).1 ∨
        (∃ fc2, x ∈ loads (scanOffsets env start_addr pattern os fc2).1) := by
      simp only [scanOffsets] at h
      split_ifs at h
      · simp only [loads_append, List.mem_append, foundLine, stopLine, loads,
          List.not_mem_nil, or_false] at h
        exact Or.inl h
      · simp only [loads_append, List.mem_append, foundLine, loads] at h
        exact h.imp id fun h2 => ⟨_, h2⟩
      · simp only [loads_append, List.mem_append] at h
        exact h.imp id fun h2 => ⟨_, h2⟩
    rcases key with h1 | ⟨fc2, h2⟩
    · obtain ⟨k, hk, hx⟩ := loads_matchLoop env start_addr o pattern 0 x h1
      exact ⟨o, List.mem_cons_self _ _, k, hk, by simpa using hx⟩
    · obtain ⟨o2, ho2, k, hk, hx⟩ := ih fc2 x h2
      exact ⟨o2, List.mem_cons_of_mem _ ho2, k, hk, hx⟩

theorem matchLoop_eq_occursAt (env : Target) (start_addr : Nat) (pattern : List Nat) (o : Nat)
    (h : start_addr + o + pattern.length ≤ 4294967296) :
    (matchLoop env start_addr o pattern 0).2 = occursAt env start_addr pattern o := by
  have key : (matchLoop env start_addr o pattern 0).2 = true ↔
      occursAt env start_addr pattern o = true := by
    rw [matchLoop_snd]
    unfold occursAt
    simp only [decide_eq_true_eq]
    constructor
    · intro g i hi
      have w1 : wrap32 (o + i) = o + i := wrap32_of_lt (by omega)
      have w2 : wrap32 (start_addr + (o + i)) = start_addr + o + i := by
        rw [wrap32_of_lt (by omega)]; omega
      have := g i hi
      rwa [Nat.zero_add, w1, w2] at this
    · intro g i hi
      have w1 : wrap32 (o + i) = o + i := wrap32_of_lt (by omega)
      have w2 : wrap32 (start_addr + (o + i)) = start_addr + o + i := by
        rw [wrap32_of_lt (by omega)]; omega
      rw [Nat.zero_add, w1, w2]
      exact g i hi
  cases hm : (matchLoop env start_addr o pattern 0).2 <;>
    cases ho : occursAt env start_addr pattern o <;> simp_all

theorem search_region_eq (fuel : Nat) (env : Target) (start_addr end_addr : Nat)
    (region_name : List Char) (pattern : List Nat)
    (hs : start_addr ≤ end_addr) (he : end_addr < 4294967296)
    (hp1 : 1 ≤ pattern.length) (hp2 : pattern.length ≤ end_addr - start_addr)
    (hf : end_addr - start_addr - pattern.length + 1 < fuel) :
    _picopeeker_search_region fuel env start_addr end_addr region_name pattern =
      some (searchHeader start_addr end_addr region_name pattern ++
        (scanOffsets env start_addr pattern
          (List.range (end_addr - start_addr - pattern.length + 1)) 0).1 ++
        [totalLine region_name (scanOffsets env start_addr pattern
          (List.range (end_addr - start_addr - pattern.length + 1)) 0).2]) := by
  unfold _picopeeker_search_region
  have e1 : sub32 end_addr start_addr = end_addr - start_addr := sub32_of_le hs he
  have e2 : sub32 (end_addr - start_addr) pattern.length =
      end_addr - start_addr - pattern.length := sub32_of_le hp2 (by omega)
  rw [e1, e2, searchLoop_eq_scan env start_addr _ pattern (by omega) fuel 0 0 (by omega),
    List.range_eq_range']
  rfl

theorem filter_matchLoop_eq (env : Target) (start_addr end_addr : Nat) (pattern : List Nat)
    (hs : start_addr ≤ end_addr) (he : end_addr < 4294967296)
    (hp2 : pattern.length ≤ end_addr - start_addr) :
    (List.range (end_addr - start_addr - pattern.length + 1)).filter
        (fun o => (matchLoop env start_addr o pattern 0).2) =
      matchOffsets env start_addr end_addr pattern := by
  unfold matchOffsets
  apply List.filter_congr
  intro o ho
  have := List.mem_range.mp ho
  exact matchLoop_eq_occursAt env start_addr pattern o (by omega)

theorem mem_matchOffsets (env : Target) (start_addr end_addr : Nat) (pattern : List Nat)
    (o : Nat) :
    o ∈ matchOffsets env start_addr end_addr pattern ↔
      o ≤ end_addr - start_addr - pattern.length ∧
      ∀ i, i < pattern.length → env.byteAt (start_addr + o + i) = pattern.getD i 0 := by
  unfold matchOffsets occursAt
  simp only [List.mem_filter, List.mem_range, decide_eq_true_eq]
  constructor
  · rintro ⟨h1, h2⟩; exact ⟨by omega, h2⟩
  · rintro ⟨h1, h2⟩; exact ⟨by omega, h2⟩

theorem pairwise_matchOffsets (env : Target) (start_addr end_addr : Nat) (pattern : List Nat)
    (n : Nat) :
    (((matchOffsets env start_addr end_addr pattern).take n).map
      fun o => start_addr + o).Pairwise (fun a b => a < b) := by
  rw [List.pairwise_map]
  have h1 : (List.range (end_addr - start_addr - pattern.length + 1)).Pairwise
      (fun a b => a < b) := List.pairwise_lt_range _
  have h2 : (matchOffsets env start_addr end_addr pattern).Pairwise (fun a b => a < b) :=
    h1.sublist (List.filter_sublist _)
  have h3 := h2.sublist (List.take_sublist n _)
  exact h3.imp (fun h => by omega)

theorem loads_searchHeader (start_addr end_addr : Nat) (region_name : List Char)
    (pattern : List Nat) : loads (searchHeader start_addr end_addr region_name pattern) = [] := by
  have h : ∀ l : List Nat, loads (l.map fun b => Event.print (fmt_02x b ++ [' '])) = [] := by
    intro l
    induction l with
    | nil => rfl
    | cons b bs ih => simpa [loads] using ih
  unfold searchHeader
  simp [loads_append, loads, P, h]

theorem mem_loads_search_region (fuel : Nat) (env : Target) (start_addr end_addr : Nat)
    (region_name : List Char) (pattern : List Nat)
    (hs : start_addr ≤ end_addr) (he : end_addr < 4294967296)
    (hp1 : 1 ≤ pattern.length) (hp2 : pattern.length ≤ end_addr - start_addr)
    (hf : end_addr - start_addr - pattern.length + 1 < fuel) :
    ∃ ev, _picopeeker_search_region fuel env start_addr end_addr region_name pattern = some ev ∧
      ∀ x ∈ loads ev, start_addr ≤ x ∧ x < end_addr := by
  refine ⟨_, search_region_eq fuel env start_addr end_addr region_name pattern hs he hp1 hp2 hf,
    ?_⟩
  intro x hx
  have ht : ∀ c, loads [totalLine region_name c] = [] := fun _ => rfl
  rw [loads_append, loads_append, loads_searchHeader, ht, List.nil_append,
    List.append_nil] at hx
  obtain ⟨o, ho, k, hk, rfl⟩ := loads_scanOffsets env start_addr pattern _ 0 x hx
  have := List.mem_range.mp ho
  rw [wrap32_of_lt (by omega : o + k < 4294967296), wrap32_of_lt (by omega)]
  omega

theorem search_region_closed (fuel : Nat) (env : Target) (start_addr end_addr : Nat)
    (region_name : List Char) (pattern : List Nat)
    (hs : start_addr ≤ end_addr) (he : end_addr < 4294967296)
    (hp1 : 1 ≤ pattern.length) (hp2 : pattern.length ≤ end_addr - start_addr)
    (hf : end_addr - start_addr - pattern.length + 1 < fuel) :
    ∃ ev, _picopeeker_search_region fuel env start_addr end_addr region_name pattern = some ev ∧
      prints ev =
        prints (searchHeader start_addr end_addr region_name pattern) ++
        ((matchOffsets env start_addr end_addr pattern).take 100).map
          (fun o => "FOUND: 0x".toList ++ fmt_08x (start_addr + o) ++ "\n".toList) ++
        (if 100 ≤ (matchOffsets env start_addr end_addr pattern).length
          then ["(stopping after 100 matches)\n".toList] else []) ++
        ["Total matches in ".toList ++ region_name ++ ": ".toList ++
          fmt_u (min 100 (matchOffsets env start_addr end_addr pattern).length) ++
          "\n\n".toList] ∧
      (((matchOffsets env start_addr end_addr pattern).take 100).map
        fun o => start_addr + o).Pairwise (fun a b => a < b) ∧
      (∀ o, o ∈ matchOffsets env start_addr end_addr pattern ↔
        o ≤ end_addr - start_addr - pattern.length ∧
        ∀ i, i < pattern.length → env.byteAt (start_addr + o + i) = pattern.getD i 0) ∧
      ((matchOffsets env start_addr end_addr pattern).length < 100 →
        (matchOffsets env start_addr end_addr pattern).take 100 =
          matchOffsets env start_addr end_addr pattern ∧
        min 100 (matchOffsets env start_addr end_addr pattern).length =
          (matchOffsets env start_addr end_addr pattern).length) := by
  refine ⟨_, search_region_eq fuel env start_addr end_addr region_name pattern hs he hp1 hp2 hf,
    ?_, pairwise_matchOffsets env start_addr end_addr pattern 100,
    mem_matchOffsets env start_addr end_addr pattern, ?_⟩
  · have hmap : ∀ o ∈ (matchOffsets env start_addr end_addr pattern).take 100,
        (fun o => "FOUND: 0x".toList ++ fmt_08x (wrap32 (start_addr + o)) ++ "\n".toList) o =
        (fun o => "FOUND: 0x".toList ++ fmt_08x (start_addr + o) ++ "\n".toList) o := by
      intro o ho
      have hm := (mem_matchOffsets env start_addr end_addr pattern o).mp
        (List.mem_of_mem_take ho)
      simp only
      rw [wrap32_of_lt (by omega)]
    have ht : ∀ c, prints [totalLine region_name c] =
        ["Total matches in ".toList ++ region_name ++ ": ".toList ++ fmt_u c ++
          "\n\n".toList] := fun _ => rfl
    rw [prints_append, prints_append, ht,
      prints_scanOffsets env start_addr pattern _ 0 (by omega),
      count_scanOffsets env start_addr pattern _ 0 (by omega),
      filter_matchLoop_eq env start_addr end_addr pattern hs he hp2, Nat.sub_zero, Nat.zero_add,
      List.map_congr_left hmap]
    simp only [List.append_assoc]
  · intro hlt
    exact ⟨List.take_of_length_le (by omega), by omega⟩

/-! ## PatternSearcher: the hits of a region search -/

/-- C10: on a region `[start, end)` of size at least `pattern_len >= 1` the search
prints, after its header, one FOUND line for `start + o` for each of the first 100
offsets `o` in `0 .. region_size - pattern_len` at which all pattern bytes occur,
in increasing address order, then the stop notice when there are at least 100 such
offsets, then the total, which is the number of matches when that is below 100. -/
theorem search_region_hits (fuel : Nat) (env : Target) (start_addr end_addr : Nat)
    (region_name : List Char) (pattern : List Nat)
    (hs : start_addr ≤ end_addr) (he : end_addr < 4294967296)
    (hp1 : 1 ≤ pattern.length) (hp2 : pattern.length ≤ end_addr - start_addr)
    (hf : end_addr - start_addr - pattern.length + 1 < fuel) :
    ∃ ev, _picopeeker_search_region fuel env start_addr end_addr region_name pattern = some ev ∧
      prints ev =
        prints (searchHeader start_addr end_addr region_name pattern) ++
        ((matchOffsets env start_addr end_addr pattern).take 100).map
          (fun o => "FOUND: 0x".toList ++ fmt_08x (start_addr + o) ++ "\n".toList) ++
        (if 100 ≤ (matchOffsets env start_addr end_addr pattern).length
          then ["(stopping after 100 matches)\n".toList] else []) ++
        ["Total matches in ".toList ++ region_name ++ ": ".toList ++
          fmt_u (min 100 (matchOffsets env start_addr end_addr pattern).length) ++
          "\n\n".toList] ∧
      (((matchOffsets env start_addr end_addr pattern).take 100).map
        fun o => start_addr + o).Pairwise (fun a b => a < b) ∧
      (∀ o, o ∈ matchOffsets env start_addr end_addr pattern ↔
        o ≤ end_addr - start_addr - pattern.length ∧
        ∀ i, i < pattern.length → env.byteAt (start_addr + o + i) = pattern.getD i 0) ∧
      ((matchOffsets env start_addr end_addr pattern).length < 100 →
        (matchOffsets env start_addr end_addr pattern).take 100 =
          matchOffsets env start_addr end_addr pattern ∧
        min 100 (matchOffsets env start_addr end_addr pattern).length =
          (matchOffsets env start_addr end_addr pattern).length) :=
  search_region_closed fuel env start_addr end_addr region_name pattern hs he hp1 hp2 hf

theorem search_region_hits_witness :
    ∃ ev, _picopeeker_search_region 5 ⟨fun _ => 0, 0⟩ 0x20000000 0x20000004 "SRAM".toList
        [0, 0] = some ev ∧
      prints ev =
        ["=== SEARCHING SRAM ===\n".toList,
         "Range: 0x20000000 - 0x20000004 (4 bytes)\n".toList,
         "Pattern: ".toList, "00 ".toList, "00 ".toList, "(2 bytes)\n\n".toList,
         "FOUND: 0x20000000\n".toList, "FOUND: 0x20000001\n".toList,
         "FOUND: 0x20000002\n".toList, "Total matches in SRAM: 3\n\n".toList] := by
  obtain ⟨ev, h1, h2, -⟩ := search_region_hits 5 ⟨fun _ => 0, 0⟩ 0x20000000 0x20000004
    "SRAM".toList [0, 0] (by decide) (by decide) (by decide) (by decide) (by decide)
  refine ⟨ev, h1, ?_⟩
  rw [h2]
  decide

/-! ## SEARCH and SEARCHFLASH -/

theorem parse_search (fuel : Nat) (env : Target) {cmd rest : List Char}
    (h : strtok cmd ':' = some ("SEARCH".toList, rest)) :
    _picopeeker_parse_command fuel env cmd =
      match strtok rest ':' with
      | none =>
        some [P "ERROR: Missing search pattern\n", P "Usage: SEARCH:HEXPATTERN\n",
              P "Example: SEARCH:DEADBEEF\n"]
      | some (token, _) => searchCommand fuel env token false true := by
  have hne : cmd ≠ "LANDMARKS".toList := by
    intro hc
    rw [strtok_landmarks hc] at h
    have hk : "LANDMARKS".toList = "SEARCH".toList := (Prod.mk.inj (Option.some.inj h)).1
    revert hk; decide
  unfold _picopeeker_parse_command
  rw [if_neg hne, h]
  simp only [if_true]

theorem parse_searchflash (fuel : Nat) (env : Target) {cmd rest : List Char}
    (h : strtok cmd ':' = some ("SEARCHFLASH".toList, rest)) :
    _picopeeker_parse_command fuel env cmd =
      match strtok rest ':' with
      | none =>
        some [P "ERROR: Missing search pattern\n", P "Usage: SEARCHFLASH:HEXPATTERN\n",
              P "Example: SEARCHFLASH:48656C6C6F (search for \x27Hello\x27)\n"]
      | some (token, _) => searchCommand fuel env token true false := by
  have hne : cmd ≠ "LANDMARKS".toList := by
    intro hc
    rw [strtok_landmarks hc] at h
    have hk : "LANDMARKS".toList = "SEARCHFLASH".toList := (Prod.mk.inj (Option.some.inj h)).1
    revert hk; decide
  have h1 : "SEARCHFLASH".toList ≠ "SEARCH".toList := by decide
  unfold _picopeeker_parse_command
  rw [if_neg hne, h]
  simp only [if_neg h1, if_true]

theorem search_memory_one (fuel : Nat) (env : Target) (pattern : List Nat) (flash : Bool) :
    _picopeeker_search_memory fuel env pattern flash (!flash) =
      (_picopeeker_search_region fuel env (scopeStart flash) (scopeEnd flash)
          (scopeName flash) pattern).map
        (fun ev => ev ++ [P "===END===\n"]) := by
  unfold _picopeeker_search_memory scopeStart scopeEnd scopeName
  cases flash
  · simp only [Bool.false_eq_true, if_false, Bool.not_false, if_true, Option.some_bind,
      List.nil_append]
  · simp only [if_true, Bool.not_true, Bool.false_eq_true, if_false]
    cases _picopeeker_search_region fuel env PICOPEEKER_FLASH_START PICOPEEKER_FLASH_END
      "FLASH".toList pattern <;> simp

theorem length_decodePattern (token : List Char) (k : Nat) :
    (decodePattern token k).length = k := by
  simp [decodePattern]

theorem parse_search_token (fuel : Nat) (env : Target) (flash : Bool)
    {cmd rest tok r2 : List Char}
    (h : strtok cmd ':' = some (searchKeyword flash, rest))
    (ht : strtok rest ':' = some (tok, r2)) :
    _picopeeker_parse_command fuel env cmd = searchCommand fuel env tok flash (!flash) := by
  cases flash
  · rw [parse_search fuel env h, ht]; rfl
  · rw [parse_searchflash fuel env h, ht]; rfl

theorem scope_bounds (flash : Bool) :
    scopeStart flash ≤ scopeEnd flash ∧ scopeEnd flash < 4294967296 ∧
      scopeEnd flash - scopeStart flash ≤ 4194304 ∧ 64 ≤ scopeEnd flash - scopeStart flash := by
  cases flash <;> decide

theorem searchCommand_accepts (fuel : Nat) (env : Target) (flash : Bool) (tok : List Char)
    (k : Nat) (hk : tok.length = 2 * k) (h1 : 1 ≤ k) (h2 : k ≤ 64) :
    searchCommand fuel env tok flash (!flash) =
      (_picopeeker_search_region fuel env (scopeStart flash) (scopeEnd flash)
          (scopeName flash) (decodePattern tok k)).map
        (fun ev => ev ++ [P "===END===\n"]) := by
  have e1 : ¬ tok.length % 2 ≠ 0 := by omega
  have e2 : ¬ (tok.length / 2 = 0 ∨ tok.length / 2 > PICOPEEKER_MAX_PATTERN_SIZE) := by
    simp only [PICOPEEKER_MAX_PATTERN_SIZE]; omega
  have e3 : tok.length / 2 = k := by omega
  unfold searchCommand
  rw [if_neg e1, if_neg e2, e3, search_memory_one]

/-- C6: for SEARCH and SEARCHFLASH alike, a pattern token of odd length is answered
by the even-digits error alone; a token of `2k` characters with `k = 0` or `k > 64`
is answered by the pattern-length error alone; a token of `2k` characters with
`1 <= k <= 64` runs one region search with a pattern of `k` bytes. -/
theorem pattern_token_checks (fuel : Nat) (env : Target) (flash : Bool)
    (cmd rest tok r2 : List Char)
    (hcmd : strtok cmd ':' = some (searchKeyword flash, rest))
    (htok : strtok rest ':' = some (tok, r2)) :
    (tok.length % 2 = 1 →
      _picopeeker_parse_command fuel env cmd =
        some [Event.print "ERROR: Hex pattern must have even number of digits\n".toList]) ∧
    (∀ k, tok.length = 2 * k → k = 0 ∨ k > 64 →
      _picopeeker_parse_command fuel env cmd =
        some [Event.print "ERROR: Pattern length must be 1-64 bytes\n".toList]) ∧
    (∀ k, tok.length = 2 * k → 1 ≤ k → k ≤ 64 → 4194305 ≤ fuel →
      ∃ ev, _picopeeker_search_region fuel env (scopeStart flash) (scopeEnd flash)
          (scopeName flash) (decodePattern tok k) = some ev ∧
        (decodePattern tok k).length = k ∧
        ev.head? = some (Event.print ("=== SEARCHING ".toList ++ scopeName flash ++
          " ===\n".toList)) ∧
        _picopeeker_parse_command fuel env cmd = some (ev ++ [P "===END===\n"])) := by
  rw [parse_search_token fuel env flash hcmd htok]
  refine ⟨?_, ?_, ?_⟩
  · intro h
    have e1 : tok.length % 2 ≠ 0 := by omega
    unfold searchCommand
    rw [if_pos e1]
    rfl
  · intro k hk h
    have e1 : ¬ tok.length % 2 ≠ 0 := by omega
    have e2 : tok.length / 2 = 0 ∨ tok.length / 2 > PICOPEEKER_MAX_PATTERN_SIZE := by
      simp only [PICOPEEKER_MAX_PATTERN_SIZE]; omega
    unfold searchCommand
    rw [if_neg e1, if_pos e2]
    rfl
  · intro k hk h1 h2 hf
    obtain ⟨hs, he, hsz, hsz2⟩ := scope_bounds flash
    have hlen := length_decodePattern tok k
    have heq := search_region_eq fuel env (scopeStart flash) (scopeEnd flash) (scopeName flash)
      (decodePattern tok k) hs he (by omega) (by omega) (by omega)
    refine ⟨_, heq, hlen, rfl, ?_⟩
    rw [searchCommand_accepts fuel env flash tok k hk h1 h2, heq]
    rfl

theorem pattern_token_checks_witness :
    _picopeeker_parse_command 0 ⟨fun _ => 0, 0⟩ "SEARCH:ABC".toList =
      some [Event.print "ERROR: Hex pattern must have even number of digits\n".toList] :=
  (pattern_token_checks 0 ⟨fun _ => 0, 0⟩ false "SEARCH:ABC".toList "ABC".toList "ABC".toList []
    (by decide) (by decide)).1 (by decide)

theorem searchCommand_total (fuel : Nat) (env : Target) (flash : Bool) (tok : List Char)
    (hf : 4194305 ≤ fuel) :
    ∃ ev, searchCommand fuel env tok flash (!flash) = some ev ∧
      ∀ x ∈ loads ev, scopeStart flash ≤ x ∧ x < scopeEnd flash := by
  by_cases e1 : tok.length % 2 ≠ 0
  · refine ⟨[P "ERROR: Hex pattern must have even number of digits\n"],
      by unfold searchCommand; rw [if_pos e1], ?_⟩
    intro x hx; simp [loads, P] at hx
  · by_cases e2 : tok.length / 2 = 0 ∨ tok.length / 2 > PICOPEEKER_MAX_PATTERN_SIZE
    · refine ⟨[patternLengthError], by unfold searchCommand; rw [if_neg e1, if_pos e2], ?_⟩
      intro x hx; simp [loads, patternLengthError] at hx
    · simp only [PICOPEEKER_MAX_PATTERN_SIZE] at e2
      obtain ⟨hs, he, hsz, hsz2⟩ := scope_bounds flash
      have hlen := length_decodePattern tok (tok.length / 2)
      obtain ⟨ev, hev, hl⟩ := mem_loads_search_region fuel env (scopeStart flash)
        (scopeEnd flash) (scopeName flash) (decodePattern tok (tok.length / 2)) hs he
        (by omega) (by omega) (by omega)
      refine ⟨ev ++ [P "===END===\n"], ?_, ?_⟩
      · rw [searchCommand_accepts fuel env flash tok (tok.length / 2) (by omega) (by omega)
          (by omega), hev]
        rfl
      · intro x hx
        have hE : loads [P "===END===\n"] = [] := rfl
        rw [loads_append, hE, List.append_nil] at hx
        exact hl x hx

theorem readCommand_total (fuel : Nat) (env : Target) (rest : List Char) (hf : 257 ≤ fuel) :
    ∃ ev, readCommand fuel env rest = some ev ∧
      (∀ x ∈ loads ev, ∃ r ∈ regionTable, r.1 ≤ x ∧ x < r.2) ∧
      (∀ ta r2 tl r3 e, strtok rest ':' = some (ta, r2) → strtok r2 ':' = some (tl, r3) →
        boundsFor (strtoul ta 16) = some e → ∀ x ∈ loads ev,
          strtoul ta 16 ≤ x ∧ x < strtoul ta 16 + min (toU32 (atoi tl)) (e - strtoul ta 16) ∧
          strtoul ta 16 + min (toU32 (atoi tl)) (e - strtoul ta 16) ≤ e ∧ e < 4294967296) := by
  have triv : ∀ ev : List Event, loads ev = [] →
      (∀ x ∈ loads ev, ∃ r ∈ regionTable, r.1 ≤ x ∧ x < r.2) ∧
      (∀ ta r2 tl r3 e, strtok rest ':' = some (ta, r2) → strtok r2 ':' = some (tl, r3) →
        boundsFor (strtoul ta 16) = some e → ∀ x ∈ loads ev,
          strtoul ta 16 ≤ x ∧ x < strtoul ta 16 + min (toU32 (atoi tl)) (e - strtoul ta 16) ∧
          strtoul ta 16 + min (toU32 (atoi tl)) (e - strtoul ta 16) ≤ e ∧ e < 4294967296) := by
    intro ev h
    rw [h]
    exact ⟨fun x hx => absurd hx (List.not_mem_nil x),
      fun _ _ _ _ _ _ _ _ x hx => absurd hx (List.not_mem_nil x)⟩
  rcases Option.eq_none_or_eq_some (strtok rest ':') with hta | ⟨⟨ta, r2⟩, hta⟩
  · exact ⟨[P "ERROR: Missing address\n"], by unfold readCommand; simp only [hta], triv _ rfl⟩
  · rcases Option.eq_none_or_eq_some (strtok r2 ':') with htl | ⟨⟨tl, r3⟩, htl⟩
    · exact ⟨[P "ERROR: Missing length\n"], by unfold readCommand; simp only [hta, htl],
        triv _ rfl⟩
    · by_cases hlen : toU32 (atoi tl) = 0 ∨ toU32 (atoi tl) > PICOPEEKER_MAX_READ_SIZE
      · exact ⟨[lengthError], by unfold readCommand; simp only [hta, htl, if_pos hlen],
          triv _ rfl⟩
      · simp only [PICOPEEKER_MAX_READ_SIZE] at hlen
        rcases Option.eq_none_or_eq_some (boundsFor (strtoul ta 16)) with hb | ⟨e, hb⟩
        · have hlen2 : ¬ (toU32 (atoi tl) = 0 ∨ toU32 (atoi tl) > PICOPEEKER_MAX_READ_SIZE) := by
            simp only [PICOPEEKER_MAX_READ_SIZE]; exact hlen
          exact ⟨addressError, by unfold readCommand; simp only [hta, htl, if_neg hlen2, hb],
            triv _ (by decide)⟩
        · obtain ⟨s, hs, h1, h2⟩ := (boundsFor_eq_some_iff _ _).mp hb
          have hE : e ≤ 1610612736 := by
            simp only [regionTable, PICOPEEKER_ROM_START, PICOPEEKER_ROM_END,
              PICOPEEKER_FLASH_START, PICOPEEKER_FLASH_END, PICOPEEKER_SRAM_START,
              PICOPEEKER_SRAM_END, PICOPEEKER_PERIPH_START, PICOPEEKER_PERIPH_END,
              List.mem_cons, Prod.mk.injEq, List.mem_nil_iff, or_false] at hs
            omega
          obtain ⟨dump, hd, -, hm⟩ := mem_loads_send_hex_dump fuel env (strtoul ta 16)
            (min (toU32 (atoi tl)) (e - strtoul ta 16)) (by omega) (by omega) (by omega)
          have hloads : ∀ w : List Event, (∀ y, y ∉ loads w) → ∀ x, x ∈ loads (w ++ dump) →
              strtoul ta 16 ≤ x ∧
              x < strtoul ta 16 + min (toU32 (atoi tl)) (e - strtoul ta 16) := by
            intro w hw x hx
            rw [loads_append, List.mem_append] at hx
            rcases hx with hx | hx
            · exact absurd hx (hw x)
            · exact (hm x).mp hx
          have hwarn : ∀ y, y ∉ loads (if strtoul ta 16 + toU32 (atoi tl) > e then
              [clampWarning (toU32 (atoi tl)) (e - strtoul ta 16)] else []) := by
            intro y
            split_ifs <;> simp [loads, clampWarning]
          have hr := readCommand_in_region fuel env hta htl (by omega) (by omega) hb
          rw [hd] at hr
          refine ⟨_, hr, ?_, ?_⟩
          · intro x hx
            have := hloads _ hwarn x hx
            exact ⟨(s, e), hs, by simp only; omega, by simp only; omega⟩
          · intro ta2 r22 tl2 r32 e2 g1 g2 g3 x hx
            obtain ⟨rfl, rfl⟩ := Prod.mk.inj (Option.some.inj (hta.symm.trans g1))
            obtain ⟨rfl, rfl⟩ := Prod.mk.inj (Option.some.inj (htl.symm.trans g2))
            obtain rfl := Option.some.inj (hb.symm.trans g3)
            have := hloads _ hwarn x hx
            exact ⟨this.1, this.2, by omega, by omega⟩

/-! ## Every read stays inside a region -/

theorem parse_total_loads (fuel : Nat) (env : Target) (cmd : List Char)
    (hf : 4194305 ≤ fuel) :
    ∃ ev, _picopeeker_parse_command fuel env cmd = some ev ∧
      (∀ x ∈ loads ev, ∃ r ∈ regionTable, r.1 ≤ x ∧ x < r.2) ∧
      (∀ rest, strtok cmd ':' = some ("SEARCH".toList, rest) →
        ∀ x ∈ loads ev, 0x20000000 ≤ x ∧ x < 0x20082000) ∧
      (∀ rest, strtok cmd ':' = some ("SEARCHFLASH".toList, rest) →
        ∀ x ∈ loads ev, 0x10000000 ≤ x ∧ x < 0x10400000) ∧
      (∀ rest ta r2 tl r3 e, strtok cmd ':' = some ("READ".toList, rest) →
        strtok rest ':' = some (ta, r2) → strtok r2 ':' = some (tl, r3) →
        boundsFor (strtoul ta 16) = some e → ∀ x ∈ loads ev,
          strtoul ta 16 ≤ x ∧ x < strtoul ta 16 + min (toU32 (atoi tl)) (e - strtoul ta 16) ∧
          strtoul ta 16 + min (toU32 (atoi tl)) (e - strtoul ta 16) ≤ e ∧ e < 4294967296) := by
  have vac : ∀ ev : List Event, loads ev = [] →
      (∀ x ∈ loads ev, ∃ r ∈ regionTable, r.1 ≤ x ∧ x < r.2) ∧
      (∀ rest, strtok cmd ':' = some ("SEARCH".toList, rest) →
        ∀ x ∈ loads ev, 0x20000000 ≤ x ∧ x < 0x20082000) ∧
      (∀ rest, strtok cmd ':' = some ("SEARCHFLASH".toList, rest) →
        ∀ x ∈ loads ev, 0x10000000 ≤ x ∧ x < 0x10400000) ∧
      (∀ rest ta r2 tl r3 e, strtok cmd ':' = some ("READ".toList, rest) →
        strtok rest ':' = some (ta, r2) → strtok r2 ':' = some (tl, r3) →
        boundsFor (strtoul ta 16) = some e → ∀ x ∈ loads ev,
          strtoul ta 16 ≤ x ∧ x < strtoul ta 16 + min (toU32 (atoi tl)) (e - strtoul ta 16) ∧
          strtoul ta 16 + min (toU32 (atoi tl)) (e - strtoul ta 16) ≤ e ∧ e < 4294967296) := by
    intro ev h
    rw [h]
    exact ⟨fun x hx => absurd hx (List.not_mem_nil x),
      fun _ _ x hx => absurd hx (List.not_mem_nil x),
      fun _ _ x hx => absurd hx (List.not_mem_nil x),
      fun _ _ _ _ _ _ _ _ _ _ x hx => absurd hx (List.not_mem_nil x)⟩
  have k1 : "SEARCH".toList ≠ "SEARCHFLASH".toList := by decide
  have k2 : "SEARCH".toList ≠ "READ".toList := by decide
  have k3 : "SEARCHFLASH".toList ≠ "READ".toList := by decide
  have tokEq : ∀ {t1 t2 a b : List Char}, strtok cmd ':' = some (t1, a) →
      strtok cmd ':' = some (t2, b) → t1 = t2 ∧ a = b := by
    intro t1 t2 a b g1 g2
    exact Prod.mk.inj (Option.some.inj (g1.symm.trans g2))
  by_cases hL : cmd = "LANDMARKS".toList
  · exact ⟨_picopeeker_send_landmarks env,
      by unfold _picopeeker_parse_command; rw [if_pos hL], vac _ rfl⟩
  rcases Option.eq_none_or_eq_some (strtok cmd ':') with hs | ⟨⟨tok, rest⟩, hs⟩
  · exact ⟨[P "ERROR: Invalid command\n"],
      by unfold _picopeeker_parse_command; rw [if_neg hL, hs], vac _ rfl⟩
  by_cases t1 : tok = "SEARCH".toList
  · subst t1
    rw [parse_search fuel env hs]
    rcases Option.eq_none_or_eq_some (strtok rest ':') with ht | ⟨⟨t, r2⟩, ht⟩
    · rw [ht]
      exact ⟨_, rfl, vac _ rfl⟩
    · rw [ht]
      obtain ⟨ev, hev, hl⟩ := searchCommand_total fuel env false t hf
      refine ⟨ev, hev, ?_, fun _ _ => hl, ?_, ?_⟩
      · intro x hx
        exact ⟨(PICOPEEKER_SRAM_START, PICOPEEKER_SRAM_END), by simp [regionTable], hl x hx⟩
      · intro rest2 g
        exact absurd (tokEq hs g).1 k1
      · intro rest2 ta r2 tl r3 e g
        exact absurd (tokEq hs g).1 k2
  by_cases t2 : tok = "SEARCHFLASH".toList
  · subst t2
    rw [parse_searchflash fuel env hs]
    rcases Option.eq_none_or_eq_some (strtok rest ':') with ht | ⟨⟨t, r2⟩, ht⟩
    · rw [ht]
      exact ⟨_, rfl, vac _ rfl⟩
    · rw [ht]
      obtain ⟨ev, hev, hl⟩ := searchCommand_total fuel env true t hf
      refine ⟨ev, hev, ?_, ?_, fun _ _ => hl, ?_⟩
      · intro x hx
        exact ⟨(PICOPEEKER_FLASH_START, PICOPEEKER_FLASH_END), by simp [regionTable], hl x hx⟩
      · intro rest2 g
        exact absurd (tokEq hs g).1.symm k1
      · intro rest2 ta r2 tl r3 e g
        exact absurd (tokEq hs g).1 k3
  by_cases t3 : tok = "READ".toList
  · subst t3
    rw [parse_read fuel env hs]
    obtain ⟨ev, hev, hr, hl⟩ := readCommand_total fuel env rest (by omega)
    refine ⟨ev, hev, hr, ?_, ?_, ?_⟩
    · intro rest2 g
      exact absurd (tokEq hs g).1.symm k2
    · intro rest2 g
      exact absurd (tokEq hs g).1.symm k3
    · intro rest2 ta r2 tl r3 e g
      obtain ⟨-, rfl⟩ := tokEq hs g
      exact hl ta r2 tl r3 e
  · refine ⟨[P "ERROR: Invalid command\n"], ?_, vac _ rfl⟩
    unfold _picopeeker_parse_command
    rw [if_neg hL, hs]
    simp only [if_neg t1, if_neg t2, ne_eq, t3, not_false_eq_true, if_true]

/-- C3: for every command line, with fuel for the longest scan, the parser returns
and every address it reads lies inside a region of the table: for SEARCH inside
`[0x20000000, 0x20082000)`, for SEARCHFLASH inside `[0x10000000, 0x10400000)`, for
READ between the requested address `a` and `a + effective_length`, which does not
exceed the end of the region containing `a` and is below `2^32`. -/
theorem loads_within_regions (fuel : Nat) (env : Target) (cmd : List Char)
    (hf : 4194305 ≤ fuel) :
    ∃ ev, _picopeeker_parse_command fuel env cmd = some ev ∧
      (∀ x ∈ loads ev, ∃ r ∈ regionTable, r.1 ≤ x ∧ x < r.2) ∧
      (∀ rest, strtok cmd ':' = some ("SEARCH".toList, rest) →
        ∀ x ∈ loads ev, 0x20000000 ≤ x ∧ x < 0x20082000) ∧
      (∀ rest, strtok cmd ':' = some ("SEARCHFLASH".toList, rest) →
        ∀ x ∈ loads ev, 0x10000000 ≤ x ∧ x < 0x10400000) ∧
      (∀ rest ta r2 tl r3 e, strtok cmd ':' = some ("READ".toList, rest) →
        strtok rest ':' = some (ta, r2) → strtok r2 ':' = some (tl, r3) →
        boundsFor (strtoul ta 16) = some e → ∀ x ∈ loads ev,
          strtoul ta 16 ≤ x ∧ x < strtoul ta 16 + min (toU32 (atoi tl)) (e - strtoul ta 16) ∧
          strtoul ta 16 + min (toU32 (atoi tl)) (e - strtoul ta 16) ≤ e ∧ e < 4294967296) :=
  parse_total_loads fuel env cmd hf

theorem loads_within_regions_witness :
    ∃ ev, _picopeeker_parse_command 4194305 ⟨fun _ => 0, 0⟩ "SEARCH:DEADBEEF".toList =
        some ev ∧
      ∀ x ∈ loads ev, 0x20000000 ≤ x ∧ x < 0x20082000 := by
  obtain ⟨ev, h1, -, h2, -⟩ := loads_within_regions 4194305 ⟨fun _ => 0, 0⟩
    "SEARCH:DEADBEEF".toList (by decide)
  exact ⟨ev, h1, h2 "DEADBEEF".toList (by decide)⟩

/-! ## Decoding of pattern groups -/

theorem hexValue_some {c : Char} {d : Nat} (h : hexValue c = some d) :
    digitVal c = some d ∧ d < 16 ∧ 48 ≤ c.toNat ∧ c.toNat ≠ 120 ∧ c.toNat ≠ 88 := by
  unfold hexValue at h
  unfold digitVal
  split_ifs at h with h1 h2 h3 <;> simp only [Option.some.injEq] at h
  · rw [if_pos h1]; exact ⟨by rw [h], by omega, by omega, by omega, by omega⟩
  · have n1 : ¬ (48 ≤ c.toNat ∧ c.toNat ≤ 57) := h1
    have p2 : 97 ≤ c.toNat ∧ c.toNat ≤ 122 := by omega
    rw [if_neg n1, if_pos p2]
    exact ⟨by congr 1; omega, by omega, by omega, by omega, by omega⟩
  · have n1 : ¬ (48 ≤ c.toNat ∧ c.toNat ≤ 57) := h1
    have n2 : ¬ (97 ≤ c.toNat ∧ c.toNat ≤ 122) := by omega
    have p3 : 65 ≤ c.toNat ∧ c.toNat ≤ 90 := by omega
    rw [if_neg n1, if_neg n2, if_pos p3]
    exact ⟨by congr 1; omega, by omega, by omega, by omega, by omega⟩

theorem hexValue_none {c : Char} (h : hexValue c = none) :
    (∀ d, digitVal c = some d → 16 ≤ d) ∧ c.toNat ≠ 48 := by
  unfold hexValue at h
  unfold digitVal
  split_ifs at h with h1 h2 h3
  refine ⟨?_, by omega⟩
  intro d hd
  split_ifs at hd <;> simp only [Option.some.injEq] at hd <;> omega

theorem char_ne_of_toNat_ne {c : Char} {k : Char} (h : c.toNat ≠ k.toNat) : c ≠ k := by
  intro e; exact h (by rw [e])

theorem accumDigits_stop {c : Char} (cs : List Char) (acc : Nat)
    (h : ∀ d, digitVal c = some d → 16 ≤ d) : accumDigits 16 (c :: cs) acc = acc := by
  unfold accumDigits
  cases hd : digitVal c with
  | none => rfl
  | some d =>
    have := h d hd
    simp only
    rw [if_neg (by omega)]

theorem accumDigits_step {c : Char} {d : Nat} (cs : List Char) (acc : Nat)
    (h : digitVal c = some d) (hd : d < 16) :
    accumDigits 16 (c :: cs) acc = accumDigits 16 cs (acc * 16 + d) := by
  conv_lhs => unfold accumDigits
  simp only [h]
  rw [if_pos hd]

theorem scan_plain {c1 : Char} (c2 : Char) (h48 : 48 ≤ c1.toNat) :
    scanSign ([c1, c2].dropWhile isspace) = (false, [c1, c2]) := by
  have hsp : isspace c1 = false := by
    unfold isspace
    simp only [Bool.or_eq_false_iff, beq_eq_false_iff_ne, ne_eq, Bool.and_eq_false_iff,
      decide_eq_false_iff_not]
    exact ⟨by omega, by omega⟩
  have hm : c1 ≠ '-' := char_ne_of_toNat_ne (by
    have : ('-' : Char).toNat = 45 := by decide
    omega)
  have hp : c1 ≠ '+' := char_ne_of_toNat_ne (by
    have : ('+' : Char).toNat = 43 := by decide
    omega)
  rw [List.dropWhile_cons_of_neg (by simp [hsp])]
  unfold scanSign
  simp only [if_neg hm, if_neg hp]

theorem skipHexMark_keep {c1 c2 : Char} (h : ¬ (c1 = '0' ∧ (c2 = 'x' ∨ c2 = 'X'))) :
    skipHexMark 16 [c1, c2] = [c1, c2] := by
  simp only [skipHexMark, true_and, if_neg h]

theorem skipHexMark_skip {c1 c2 : Char} (h : c1 = '0' ∧ (c2 = 'x' ∨ c2 = 'X')) :
    skipHexMark 16 [c1, c2] = [] := by
  simp only [skipHexMark, true_and, if_pos h]

theorem strtoul_hex_pair {c1 c2 : Char} {d1 d2 : Nat} (h1 : hexValue c1 = some d1)
    (h2 : hexValue c2 = some d2) : strtoul [c1, c2] 16 = 16 * d1 + d2 := by
  obtain ⟨v1, b1, g1, -, -⟩ := hexValue_some h1
  obtain ⟨v2, b2, -, x1, x2⟩ := hexValue_some h2
  have nx : ¬ (c1 = '0' ∧ (c2 = 'x' ∨ c2 = 'X')) := by
    rintro ⟨-, rfl | rfl⟩
    · exact x1 (by decide)
    · exact x2 (by decide)
  unfold strtoul scanNumber
  rw [scan_plain c2 g1]
  simp only [skipHexMark_keep nx]
  simp only [accumDigits_step _ _ v1 b1]
  simp only [accumDigits_step _ _ v2 b2]
  simp only [accumDigits]
  rw [if_neg (by omega)]
  simp only [Bool.false_eq_true, if_false]
  omega

theorem strtoul_nonhex_first {c1 : Char} (c2 : Char) (h : hexValue c1 = none)
    (hsp : isspace c1 = false) (hm : c1 ≠ '-') (hp : c1 ≠ '+') : strtoul [c1, c2] 16 = 0 := by
  obtain ⟨hd, h48⟩ := hexValue_none h
  have nx : ¬ (c1 = '0' ∧ (c2 = 'x' ∨ c2 = 'X')) := by
    rintro ⟨rfl, -⟩
    exact h48 (by decide)
  unfold strtoul scanNumber
  rw [List.dropWhile_cons_of_neg (by simp [hsp])]
  simp only [scanSign, if_neg hm, if_neg hp, skipHexMark_keep nx, accumDigits_stop _ _ hd]
  rfl

theorem strtoul_hex_then_nonhex {c1 c2 : Char} {d : Nat} (h1 : hexValue c1 = some d)
    (h2 : hexValue c2 = none) : strtoul [c1, c2] 16 = d := by
  obtain ⟨v1, b1, g1, -, -⟩ := hexValue_some h1
  obtain ⟨hd, -⟩ := hexValue_none h2
  unfold strtoul scanNumber
  rw [scan_plain c2 g1]
  by_cases c : c1 = '0' ∧ (c2 = 'x' ∨ c2 = 'X')
  · have hz : d = 0 := by
      obtain ⟨rfl, -⟩ := c
      have : hexValue '0' = some 0 := by decide
      rw [this] at h1
      exact (Option.some.inj h1).symm
    simp only [skipHexMark_skip c, accumDigits]
    rw [hz]
    rfl
  · simp only [skipHexMark_keep c, accumDigits_step _ _ v1 b1, accumDigits_stop _ _ hd]
    rw [if_neg (by omega)]
    simp only [Bool.false_eq_true, if_false]
    omega

theorem accumDigits_single_hex {c : Char} {d : Nat} (h : hexValue c = some d) :
    accumDigits 16 [c] 0 = d := by
  obtain ⟨v, b, -⟩ := hexValue_some h
  rw [accumDigits_step _ _ v b]
  simp only [accumDigits]
  omega

theorem accumDigits_single_nonhex {c : Char} (h : hexValue c = none) :
    accumDigits 16 [c] 0 = 0 :=
  accumDigits_stop _ _ (hexValue_none h).1

theorem strtoul_single_hex {c : Char} {d : Nat} (h : hexValue c = some d) :
    strtoul [c] 16 = d := by
  obtain ⟨v, b, g, -⟩ := hexValue_some h
  have hsp : isspace c = false := by
    unfold isspace
    simp only [Bool.or_eq_false_iff, beq_eq_false_iff_ne, ne_eq, Bool.and_eq_false_iff,
      decide_eq_false_iff_not]
    exact ⟨by omega, by omega⟩
  have hm : c ≠ '-' := char_ne_of_toNat_ne (by
    have : ('-' : Char).toNat = 45 := by decide
    omega)
  have hp : c ≠ '+' := char_ne_of_toNat_ne (by
    have : ('+' : Char).toNat = 43 := by decide
    omega)
  unfold strtoul scanNumber
  rw [List.dropWhile_cons_of_neg (by simp [hsp])]
  simp only [List.dropWhile_nil, scanSign, if_neg hm, if_neg hp, skipHexMark,
    accumDigits_single_hex h]
  rw [if_neg (by omega)]
  rfl

theorem strtoul_single_nonhex {c : Char} (h : hexValue c = none) : strtoul [c] 16 = 0 := by
  unfold strtoul scanNumber
  by_cases hsp : isspace c = true
  · rw [List.dropWhile_cons_of_pos hsp]
    rfl
  · rw [List.dropWhile_cons_of_neg hsp]
    by_cases hm : c = '-'
    · simp only [List.dropWhile_nil, scanSign, if_pos hm, skipHexMark, accumDigits]
      rfl
    · by_cases hp : c = '+'
      · simp only [List.dropWhile_nil, scanSign, if_neg hm, if_pos hp, skipHexMark,
          accumDigits]
        rfl
      · simp only [List.dropWhile_nil, scanSign, if_neg hm, if_neg hp, skipHexMark,
          accumDigits_single_nonhex h]
        rfl

theorem strtoul_space_first {c1 : Char} (c2 : Char) (h : isspace c1 = true) :
    strtoul [c1, c2] 16 = strtoul [c2] 16 := by
  unfold strtoul scanNumber
  rw [List.dropWhile_cons_of_pos h]

theorem strtoul_plus_first (c2 : Char) :
    strtoul ['+', c2] 16 = accumDigits 16 [c2] 0 := by
  have v : accumDigits 16 [c2] 0 ≤ 15 := by
    cases h : hexValue c2 with
    | none => rw [accumDigits_single_nonhex h]; omega
    | some d => rw [accumDigits_single_hex h]; have := (hexValue_some h).2.1; omega
  have e : scanNumber ['+', c2] 16 = (false, accumDigits 16 [c2] 0) := rfl
  unfold strtoul
  rw [e]
  simp only [Bool.false_eq_true, if_false]
  rw [if_neg (by omega)]

theorem strtoul_minus_first (c2 : Char) :
    strtoul ['-', c2] 16 = sub32 0 (accumDigits 16 [c2] 0) := by
  have v : accumDigits 16 [c2] 0 ≤ 15 := by
    cases h : hexValue c2 with
    | none => rw [accumDigits_single_nonhex h]; omega
    | some d => rw [accumDigits_single_hex h]; have := (hexValue_some h).2.1; omega
  have e : scanNumber ['-', c2] 16 = (true, accumDigits 16 [c2] 0) := rfl
  unfold strtoul
  rw [e]
  simp only [if_true]
  rw [if_neg (by omega)]

theorem getD_decodePattern (token : List Char) (k i : Nat) (hi : i < k) :
    (decodePattern token k).getD i 0 =
      strtoul [token.getD (i * 2) (Char.ofNat 0), token.getD (i * 2 + 1) (Char.ofNat 0)] 16
        % 256 := by
  unfold decodePattern
  rw [List.getD_eq_getElem _ _ (by simpa using hi)]
  simp

theorem decodePattern_spelling (token : List Char) (b : List Nat)
    (hbytes : ∀ x ∈ b, x < 256)
    (hspell : ∀ i, i < b.length →
      hexValue (token.getD (i * 2) (Char.ofNat 0)) = some (b.getD i 0 / 16) ∧
      hexValue (token.getD (i * 2 + 1) (Char.ofNat 0)) = some (b.getD i 0 % 16)) :
    decodePattern token b.length = b := by
  apply List.ext_getElem (length_decodePattern token b.length)
  intro i h1 h2
  have hx : b[i] < 256 := hbytes _ (List.getElem_mem h2)
  have hg : b.getD i 0 = b[i] := List.getD_eq_getElem _ _ h2
  have hd := getD_decodePattern token b.length i h2
  rw [List.getD_eq_getElem _ _ h1] at hd
  obtain ⟨s1, s2⟩ := hspell i h2
  rw [hd, strtoul_hex_pair s1 s2, hg]
  omega

/-! ## The pattern echo -/

set_option maxRecDepth 100000 in
theorem fmt_02x_byte : ∀ x, x < 256 →
    fmt_02x x = [lowerHexDigit (x / 16), lowerHexDigit (x % 16)] := by
  decide

theorem prints_searchHeader (start_addr end_addr : Nat) (region_name : List Char)
    (pattern : List Nat) :
    prints (searchHeader start_addr end_addr region_name pattern) =
      ["=== SEARCHING ".toList ++ region_name ++ " ===\n".toList,
       "Range: 0x".toList ++ fmt_08x start_addr ++ " - 0x".toList ++ fmt_08x end_addr ++
         " (".toList ++ fmt_u (sub32 end_addr start_addr) ++ " bytes)\n".toList,
       "Pattern: ".toList] ++
      pattern.map (fun b => fmt_02x b ++ [' ']) ++
      ["(".toList ++ fmt_u pattern.length ++ " bytes)\n\n".toList] := by
  have h : ∀ l : List Nat, prints (l.map fun b => Event.print (fmt_02x b ++ [' '])) =
      l.map (fun b => fmt_02x b ++ [' ']) := by
    intro l
    induction l with
    | nil => rfl
    | cons b bs ih => simp only [List.map_cons, prints, ih]
  unfold searchHeader
  rw [prints_append, prints_append, h]
  rfl

/-! ## The scope of the two search commands -/

/-- C9: an accepted SEARCH runs exactly one region search, on
`[0x20000000, 0x20082000)` under the label `SRAM`, and an accepted SEARCHFLASH
exactly one, on `[0x10000000, 0x10400000)` under the label `FLASH`; both search
the pattern decoded from the token, report the occurrences of the whole region
(up to the limit of 100), read no address outside their region, and end the
response with `===END===`. -/
theorem search_scope (fuel : Nat) (env : Target) (flash : Bool)
    (cmd rest tok r2 : List Char) (k : Nat)
    (hcmd : strtok cmd ':' = some (searchKeyword flash, rest))
    (htok : strtok rest ':' = some (tok, r2))
    (hk : tok.length = 2 * k) (h1 : 1 ≤ k) (h2 : k ≤ 64) (hf : 4194305 ≤ fuel) :
    ∃ ev, _picopeeker_search_region fuel env (scopeStart flash) (scopeEnd flash)
        (scopeName flash) (decodePattern tok k) = some ev ∧
      _picopeeker_parse_command fuel env cmd = some (ev ++ [P "===END===\n"]) ∧
      (∀ x ∈ loads (ev ++ [P "===END===\n"]), scopeStart flash ≤ x ∧ x < scopeEnd flash) ∧
      prints (ev ++ [P "===END===\n"]) =
        prints (searchHeader (scopeStart flash) (scopeEnd flash) (scopeName flash)
          (decodePattern tok k)) ++
        ((matchOffsets env (scopeStart flash) (scopeEnd flash) (decodePattern tok k)).take
            100).map
          (fun o => "FOUND: 0x".toList ++ fmt_08x (scopeStart flash + o) ++ "\n".toList) ++
        (if 100 ≤ (matchOffsets env (scopeStart flash) (scopeEnd flash)
            (decodePattern tok k)).length
          then ["(stopping after 100 matches)\n".toList] else []) ++
        ["Total matches in ".toList ++ scopeName flash ++ ": ".toList ++
          fmt_u (min 100 (matchOffsets env (scopeStart flash) (scopeEnd flash)
            (decodePattern tok k)).length) ++ "\n\n".toList] ++
        ["===END===\n".toList] ∧
      ev.head? = some (Event.print ("=== SEARCHING ".toList ++ scopeName flash ++
        " ===\n".toList)) ∧
      (searchKeyword false = "SEARCH".toList ∧ scopeStart false = 0x20000000 ∧
        scopeEnd false = 0x20082000 ∧ scopeName false = "SRAM".toList) ∧
      (searchKeyword true = "SEARCHFLASH".toList ∧ scopeStart true = 0x10000000 ∧
        scopeEnd true = 0x10400000 ∧ scopeName true = "FLASH".toList) := by
  obtain ⟨hs, he, hsz, hsz2⟩ := scope_bounds flash
  have hlen := length_decodePattern tok k
  obtain ⟨ev, hev, hp, -⟩ := search_region_closed fuel env (scopeStart flash) (scopeEnd flash)
    (scopeName flash) (decodePattern tok k) hs he (by omega) (by omega) (by omega)
  obtain ⟨ev2, hev2, hl⟩ := mem_loads_search_region fuel env (scopeStart flash)
    (scopeEnd flash) (scopeName flash) (decodePattern tok k) hs he (by omega) (by omega)
    (by omega)
  have hhead := search_region_eq fuel env (scopeStart flash) (scopeEnd flash) (scopeName flash)
    (decodePattern tok k) hs he (by omega) (by omega) (by omega)
  obtain rfl : ev = ev2 := Option.some.inj (hev.symm.trans hev2)
  have hE : loads [P "===END===\n"] = [] := rfl
  have hE2 : prints [P "===END===\n"] = ["===END===\n".toList] := rfl
  refine ⟨ev, hev, ?_, ?_, ?_, ?_, by decide, by decide⟩
  · rw [parse_search_token fuel env flash hcmd htok,
      searchCommand_accepts fuel env flash tok k hk h1 h2, hev]
    rfl
  · intro x hx
    rw [loads_append, hE, List.append_nil] at hx
    exact hl x hx
  · rw [prints_append, hp, hE2]
  · rw [hhead] at hev
    rw [← Option.some.inj hev]
    rfl

theorem search_scope_witness :
    ∃ ev, _picopeeker_search_region 4194305 ⟨fun _ => 0, 0⟩ 0x20000000 0x20082000
        "SRAM".toList [0xde, 0xad, 0xbe, 0xef] = some ev ∧
      _picopeeker_parse_command 4194305 ⟨fun _ => 0, 0⟩ "SEARCH:DEADBEEF".toList =
        some (ev ++ [P "===END===\n"]) ∧
      (∀ x ∈ loads (ev ++ [P "===END===\n"]), 0x20000000 ≤ x ∧ x < 0x20082000) ∧
      ev.head? = some (Event.print "=== SEARCHING SRAM ===\n".toList) := by
  obtain ⟨ev, h1, h2, h3, -, h5, -⟩ := search_scope 4194305 ⟨fun _ => 0, 0⟩ false
    "SEARCH:DEADBEEF".toList "DEADBEEF".toList "DEADBEEF".toList [] 4
    (by decide) (by decide) (by decide) (by decide) (by decide) (by decide)
  exact ⟨ev, h1, h2, h3, h5⟩

/-! ## Hex patterns: round trip and characters that are not hex digits -/

/-- C7: when the pattern token spells the bytes `b` (1 to 64 of them) with two hex
digits each, of either case, the pattern the parser searches is `b` itself, byte
`i` being `16 * value(digit 2i) + value(digit 2i+1)`, and the `Pattern:` echo
prints `b` back as lower-case two-digit groups. -/
theorem hex_pattern_roundtrip (fuel : Nat) (env : Target) (flash : Bool)
    (cmd rest tok r2 : List Char) (b : List Nat)
    (hcmd : strtok cmd ':' = some (searchKeyword flash, rest))
    (htok : strtok rest ':' = some (tok, r2))
    (hb1 : 1 ≤ b.length) (hb2 : b.length ≤ 64) (hbytes : ∀ x ∈ b, x < 256)
    (hlen : tok.length = 2 * b.length)
    (hspell : ∀ i, i < b.length →
      hexValue (tok.getD (i * 2) (Char.ofNat 0)) = some (b.getD i 0 / 16) ∧
      hexValue (tok.getD (i * 2 + 1) (Char.ofNat 0)) = some (b.getD i 0 % 16))
    (hf : 4194305 ≤ fuel) :
    decodePattern tok b.length = b ∧
    (∀ i d1 d2, i < b.length → hexValue (tok.getD (i * 2) (Char.ofNat 0)) = some d1 →
      hexValue (tok.getD (i * 2 + 1) (Char.ofNat 0)) = some d2 →
      (decodePattern tok b.length).getD i 0 = 16 * d1 + d2) ∧
    ∃ ev more, _picopeeker_search_region fuel env (scopeStart flash) (scopeEnd flash)
        (scopeName flash) b = some ev ∧
      _picopeeker_parse_command fuel env cmd = some (ev ++ [P "===END===\n"]) ∧
      prints ev =
        ["=== SEARCHING ".toList ++ scopeName flash ++ " ===\n".toList,
         "Range: 0x".toList ++ fmt_08x (scopeStart flash) ++ " - 0x".toList ++
           fmt_08x (scopeEnd flash) ++ " (".toList ++
           fmt_u (scopeEnd flash - scopeStart flash) ++ " bytes)\n".toList,
         "Pattern: ".toList] ++
        b.map (fun x => [lowerHexDigit (x / 16), lowerHexDigit (x % 16), ' ']) ++
        ["(".toList ++ fmt_u b.length ++ " bytes)\n\n".toList] ++ more := by
  have hdec := decodePattern_spelling tok b hbytes hspell
  obtain ⟨hs, he, hsz, hsz2⟩ := scope_bounds flash
  refine ⟨hdec, ?_, ?_⟩
  · intro i d1 d2 hi g1 g2
    obtain ⟨v1, b1, -⟩ := hexValue_some g1
    obtain ⟨v2, b2, -⟩ := hexValue_some g2
    rw [getD_decodePattern tok b.length i hi, strtoul_hex_pair g1 g2]
    omega
  · obtain ⟨ev, hev, hp, -⟩ := search_region_closed fuel env (scopeStart flash)
      (scopeEnd flash) (scopeName flash) b hs he (by omega) (by omega) (by omega)
    have hmap : b.map (fun x => fmt_02x x ++ [' ']) =
        b.map (fun x => [lowerHexDigit (x / 16), lowerHexDigit (x % 16), ' ']) := by
      apply List.map_congr_left
      intro x hx
      rw [fmt_02x_byte x (hbytes x hx)]
      rfl
    refine ⟨ev,
      ((matchOffsets env (scopeStart flash) (scopeEnd flash) b).take 100).map
          (fun o => "FOUND: 0x".toList ++ fmt_08x (scopeStart flash + o) ++ "\n".toList) ++
        (if 100 ≤ (matchOffsets env (scopeStart flash) (scopeEnd flash) b).length
          then ["(stopping after 100 matches)\n".toList] else []) ++
        ["Total matches in ".toList ++ scopeName flash ++ ": ".toList ++
          fmt_u (min 100 (matchOffsets env (scopeStart flash) (scopeEnd flash) b).length) ++
          "\n\n".toList], hev, ?_, ?_⟩
    · rw [parse_search_token fuel env flash hcmd htok,
        searchCommand_accepts fuel env flash tok b.length hlen hb1 hb2, hdec, hev]
      rfl
    · rw [hp, prints_searchHeader, hmap, sub32_of_le hs he]
      simp only [List.append_assoc]

theorem hex_pattern_roundtrip_witness :
    decodePattern "DEADBEEF".toList 4 = [0xde, 0xad, 0xbe, 0xef] ∧
    ∃ ev more, _picopeeker_search_region 4194305 ⟨fun _ => 0, 0⟩ 0x20000000 0x20082000
        "SRAM".toList [0xde, 0xad, 0xbe, 0xef] = some ev ∧
      _picopeeker_parse_command 4194305 ⟨fun _ => 0, 0⟩ "SEARCH:DEADBEEF".toList =
        some (ev ++ [P "===END===\n"]) ∧
      prints ev =
        ["=== SEARCHING SRAM ===\n".toList,
         "Range: 0x20000000 - 0x20082000 (532480 bytes)\n".toList,
         "Pattern: ".toList, "de ".toList, "ad ".toList, "be ".toList, "ef ".toList,
         "(4 bytes)\n\n".toList] ++ more := by
  obtain ⟨h0, -, ev, more, h1, h2, h3⟩ := hex_pattern_roundtrip 4194305 ⟨fun _ => 0, 0⟩ false
    "SEARCH:DEADBEEF".toList "DEADBEEF".toList "DEADBEEF".toList [] [0xde, 0xad, 0xbe, 0xef]
    (by decide) (by decide) (by decide) (by decide) (by decide) (by decide) (by decide)
    (by decide)
  refine ⟨h0, ev, more, h1, h2, ?_⟩
  rw [h3]
  rfl

/-- C8, as amended: a pattern token of `2k` characters with `1 <= k <= 64` is never
rejected because of characters that are not hex digits: the search runs with the
pattern decoded group by group with `strtoul` in base 16, truncated to 8 bits. A
group made of a hex digit followed by a character that is not a hex digit decodes
to the value of that digit; a group made of white space or `+` followed by a hex
digit decodes to the value of that digit, and `-` followed by a hex digit `d` to
`(256 - d) mod 256`; every other group with a character that is not a hex digit
decodes to 0. -/
theorem nonhex_groups_decode (fuel : Nat) (env : Target) (flash : Bool)
    (cmd rest tok r2 : List Char) (k : Nat)
    (hcmd : strtok cmd ':' = some (searchKeyword flash, rest))
    (htok : strtok rest ':' = some (tok, r2))
    (hk : tok.length = 2 * k) (h1 : 1 ≤ k) (h2 : k ≤ 64) :
    _picopeeker_parse_command fuel env cmd =
      _picopeeker_search_memory fuel env (decodePattern tok k) flash (!flash) ∧
    (4194305 ≤ fuel →
      ∃ ev, _picopeeker_search_region fuel env (scopeStart flash) (scopeEnd flash)
          (scopeName flash) (decodePattern tok k) = some ev ∧
        _picopeeker_parse_command fuel env cmd = some (ev ++ [P "===END===\n"])) ∧
    (∀ i d, i < k → hexValue (tok.getD (i * 2) (Char.ofNat 0)) = some d →
      hexValue (tok.getD (i * 2 + 1) (Char.ofNat 0)) = none →
      (decodePattern tok k).getD i 0 = d) ∧
    (∀ i d, i < k →
      isspace (tok.getD (i * 2) (Char.ofNat 0)) = true ∨ tok.getD (i * 2) (Char.ofNat 0) = '+' →
      hexValue (tok.getD (i * 2 + 1) (Char.ofNat 0)) = some d →
      (decodePattern tok k).getD i 0 = d) ∧
    (∀ i d, i < k → tok.getD (i * 2) (Char.ofNat 0) = '-' →
      hexValue (tok.getD (i * 2 + 1) (Char.ofNat 0)) = some d →
      (decodePattern tok k).getD i 0 = (256 - d) % 256) ∧
    (∀ i, i < k →
      isspace (tok.getD (i * 2) (Char.ofNat 0)) = true ∨
        tok.getD (i * 2) (Char.ofNat 0) = '+' ∨ tok.getD (i * 2) (Char.ofNat 0) = '-' →
      hexValue (tok.getD (i * 2 + 1) (Char.ofNat 0)) = none →
      (decodePattern tok k).getD i 0 = 0) ∧
    (∀ i, i < k → hexValue (tok.getD (i * 2) (Char.ofNat 0)) = none →
      isspace (tok.getD (i * 2) (Char.ofNat 0)) = false →
      tok.getD (i * 2) (Char.ofNat 0) ≠ '-' → tok.getD (i * 2) (Char.ofNat 0) ≠ '+' →
      (decodePattern tok k).getD i 0 = 0) := by
  have hacc := searchCommand_accepts fuel env flash tok k hk h1 h2
  have hparse := parse_search_token fuel env flash hcmd htok
  refine ⟨?_, ?_, ?_, ?_, ?_, ?_, ?_⟩
  · rw [hparse, hacc, search_memory_one]
  · intro hf
    obtain ⟨hs, he, hsz, hsz2⟩ := scope_bounds flash
    have hlen := length_decodePattern tok k
    have heq := search_region_eq fuel env (scopeStart flash) (scopeEnd flash) (scopeName flash)
      (decodePattern tok k) hs he (by omega) (by omega) (by omega)
    refine ⟨_, heq, ?_⟩
    rw [hparse, hacc, heq]
    rfl
  · intro i d hi g1 g2
    obtain ⟨-, b1, -⟩ := hexValue_some g1
    rw [getD_decodePattern tok k i hi, strtoul_hex_then_nonhex g1 g2]
    omega
  · intro i d hi g1 g2
    obtain ⟨-, b1, -⟩ := hexValue_some g2
    rw [getD_decodePattern tok k i hi]
    rcases g1 with g1 | g1
    · rw [strtoul_space_first _ g1, strtoul_single_hex g2]
      omega
    · rw [g1, strtoul_plus_first, accumDigits_single_hex g2]
      omega
  · intro i d hi g1 g2
    obtain ⟨-, b1, -⟩ := hexValue_some g2
    rw [getD_decodePattern tok k i hi, g1, strtoul_minus_first, accumDigits_single_hex g2]
    unfold sub32
    omega
  · intro i hi g1 g2
    rw [getD_decodePattern tok k i hi]
    rcases g1 with g1 | g1 | g1
    · rw [strtoul_space_first _ g1, strtoul_single_nonhex g2]
    · rw [g1, strtoul_plus_first, accumDigits_single_nonhex g2]
    · rw [g1, strtoul_minus_first, accumDigits_single_nonhex g2]
      rfl
  · intro i hi g hsp hm hp
    rw [getD_decodePattern tok k i hi, strtoul_nonhex_first _ g hsp hm hp]

theorem nonhex_groups_decode_witness :
    (decodePattern "1G".toList 1).getD 0 0 = 1 ∧
    _picopeeker_parse_command 0 ⟨fun _ => 0, 0⟩ "SEARCH:1G".toList =
      _picopeeker_search_memory 0 ⟨fun _ => 0, 0⟩ (decodePattern "1G".toList 1) false true :=
  have h := nonhex_groups_decode 0 ⟨fun _ => 0, 0⟩ false "SEARCH:1G".toList "1G".toList
    "1G".toList [] 1 (by decide) (by decide) (by decide) (by decide) (by decide)
  ⟨h.2.2.1 0 1 (by decide) (by decide) (by decide), h.1⟩

/-- C8, counterexample: the two-character group `1G` contains the character `G`,
which is not a hex digit, and is decoded to the byte 1, not 0; the command
`SEARCH:1G` is accepted and searches for the byte 1. -/
theorem nonhex_group_counterexample :
    hexValue 'G' = none ∧ decodePattern "1G".toList 1 = [1] ∧
    (∀ fuel env, _picopeeker_parse_command fuel env "SEARCH:1G".toList =
      _picopeeker_search_memory fuel env [1] false true) ∧
    ¬ (∀ (tok : List Char) (k i : Nat), tok.length = 2 * k → 1 ≤ k → k ≤ 64 → i < k →
        (hexValue (tok.getD (i * 2) (Char.ofNat 0)) = none ∨
          hexValue (tok.getD (i * 2 + 1) (Char.ofNat 0)) = none) →
        (decodePattern tok k).getD i 0 = 0) := by
  refine ⟨by decide, by decide, ?_, ?_⟩
  · intro fuel env
    rw [@parse_search fuel env "SEARCH:1G".toList "1G".toList (by decide)]
    rfl
  · intro h
    have := h "1G".toList 1 0 (by decide) (by decide) (by decide) (by decide)
      (Or.inr (by decide))
    revert this
    decide

/-! ## Start-up -/

theorem startTimes_initialized (n : Nat) (s : PeekerState) (h : s.initialized = true) :
    startTimes n s = (s, 0) := by
  induction n with
  | zero => rfl
  | succ n ih =>
    have e : picopeeker_start s = (s, 0) := by
      unfold picopeeker_start
      rw [if_pos h]
    unfold startTimes
    rw [e]
    simp only [ih, Nat.add_zero]

/-- C20: `picopeeker_start` is idempotent. From the initial state one call sets
`initialized` and `cmd_index = 0` and launches the service once; any number
`n >= 1` of calls leaves the same state as one call and launches the service
exactly once in total; a call made when `initialized` is already set returns the
state unchanged and launches nothing. The function has no error result and prints
nothing. -/
theorem start_idempotent :
    (picopeeker_start _picopeeker_state).1.initialized = true ∧
    (picopeeker_start _picopeeker_state).1.cmd_index = 0 ∧
    (picopeeker_start _picopeeker_state).2 = 1 ∧
    (∀ n, 1 ≤ n →
      startTimes n _picopeeker_state = ((picopeeker_start _picopeeker_state).1, 1)) ∧
    (∀ s : PeekerState, s.initialized = true → picopeeker_start s = (s, 0)) ∧
    (∀ s : PeekerState, s.initialized = false →
      picopeeker_start (picopeeker_start s).1 = ((picopeeker_start s).1, 0) ∧
      (picopeeker_start s).2 = 1) := by
  refine ⟨rfl, rfl, rfl, ?_, ?_, ?_⟩
  · intro n hn
    obtain ⟨m, rfl⟩ : ∃ m, n = m + 1 := ⟨n - 1, by omega⟩
    unfold startTimes
    rw [startTimes_initialized m _ rfl]
    rfl
  · intro s h
    unfold picopeeker_start
    rw [if_pos h]
  · intro s h
    have e : picopeeker_start s = (⟨true, s.cmd_buffer, 0⟩, 1) := by
      unfold picopeeker_start
      simp [h]
    rw [e]
    exact ⟨rfl, rfl⟩

/-! ## The line discipline -/

theorem lineStep_timeout (s : PeekerState) : lineStep s none = (s, none) := rfl

theorem lineStep_terminator_empty (s : PeekerState) (c : Char) (hc : c = '\n' ∨ c = '\r')
    (h : s.cmd_index = 0) : lineStep s (some c) = (s, none) := by
  unfold lineStep
  simp only [if_pos hc]
  rw [if_neg (by omega)]

theorem lineStep_terminator (s : PeekerState) (c : Char) (hc : c = '\n' ∨ c = '\r')
    (h : 0 < s.cmd_index) :
    lineStep s (some c) =
      (⟨s.initialized, s.cmd_buffer.set s.cmd_index (Char.ofNat 0), 0⟩,
        some (s.cmd_buffer.set s.cmd_index (Char.ofNat 0))) := by
  unfold lineStep
  simp only [if_pos hc]
  rw [if_pos h]

theorem lineStep_store (s : PeekerState) (c : Char) (hc : ¬ (c = '\n' ∨ c = '\r'))
    (h : s.cmd_index < 127) :
    lineStep s (some c) =
      (⟨s.initialized, s.cmd_buffer.set s.cmd_index c, s.cmd_index + 1⟩, none) := by
  unfold lineStep
  simp only [if_neg hc]
  rw [if_pos (by simpa using h)]

theorem lineStep_full (s : PeekerState) (c : Char) (hc : ¬ (c = '\n' ∨ c = '\r'))
    (h : 127 ≤ s.cmd_index) : lineStep s (some c) = (s, none) := by
  unfold lineStep
  simp only [if_neg hc]
  rw [if_neg (by simp only [PICOPEEKER_CMD_BUFFER_SIZE]; omega)]

theorem lineStep_bounds (s : PeekerState) (c : Option Char)
    (h : s.cmd_index ≤ 127 ∧ s.cmd_buffer.length = 128) :
    (lineStep s c).1.cmd_index ≤ 127 ∧ (lineStep s c).1.cmd_buffer.length = 128 ∧
      (lineStep s c).1.initialized = s.initialized := by
  cases c with
  | none => exact ⟨h.1, h.2, rfl⟩
  | some c =>
    by_cases hc : c = '\n' ∨ c = '\r'
    · by_cases h0 : 0 < s.cmd_index
      · rw [lineStep_terminator s c hc h0]
        simp [h.2]
      · rw [lineStep_terminator_empty s c hc (by omega)]
        exact ⟨h.1, h.2, rfl⟩
    · by_cases hf : s.cmd_index < 127
      · rw [lineStep_store s c hc hf]
        refine ⟨?_, ?_, rfl⟩
        · show s.cmd_index + 1 ≤ 127
          omega
        · show (s.cmd_buffer.set s.cmd_index c).length = 128
          rw [List.length_set]; exact h.2
      · rw [lineStep_full s c hc (by omega)]
        exact ⟨h.1, h.2, rfl⟩

theorem lineLoop_bounds : ∀ (inputs : List (Option Char)) (s : PeekerState),
    s.cmd_index ≤ 127 ∧ s.cmd_buffer.length = 128 →
    (lineLoop s inputs).1.cmd_index ≤ 127 ∧ (lineLoop s inputs).1.cmd_buffer.length = 128 ∧
      (lineLoop s inputs).1.initialized = s.initialized := by
  intro inputs
  induction inputs with
  | nil => intro s h; exact ⟨h.1, h.2, rfl⟩
  | cons c cs ih =>
    intro s h
    have h1 := lineStep_bounds s c h
    have h2 := ih (lineStep s c).1 ⟨h1.1, h1.2.1⟩
    unfold lineLoop
    exact ⟨h2.1, h2.2.1, h2.2.2.trans h1.2.2⟩

theorem take_set_succ {α : Type} : ∀ (l : List α) (n : Nat) (a : α), n < l.length →
    (l.set n a).take (n + 1) = l.take n ++ [a] := by
  intro l
  induction l with
  | nil => intro n a h; simp at h
  | cons x xs ih =>
    intro n a h
    cases n with
    | zero => simp
    | succ n =>
      simp only [List.set_cons_succ, List.take_succ_cons, List.cons_append]
      rw [ih n a (by simpa using h)]

theorem take_set_self {α : Type} : ∀ (l : List α) (n : Nat) (a : α),
    (l.set n a).take n = l.take n := by
  intro l
  induction l with
  | nil => intro n a; simp
  | cons x xs ih =>
    intro n a
    cases n with
    | zero => simp
    | succ n => simp only [List.set_cons_succ, List.take_succ_cons, ih n a]

theorem getD_set_self {α : Type} : ∀ (l : List α) (n : Nat) (a d : α), n < l.length →
    (l.set n a).getD n d = a := by
  intro l n a d h
  rw [List.getD_eq_getElem _ _ (by simpa using h)]
  simp

theorem cstr_set_nul : ∀ (l : List Char) (n : Nat), n < l.length →
    cstr (l.set n (Char.ofNat 0)) = cstr (l.take n) := by
  intro l
  induction l with
  | nil => intro n h; simp at h
  | cons x xs ih =>
    intro n h
    cases n with
    | zero => simp [cstr]
    | succ n =>
      have := ih n (by simpa using h)
      unfold cstr at this ⊢
      simp only [List.set_cons_succ, List.take_succ_cons, List.takeWhile_cons]
      split_ifs
      · rw [this]
      · rfl

theorem cstr_of_no_nul (l : List Char) (h : ∀ c ∈ l, c ≠ Char.ofNat 0) : cstr l = l := by
  unfold cstr
  rw [List.takeWhile_eq_self_iff]
  intro c hc
  simpa using h c hc

theorem lineLoop_cons (s : PeekerState) (c : Option Char) (cs : List (Option Char)) :
    lineLoop s (c :: cs) =
      ((lineLoop (lineStep s c).1 cs).1,
        (lineStep s c).2.toList ++ (lineLoop (lineStep s c).1 cs).2) := rfl

theorem lineLoop_append : ∀ (a b : List (Option Char)) (s : PeekerState),
    lineLoop s (a ++ b) =
      ((lineLoop (lineLoop s a).1 b).1, (lineLoop s a).2 ++ (lineLoop (lineLoop s a).1 b).2) := by
  intro a
  induction a with
  | nil => intro b s; simp [lineLoop]
  | cons c cs ih =>
    intro b s
    rw [List.cons_append, lineLoop_cons, lineLoop_cons, ih]
    simp only [List.append_assoc]

theorem lineLoop_accumulate : ∀ (polls : List (Option Char)) (s : PeekerState),
    (∀ c, some c ∈ polls → ¬ (c = '\n' ∨ c = '\r')) →
    s.cmd_index ≤ 127 → s.cmd_buffer.length = 128 →
    (lineLoop s polls).2 = [] ∧
    (lineLoop s polls).1.cmd_index = min (s.cmd_index + (polls.filterMap id).length) 127 ∧
    (lineLoop s polls).1.cmd_buffer.take (lineLoop s polls).1.cmd_index =
      (s.cmd_buffer.take s.cmd_index ++ polls.filterMap id).take 127 := by
  intro polls
  induction polls with
  | nil =>
    intro s _ hi hb
    refine ⟨rfl, ?_, ?_⟩
    · simp only [lineLoop, List.filterMap_nil, List.length_nil, Nat.add_zero]; omega
    · simp only [lineLoop, List.filterMap_nil, List.append_nil]
      rw [List.take_take]
      congr 1
      omega
  | cons c cs ih =>
    intro s hp hi hb
    have hp2 : ∀ c2, some c2 ∈ cs → ¬ (c2 = '\n' ∨ c2 = '\r') :=
      fun c2 h2 => hp c2 (List.mem_cons_of_mem _ h2)
    cases c with
    | none =>
      have hfm : (none :: cs).filterMap id = cs.filterMap id := rfl
      rw [lineLoop_cons, lineStep_timeout, hfm]
      exact ih s hp2 hi hb
    | some c =>
      have hc := hp c (List.mem_cons_self _ _)
      have hfm : (some c :: cs).filterMap id = c :: cs.filterMap id := rfl
      rw [lineLoop_cons, hfm, List.length_cons]
      by_cases hf : s.cmd_index < 127
      · rw [lineStep_store s c hc hf]
        obtain ⟨i1, i2, i3⟩ :=
          ih ⟨s.initialized, s.cmd_buffer.set s.cmd_index c, s.cmd_index + 1⟩ hp2
            (by show s.cmd_index + 1 ≤ 127; omega)
            (by show (s.cmd_buffer.set s.cmd_index c).length = 128
                rw [List.length_set]; exact hb)
        have e3 : (s.cmd_buffer.set s.cmd_index c).take (s.cmd_index + 1) =
            s.cmd_buffer.take s.cmd_index ++ [c] := take_set_succ _ _ _ (by omega)
        refine ⟨i1, ?_, ?_⟩
        · rw [i2]; show min (s.cmd_index + 1 + _) 127 = _; omega
        · rw [i3]
          show ((s.cmd_buffer.set s.cmd_index c).take (s.cmd_index + 1) ++ _).take 127 = _
          rw [e3, List.append_assoc, List.singleton_append]
      · rw [lineStep_full s c hc (by omega)]
        obtain ⟨i1, i2, i3⟩ := ih s hp2 hi hb
        have hl : (s.cmd_buffer.take s.cmd_index).length = 127 := by
          rw [List.length_take]; omega
        refine ⟨i1, ?_, ?_⟩
        · rw [i2]; omega
        · rw [i3, List.take_append_of_le_length (by omega),
            List.take_append_of_le_length (by omega)]

theorem lineLoop_line (s : PeekerState) (polls : List (Option Char)) (t : Char)
    (h0 : s.cmd_index = 0) (hb : s.cmd_buffer.length = 128)
    (hp : ∀ c, some c ∈ polls → ¬ (c = '\n' ∨ c = '\r'))
    (hn : 1 ≤ (polls.filterMap id).length) (ht : t = '\n' ∨ t = '\r') :
    ∃ buf, lineLoop s (polls ++ [some t]) = (⟨s.initialized, buf, 0⟩, [buf]) ∧
      buf.length = 128 ∧
      buf.take (min (polls.filterMap id).length 127) = (polls.filterMap id).take 127 ∧
      buf.getD (min (polls.filterMap id).length 127) 'x' = Char.ofNat 0 ∧
      cstr buf = cstr ((polls.filterMap id).take 127) := by
  obtain ⟨a1, a2, a3⟩ := lineLoop_accumulate polls s hp (by omega) hb
  obtain ⟨b1, b2, b3⟩ := lineLoop_bounds polls s ⟨by omega, hb⟩
  rw [h0, Nat.zero_add] at a2
  rw [h0, List.take_zero, List.nil_append] at a3
  have hpos : 0 < (lineLoop s polls).1.cmd_index := by rw [a2]; omega
  have hlt : (lineLoop s polls).1.cmd_index < (lineLoop s polls).1.cmd_buffer.length := by
    omega
  refine ⟨(lineLoop s polls).1.cmd_buffer.set (lineLoop s polls).1.cmd_index (Char.ofNat 0),
    ?_, ?_, ?_, ?_, ?_⟩
  · rw [lineLoop_append, a1]
    simp only [lineLoop, lineStep_terminator _ t ht hpos, Option.toList, List.nil_append,
      List.append_nil, b3]
  · rw [List.length_set]; exact b2
  · rw [← a2, take_set_self, a3]
  · rw [← a2]; exact getD_set_self _ _ _ _ hlt
  · rw [cstr_set_nul _ _ hlt, a3]

/-- C15: in the input loop a line terminator received with an empty buffer changes
nothing: no state change, no call of the parser, no output. Received with
`n > 0` bytes buffered it passes the buffer to the parser exactly once, holding
those `n` bytes in arrival order followed by the terminating NUL, and resets the
cursor to 0, so that a second terminator right after it (`\r\n`) dispatches
nothing more. The same holds for the loop of the standalone program. -/
theorem terminator_dispatch (fuel : Nat) (env : Target) (g : MemoryExplorer.Globals)
    (s : PeekerState) (t : Char) (ht : t = '\n' ∨ t = '\r')
    (hi : s.cmd_index ≤ 127) (hb : s.cmd_buffer.length = 128) :
    (s.cmd_index = 0 →
      lineStep s (some t) = (s, none) ∧
      core1_iteration fuel env s (some t) = some (s, []) ∧
      MemoryExplorer.main_iteration fuel env g s (some t) = some (s, [])) ∧
    (0 < s.cmd_index →
      ∃ buf, lineStep s (some t) = (⟨s.initialized, buf, 0⟩, some buf) ∧
        buf.take s.cmd_index = s.cmd_buffer.take s.cmd_index ∧
        buf.getD s.cmd_index 'x' = Char.ofNat 0 ∧
        cstr buf = cstr (s.cmd_buffer.take s.cmd_index) ∧
        ((∀ c ∈ s.cmd_buffer.take s.cmd_index, c ≠ Char.ofNat 0) →
          cstr buf = s.cmd_buffer.take s.cmd_index) ∧
        core1_iteration fuel env s (some t) =
          (_picopeeker_parse_command fuel env (cstr buf)).map
            (fun ev => (⟨s.initialized, buf, 0⟩, ev)) ∧
        MemoryExplorer.main_iteration fuel env g s (some t) =
          (MemoryExplorer.parse_command fuel env g (cstr buf)).map
            (fun ev => (⟨s.initialized, buf, 0⟩, ev)) ∧
        ∀ t2, t2 = '\n' ∨ t2 = '\r' →
          lineLoop s [some t, some t2] = (⟨s.initialized, buf, 0⟩, [buf])) ∧
    (∀ polls t2, s.cmd_index = 0 → (∀ c, some c ∈ polls → ¬ (c = '\n' ∨ c = '\r')) →
      1 ≤ (polls.filterMap id).length → (polls.filterMap id).length ≤ 127 →
      t2 = '\n' ∨ t2 = '\r' →
      ∃ buf, lineLoop s (polls ++ [some t, some t2]) = (⟨s.initialized, buf, 0⟩, [buf]) ∧
        buf.take (polls.filterMap id).length = polls.filterMap id ∧
        buf.getD (polls.filterMap id).length 'x' = Char.ofNat 0) := by
  refine ⟨?_, ?_, ?_⟩
  · intro h0
    have e := lineStep_terminator_empty s t ht h0
    refine ⟨e, ?_, ?_⟩
    · unfold core1_iteration; rw [e]
    · unfold MemoryExplorer.main_iteration; rw [e]
  · intro hpos
    have e := lineStep_terminator s t ht hpos
    have hlt : s.cmd_index < s.cmd_buffer.length := by omega
    have hc := cstr_set_nul s.cmd_buffer s.cmd_index hlt
    refine ⟨_, e, take_set_self _ _ _, getD_set_self _ _ _ _ hlt, hc, ?_, ?_, ?_, ?_⟩
    · intro hn
      rw [hc, cstr_of_no_nul _ hn]
    · unfold core1_iteration; rw [e]
    · unfold MemoryExplorer.main_iteration; rw [e]
    · intro t2 ht2
      rw [lineLoop_cons, e, lineLoop_cons, lineStep_terminator_empty _ t2 ht2 rfl]
      rfl
  · intro polls t2 h0 hp hn1 hn2 ht2
    obtain ⟨buf, h1, h2, h3, h4, -⟩ := lineLoop_line s polls t h0 hb hp hn1 ht
    have em : min (polls.filterMap id).length 127 = (polls.filterMap id).length := by omega
    rw [em] at h3 h4
    refine ⟨buf, ?_, ?_, h4⟩
    · have ea : polls ++ [some t, some t2] = (polls ++ [some t]) ++ [some t2] := by simp
      rw [ea, lineLoop_append, h1, lineLoop_cons, lineStep_terminator_empty _ t2 ht2 rfl]
      rfl
    · rw [h3, List.take_of_length_le hn2]

theorem terminator_dispatch_witness :
    ∃ buf, lineLoop _picopeeker_state [some 'A', some 'B', some '\r', some '\n'] =
        (⟨false, buf, 0⟩, [buf]) ∧
      buf.take 2 = ['A', 'B'] ∧ buf.getD 2 'x' = Char.ofNat 0 :=
  (terminator_dispatch 0 ⟨fun _ => 0, 0⟩ ⟨0, 0⟩ _picopeeker_state '\r' (by decide)
    (Nat.zero_le _) (List.length_replicate _ _)).2.2 [some 'A', some 'B'] '\n' rfl
    (fun c h => by
      simp only [List.mem_cons, Option.some.injEq, List.mem_nil_iff, or_false] at h
      rcases h with rfl | rfl <;> decide)
    (by decide) (by decide) (by decide)

/-- C16: from a state within bounds (as the initial state is), after any sequence
of polls the cursor is at most 127 and below the length 128 of the buffer, so the
writes at `cmd_buffer[cmd_index]`, the terminating NUL included, are in bounds;
with 127 bytes buffered a further byte that is no terminator leaves the state
unchanged; and when at least 127 bytes that are no terminators arrive after a
dispatch, the buffer passed at the next terminator holds exactly the first 127 of
them followed by NUL. -/
theorem buffer_bound (s : PeekerState) (hi : s.cmd_index ≤ 127)
    (hb : s.cmd_buffer.length = 128) :
    (_picopeeker_state.cmd_index ≤ 127 ∧ _picopeeker_state.cmd_buffer.length = 128) ∧
    (∀ inputs, (lineLoop s inputs).1.cmd_index ≤ 127 ∧
      (lineLoop s inputs).1.cmd_buffer.length = 128 ∧
      (lineLoop s inputs).1.cmd_index < (lineLoop s inputs).1.cmd_buffer.length) ∧
    (∀ c, ¬ (c = '\n' ∨ c = '\r') → s.cmd_index = 127 → lineStep s (some c) = (s, none)) ∧
    (∀ polls t, s.cmd_index = 0 → (∀ c, some c ∈ polls → ¬ (c = '\n' ∨ c = '\r')) →
      127 ≤ (polls.filterMap id).length → t = '\n' ∨ t = '\r' →
      ∃ buf, lineLoop s (polls ++ [some t]) = (⟨s.initialized, buf, 0⟩, [buf]) ∧
        buf.length = 128 ∧
        buf.take 127 = (polls.filterMap id).take 127 ∧
        buf.getD 127 'x' = Char.ofNat 0 ∧
        cstr buf = cstr ((polls.filterMap id).take 127)) := by
  refine ⟨⟨Nat.zero_le _, List.length_replicate _ _⟩, ?_, ?_, ?_⟩
  · intro inputs
    obtain ⟨b1, b2, -⟩ := lineLoop_bounds inputs s ⟨hi, hb⟩
    exact ⟨b1, b2, by omega⟩
  · intro c hc h
    exact lineStep_full s c hc (by omega)
  · intro polls t h0 hp hn ht
    obtain ⟨buf, h1, h2, h3, h4, h5⟩ := lineLoop_line s polls t h0 hb hp (by omega) ht
    have em : min (polls.filterMap id).length 127 = 127 := by omega
    rw [em] at h3 h4
    exact ⟨buf, h1, h2, h3, h4, h5⟩

theorem buffer_bound_witness :
    (_picopeeker_state.cmd_index ≤ 127 ∧ _picopeeker_state.cmd_buffer.length = 128) ∧
    ∀ inputs, (lineLoop _picopeeker_state inputs).1.cmd_index ≤ 127 ∧
      (lineLoop _picopeeker_state inputs).1.cmd_buffer.length = 128 ∧
      (lineLoop _picopeeker_state inputs).1.cmd_index <
        (lineLoop _picopeeker_state inputs).1.cmd_buffer.length :=
  ⟨(buffer_bound _picopeeker_state (Nat.zero_le _) (List.length_replicate _ _)).1,
   (buffer_bound _picopeeker_state (Nat.zero_le _) (List.length_replicate _ _)).2.1⟩

/-! ## Characters of the numeric conversions -/

theorem digitChar_lowerHex : ∀ k, k < 16 → isLowerHex (digitChar k) = true := by
  decide

theorem toDigits_lowerHex (base : Nat) (hb0 : 0 < base) (hb : base ≤ 16) :
    ∀ (fuel n : Nat) (acc : List Char), (∀ c ∈ acc, isLowerHex c = true) →
      ∀ c ∈ toDigits base fuel n acc, isLowerHex c = true := by
  intro fuel
  induction fuel with
  | zero => intro n acc h c hc; exact h c (by simpa [toDigits] using hc)
  | succ fuel ih =>
    intro n acc h c hc
    unfold toDigits at hc
    split_ifs at hc with hn
    · rcases List.mem_cons.mp hc with rfl | hc
      · exact digitChar_lowerHex n (by omega)
      · exact h c hc
    · refine ih (n / base) (digitChar (n % base) :: acc) ?_ c hc
      intro d hd
      rcases List.mem_cons.mp hd with rfl | hd
      · exact digitChar_lowerHex _ (by have := Nat.mod_lt n hb0; omega)
      · exact h d hd

theorem padZero_lowerHex (w : Nat) (s : List Char) (h : ∀ c ∈ s, isLowerHex c = true) :
    ∀ c ∈ padZero w s, isLowerHex c = true := by
  intro c hc
  unfold padZero at hc
  rcases List.mem_append.mp hc with hc | hc
  · rw [(List.mem_replicate.mp hc).2]; decide
  · exact h c hc

theorem fmt_02x_lowerHex (v : Nat) : ∀ c ∈ fmt_02x v, isLowerHex c = true :=
  padZero_lowerHex _ _ (toDigits_lowerHex 16 (by omega) (by omega) _ _ _
    (fun _ h => absurd h (List.not_mem_nil _)))

theorem fmt_08x_lowerHex (v : Nat) : ∀ c ∈ fmt_08x v, isLowerHex c = true :=
  padZero_lowerHex _ _ (toDigits_lowerHex 16 (by omega) (by omega) _ _ _
    (fun _ h => absurd h (List.not_mem_nil _)))

theorem fmt_u_lowerHex (v : Nat) : ∀ c ∈ fmt_u v, isLowerHex c = true :=
  toDigits_lowerHex 10 (by omega) (by omega) _ _ _
    (fun _ h => absurd h (List.not_mem_nil _))

theorem not_isPrefixOf_of_head (a : Char) (p : List Char) :
    ∀ (X T : List Char), (∀ c ∈ X, c ≠ a) → T.head? ≠ some a →
      (a :: p).isPrefixOf (X ++ T) = false := by
  intro X T hX hT
  cases X with
  | nil =>
    cases T with
    | nil => rfl
    | cons t T =>
      have : a ≠ t := fun e => hT (by rw [e]; rfl)
      simp [List.isPrefixOf, this]
  | cons x X =>
    have : a ≠ x := fun e => hX x (List.mem_cons_self _ _) e.symm
    simp [List.isPrefixOf, this]

theorem lowerHex_ne {c a : Char} (h : isLowerHex c = true) (ha : isLowerHex a = false) :
    c ≠ a := by
  intro e; rw [e, ha] at h; cases h

/-! ## The number of FOUND lines -/

theorem foundLines_append (xs ys : List Event) :
    foundLines (xs ++ ys) = foundLines xs ++ foundLines ys := by
  unfold foundLines
  rw [prints_append, List.filter_append]

theorem foundLines_matchLoop (env : Target) (start_addr offset : Nat) (ps : List Nat)
    (i : Nat) : foundLines (matchLoop env start_addr offset ps i).1 = [] := by
  unfold foundLines
  rw [prints_matchLoop]
  rfl

theorem foundLines_foundLine (x : Nat) (rest : List Event) :
    foundLines (foundLine x :: rest) =
      ("FOUND: 0x".toList ++ fmt_08x x ++ "\n".toList) :: foundLines rest := rfl

theorem foundLines_stopLine : foundLines [stopLine] = [] := by
  rw [stopLine_eq]; rfl

theorem searchLoop_found_count (env : Target) (start_addr bound : Nat) (pattern : List Nat) :
    ∀ (fuel offset fc : Nat) (r : List Event × Nat),
      searchLoop env start_addr bound pattern fuel offset fc = some r → fc < 100 →
      (foundLines r.1).length + fc = r.2 ∧ r.2 ≤ 100 := by
  intro fuel
  induction fuel with
  | zero => intro offset fc r h; simp [searchLoop] at h
  | succ fuel ih =>
    intro offset fc r h hfc
    unfold searchLoop at h
    split_ifs at h with h1 h2 h3
    · obtain rfl := Option.some.inj h
      simp only [PICOPEEKER_MAX_SEARCH_RESULTS] at h3
      have e : foundLines ((matchLoop env start_addr offset pattern 0).1 ++
          [foundLine (wrap32 (start_addr + offset)), stopLine]) =
          ["FOUND: 0x".toList ++ fmt_08x (wrap32 (start_addr + offset)) ++ "\n".toList] := by
        rw [foundLines_append, foundLines_matchLoop, foundLines_foundLine, foundLines_stopLine]
        rfl
      simp only [e, List.length_singleton]
      omega
    · simp only [PICOPEEKER_MAX_SEARCH_RESULTS] at h3
      rcases Option.eq_none_or_eq_some (searchLoop env start_addr bound pattern fuel
        (wrap32 (offset + 1)) (fc + 1)) with hn | ⟨q, hq⟩
      · rw [hn] at h; cases h
      · rw [hq] at h
        obtain rfl := Option.some.inj h
        obtain ⟨i1, i2⟩ := ih _ _ q hq (by omega)
        have e : foundLines ((matchLoop env start_addr offset pattern 0).1 ++
            foundLine (wrap32 (start_addr + offset)) :: q.1) =
            ("FOUND: 0x".toList ++ fmt_08x (wrap32 (start_addr + offset)) ++ "\n".toList) ::
              foundLines q.1 := by
          rw [foundLines_append, foundLines_matchLoop, foundLines_foundLine]
          rfl
        simp only [e, List.length_cons]
        omega
    · rcases Option.eq_none_or_eq_some (searchLoop env start_addr bound pattern fuel
        (wrap32 (offset + 1)) fc) with hn | ⟨q, hq⟩
      · rw [hn] at h; cases h
      · rw [hq] at h
        obtain rfl := Option.some.inj h
        obtain ⟨i1, i2⟩ := ih _ _ q hq hfc
        have e : foundLines ((matchLoop env start_addr offset pattern 0).1 ++ q.1) =
            foundLines q.1 := by
          rw [foundLines_append, foundLines_matchLoop]; rfl
        simp only [e]
        omega
    · obtain rfl := Option.some.inj h
      exact ⟨by simp [foundLines, prints], by omega⟩

theorem foundLines_searchHeader (start_addr end_addr : Nat) (region_name : List Char)
    (pattern : List Nat) :
    foundLines (searchHeader start_addr end_addr region_name pattern) = [] := by
  have hF : isLowerHex 'F' = false := by decide
  have hecho : (pattern.map fun b => fmt_02x b ++ [' ']).filter
      (fun s => "FOUND: ".toList.isPrefixOf s) = [] := by
    rw [List.filter_eq_nil_iff]
    intro s hs
    obtain ⟨b, -, rfl⟩ := List.mem_map.mp hs
    have := not_isPrefixOf_of_head 'F' "OUND: ".toList (fmt_02x b) [' ']
      (fun c hc => lowerHex_ne (fmt_02x_lowerHex b c hc) hF) (by decide)
    simp only [Bool.not_eq_true]
    exact this
  unfold foundLines
  rw [prints_searchHeader, List.filter_append, List.filter_append, hecho]
  rfl

theorem foundLines_totalLine (region_name : List Char) (c : Nat) :
    foundLines [totalLine region_name c] = [] := rfl

theorem filter_found_lines (start_addr : Nat) (l : List Nat) :
    (l.map fun o => "FOUND: 0x".toList ++ fmt_08x (start_addr + o) ++ "\n".toList).filter
      (fun s => "FOUND: ".toList.isPrefixOf s) =
    l.map fun o => "FOUND: 0x".toList ++ fmt_08x (start_addr + o) ++ "\n".toList := by
  rw [List.filter_eq_self]
  intro s hs
  obtain ⟨o, -, rfl⟩ := List.mem_map.mp hs
  rfl

theorem search_region_found_le (fuel : Nat) (env : Target) (start_addr end_addr : Nat)
    (region_name : List Char) (pattern : List Nat) (ev : List Event)
    (h : _picopeeker_search_region fuel env start_addr end_addr region_name pattern = some ev) :
    (foundLines ev).length ≤ 100 := by
  unfold _picopeeker_search_region at h
  rcases Option.eq_none_or_eq_some (searchLoop env start_addr
    (sub32 (sub32 end_addr start_addr) pattern.length) pattern fuel 0 0) with hn | ⟨r, hr⟩
  · rw [hn] at h; cases h
  · rw [hr] at h
    obtain rfl := Option.some.inj h
    obtain ⟨i1, i2⟩ := searchLoop_found_count env start_addr _ pattern fuel 0 0 r hr (by omega)
    rw [foundLines_append, foundLines_append, foundLines_searchHeader, foundLines_totalLine,
      List.nil_append, List.append_nil]
    omega

theorem stop_not_in_header (start_addr end_addr : Nat) (region_name : List Char)
    (pattern : List Nat) :
    "(stopping after 100 matches)\n".toList ∉
      prints (searchHeader start_addr end_addr region_name pattern) := by
  intro hmem
  have hq : "(s".toList.isPrefixOf "(stopping after 100 matches)\n".toList = true := rfl
  have hall : ∀ s ∈ prints (searchHeader start_addr end_addr region_name pattern),
      "(s".toList.isPrefixOf s = false := by
    intro s hs
    rw [prints_searchHeader] at hs
    simp only [List.mem_append, List.mem_cons, List.mem_singleton, List.mem_map,
      List.mem_nil_iff, or_false] at hs
    rcases hs with (((rfl | rfl | rfl) | ⟨b, -, rfl⟩) | rfl)
    · rfl
    · rfl
    · rfl
    · exact not_isPrefixOf_of_head '(' "s".toList (fmt_02x b) [' ']
        (fun c hc => lowerHex_ne (fmt_02x_lowerHex b c hc) (by decide)) (by decide)
    · have h2 := not_isPrefixOf_of_head 's' [] (fmt_u pattern.length) " bytes)\n\n".toList
        (fun c hc => lowerHex_ne (fmt_u_lowerHex _ c hc) (by decide)) (by decide)
      show ("(s".toList).isPrefixOf ('(' :: (fmt_u pattern.length ++ " bytes)\n\n".toList)) =
        false
      simpa [List.isPrefixOf] using h2
  rw [hall _ hmem] at hq
  cases hq

/-- C11: one region search never prints more than 100 FOUND lines, whatever the
region, the pattern and the memory contents. On a region at least as large as the
pattern: when at least 100 offsets match, exactly 100 FOUND lines, those of the 100
lowest matching addresses, are followed by the stop notice and a total of 100;
when fewer than 100 match, every match is printed, the notice is not, and the
total is the number of matches. -/
theorem found_lines_capped (fuel : Nat) (env : Target) (start_addr end_addr : Nat)
    (region_name : List Char) (pattern : List Nat) :
    (∀ ev, _picopeeker_search_region fuel env start_addr end_addr region_name pattern =
        some ev → (foundLines ev).length ≤ 100) ∧
    (start_addr ≤ end_addr → end_addr < 4294967296 → 1 ≤ pattern.length →
      pattern.length ≤ end_addr - start_addr →
      end_addr - start_addr - pattern.length + 1 < fuel →
      ∃ ev, _picopeeker_search_region fuel env start_addr end_addr region_name pattern =
          some ev ∧
        foundLines ev =
          ((matchOffsets env start_addr end_addr pattern).take 100).map
            (fun o => "FOUND: 0x".toList ++ fmt_08x (start_addr + o) ++ "\n".toList) ∧
        (100 ≤ (matchOffsets env start_addr end_addr pattern).length →
          (foundLines ev).length = 100 ∧
          prints ev =
            prints (searchHeader start_addr end_addr region_name pattern) ++
            ((matchOffsets env start_addr end_addr pattern).take 100).map
              (fun o => "FOUND: 0x".toList ++ fmt_08x (start_addr + o) ++ "\n".toList) ++
            ["(stopping after 100 matches)\n".toList,
             "Total matches in ".toList ++ region_name ++ ": 100\n\n".toList]) ∧
        ((matchOffsets env start_addr end_addr pattern).length < 100 →
          "(stopping after 100 matches)\n".toList ∉ prints ev ∧
          prints ev =
            prints (searchHeader start_addr end_addr region_name pattern) ++
            (matchOffsets env start_addr end_addr pattern).map
              (fun o => "FOUND: 0x".toList ++ fmt_08x (start_addr + o) ++ "\n".toList) ++
            ["Total matches in ".toList ++ region_name ++ ": ".toList ++
              fmt_u (matchOffsets env start_addr end_addr pattern).length ++
              "\n\n".toList])) := by
  refine ⟨fun ev h => search_region_found_le fuel env start_addr end_addr region_name pattern
    ev h, ?_⟩
  intro hs he hp1 hp2 hf
  obtain ⟨ev, hev, hp, -⟩ := search_region_closed fuel env start_addr end_addr region_name
    pattern hs he hp1 hp2 hf
  have hfl : foundLines ev =
      ((matchOffsets env start_addr end_addr pattern).take 100).map
        (fun o => "FOUND: 0x".toList ++ fmt_08x (start_addr + o) ++ "\n".toList) := by
    have hh := foundLines_searchHeader start_addr end_addr region_name pattern
    have hT : List.filter (fun s => "FOUND: ".toList.isPrefixOf s)
        ["Total matches in ".toList ++ region_name ++ ": ".toList ++
          fmt_u (min 100 (matchOffsets env start_addr end_addr pattern).length) ++
          "\n\n".toList] = [] := rfl
    have hS : List.filter (fun s => "FOUND: ".toList.isPrefixOf s)
        ["(stopping after 100 matches)\n".toList] = [] := rfl
    have hN : List.filter (fun s => "FOUND: ".toList.isPrefixOf s) [] = [] := rfl
    unfold foundLines at hh ⊢
    rw [hp, List.filter_append, List.filter_append, List.filter_append, hh,
      filter_found_lines, hT]
    split_ifs
    · rw [hS, List.nil_append, List.append_nil, List.append_nil]
    · rw [hN, List.nil_append, List.append_nil, List.append_nil]
  refine ⟨ev, hev, hfl, ?_, ?_⟩
  · intro h100
    refine ⟨?_, ?_⟩
    · rw [hfl, List.length_map, List.length_take]; omega
    · have hm : min 100 (matchOffsets env start_addr end_addr pattern).length = 100 := by
        omega
      have hu : fmt_u 100 = "100".toList := by decide
      rw [hp, if_pos h100, hm, hu]
      simp only [List.append_assoc, List.singleton_append, List.cons_append, List.nil_append]
      rfl
  · intro hlt
    have hm : min 100 (matchOffsets env start_addr end_addr pattern).length =
        (matchOffsets env start_addr end_addr pattern).length := by omega
    have ht : (matchOffsets env start_addr end_addr pattern).take 100 =
        matchOffsets env start_addr end_addr pattern := List.take_of_length_le (by omega)
    have hp2 : prints ev =
        prints (searchHeader start_addr end_addr region_name pattern) ++
        (matchOffsets env start_addr end_addr pattern).map
          (fun o => "FOUND: 0x".toList ++ fmt_08x (start_addr + o) ++ "\n".toList) ++
        ["Total matches in ".toList ++ region_name ++ ": ".toList ++
          fmt_u (matchOffsets env start_addr end_addr pattern).length ++ "\n\n".toList] := by
      rw [hp, if_neg (by omega), hm, ht, List.append_nil]
    refine ⟨?_, hp2⟩
    rw [hp2]
    intro hmem
    rcases List.mem_append.mp hmem with hmem | hmem
    · rcases List.mem_append.mp hmem with hmem | hmem
      · exact stop_not_in_header start_addr end_addr region_name pattern hmem
      · obtain ⟨o, -, ho⟩ := List.mem_map.mp hmem
        have h1 : ("FOUND: 0x".toList ++ fmt_08x (start_addr + o) ++ "\n".toList).head? =
            some 'F' := rfl
        rw [ho] at h1
        revert h1; decide
    · have ho := List.mem_singleton.mp hmem
      have h1 : ("Total matches in ".toList ++ region_name ++ ": ".toList ++
          fmt_u (matchOffsets env start_addr end_addr pattern).length ++
          "\n\n".toList).head? = some 'T' := rfl
      rw [← ho] at h1
      revert h1; decide

theorem prints_flatMap {α : Type} (l : List α) (f : α → List Event) :
    prints (l.flatMap f) = l.flatMap fun x => prints (f x) := by
  induction l with
  | nil => rfl
  | cons x xs ih => simp [List.flatMap_cons, prints_append, ih]

theorem prints_hexCells (env : Target) (address length i : Nat) (hi : i + 16 ≤ 4294967296) :
    prints ((List.range 16).flatMap (hexCell env address length i)) =
      rowCells env address length i := by
  rw [prints_flatMap]
  have h : ∀ j ∈ List.range 16, prints (hexCell env address length i j) =
      [if i + j < length then
          fmt_02x (env.byteAt (wrap32 (address + (i + j)))) ++ [' ']
        else "   ".toList] := by
    intro j hj
    have hj16 : j < 16 := List.mem_range.mp hj
    have hw : wrap32 (i + j) = i + j := wrap32_of_lt (by omega)
    unfold hexCell
    rw [hw]
    split_ifs <;> rfl
  rw [List.flatMap_congr h]
  unfold rowCells
  induction (List.range 16) with
  | nil => rfl
  | cons x xs ih => simp only [List.flatMap_cons, List.map_cons, ih, List.singleton_append]

theorem prints_asciiLoop (env : Target) (address length i : Nat) :
    ∀ n j, i + j + n ≤ 4294967296 →
      prints (asciiLoop env address length i n j) =
        (List.range' j (min n (length - i - j))).map fun j =>
          [asciiChar (env.byteAt (wrap32 (address + (i + j))))] := by
  intro n
  induction n with
  | zero => intro j _; simp [asciiLoop, prints]
  | succ n ih =>
    intro j hj
    have hw : wrap32 (i + j) = i + j := wrap32_of_lt (by omega)
    unfold asciiLoop
    rw [hw]
    by_cases c : i + j < length
    · have e : min (n + 1) (length - i - j) = min n (length - i - (j + 1)) + 1 := by omega
      rw [if_pos c, e, List.range'_succ]
      simp only [prints, ih (j + 1) (by omega), List.map_cons]
    · have e : min (n + 1) (length - i - j) = 0 := by omega
      rw [if_neg c, e]
      rfl

theorem prints_hexRow (env : Target) (address length i : Nat) (hi : i + 16 ≤ 4294967296) :
    prints (hexRow env address length i) = rowPrints env address length i := by
  have hP : ∀ s : String, prints [P s] = [s.toList] := fun _ => rfl
  have hA : prints [Event.print (fmt_08x (address + i) ++ [':', ' '])] =
      [fmt_08x (address + i) ++ [':', ' ']] := rfl
  unfold hexRow rowPrints
  rw [prints_append, prints_append, prints_append, prints_append, hA, hP, hP,
    prints_hexCells env address length i hi,
    prints_asciiLoop env address length i 16 0 (by omega)]
  unfold rowAscii
  rw [List.range_eq_range', Nat.sub_zero]

theorem prints_send_hex_dump (fuel : Nat) (env : Target) (address length : Nat)
    (hl : length ≤ 4294967280) (hf : (length + 15) / 16 < fuel) :
    ∃ ev, _picopeeker_send_hex_dump fuel env address length = some ev ∧
      prints ev = prints (hexHeader address length) ++
        (rowOffsets length 0).flatMap (rowPrints env address length) ++
        ["\n===END===\n".toList] := by
  refine ⟨_, send_hex_dump_eq fuel env address length hl hf, ?_⟩
  have hrow : ∀ i ∈ rowOffsets length 0, prints (hexRow env address length i) =
      rowPrints env address length i := by
    intro i hi
    unfold rowOffsets at hi
    obtain ⟨r, hr, rfl⟩ := List.mem_range'.mp hi
    exact prints_hexRow env address length _ (by omega)
  rw [prints_append, prints_append, prints_flatMap, List.flatMap_congr hrow]
  rfl

theorem rowOffsets_eq_map (length : Nat) :
    rowOffsets length 0 = (List.range ((length + 15) / 16)).map fun k => 16 * k := by
  unfold rowOffsets
  rw [Nat.sub_zero]
  induction (length + 15) / 16 with
  | zero => rfl
  | succ n ih =>
    rw [List.range'_concat, List.range_succ, List.map_append, ih]
    simp

/-! ## Reading the hex cells back -/

theorem toDigits_length (base : Nat) : ∀ (fuel n : Nat) (acc : List Char),
    (toDigits base fuel n acc).length ≤ fuel + acc.length := by
  intro fuel
  induction fuel with
  | zero => intro n acc; simp [toDigits]
  | succ fuel ih =>
    intro n acc
    unfold toDigits
    split_ifs
    · simp only [List.length_cons]; omega
    · have := ih (n / base) (digitChar (n % base) :: acc)
      simp only [List.length_cons] at this
      omega

theorem fmt_08x_length (v : Nat) : (fmt_08x v).length = 8 := by
  have := toDigits_length 16 8 (wrap32 v) []
  unfold fmt_08x padZero
  rw [List.length_append, List.length_replicate]
  simp only [List.length_nil] at this
  omega

theorem hexValue_lowerHexDigit : ∀ d, d < 16 → hexValue (lowerHexDigit d) = some d := by
  decide

theorem cellValue_cell (b : Nat) (hb : b < 256) : cellValue (fmt_02x b ++ [' ']) = some b := by
  rw [fmt_02x_byte b hb]
  show cellValue [lowerHexDigit (b / 16), lowerHexDigit (b % 16), ' '] = some b
  unfold cellValue
  simp only [hexValue_lowerHexDigit (b / 16) (by omega),
    hexValue_lowerHexDigit (b % 16) (by omega)]
  congr 1
  omega

theorem cellValue_blank : cellValue "   ".toList = none := by decide

theorem byteAt_lt (env : Target) (a : Nat) : env.byteAt a < 256 := by
  unfold Target.byteAt
  omega

theorem filterMap_range_ite {α : Type} (f : Nat → α) (k : Nat) :
    ∀ m, (List.range m).filterMap (fun j => if j < k then some (f j) else none) =
      (List.range (min m k)).map f := by
  intro m
  induction m with
  | zero => simp
  | succ m ih =>
    rw [List.range_succ, List.filterMap_append, ih]
    by_cases h : m < k
    · have e : min (m + 1) k = min m k + 1 := by omega
      have e2 : min m k = m := by omega
      rw [e, List.range_succ, List.map_append, e2]
      simp [h]
    · have e : min (m + 1) k = min m k := by omega
      rw [e]
      simp [h]

theorem filterMap_rowCells (env : Target) (address length i : Nat) :
    (rowCells env address length i).filterMap cellValue =
      (List.range (min 16 (length - i))).map fun j =>
        env.byteAt (wrap32 (address + (i + j))) := by
  unfold rowCells
  rw [List.filterMap_map, ← filterMap_range_ite]
  apply List.filterMap_congr
  intro j _
  simp only [Function.comp]
  by_cases c : i + j < length
  · rw [if_pos c, if_pos (by omega), cellValue_cell _ (byteAt_lt _ _)]
  · rw [if_neg c, if_neg (by omega), cellValue_blank]

theorem rows_cover {α : Type} (g : Nat → α) (n : Nat) :
    ∀ k i, (n - i + 15) / 16 = k →
      (rowOffsets n i).flatMap (fun r => (List.range (min 16 (n - r))).map fun j => g (r + j)) =
        (List.range' i (n - i)).map g := by
  intro k
  induction k with
  | zero =>
    intro i h
    have e : n - i = 0 := by omega
    rw [rowOffsets_of_ge (by omega), e]
    rfl
  | succ k ih =>
    intro i h
    have hi : i < n := by omega
    rw [rowOffsets_of_lt hi, List.flatMap_cons, ih (i + 16) (by omega)]
    have hhead : ((List.range (min 16 (n - i))).map fun j => g (i + j)) =
        (List.range' i (min 16 (n - i))).map g := by
      rw [List.range'_eq_map_range, List.map_map]
      rfl
    rw [hhead, ← List.map_append]
    congr 1
    by_cases c : 16 ≤ n - i
    · have e1 : min 16 (n - i) = 16 := by omega
      have e2 : n - i = (n - (i + 16)) + 16 := by omega
      rw [e1]
      conv_rhs => rw [e2]
      rw [List.range'_append_1]
    · have e1 : min 16 (n - i) = n - i := by omega
      have e2 : n - (i + 16) = 0 := by omega
      rw [e1, e2]
      simp

theorem cells_roundtrip (env : Target) (address length : Nat) :
    ((rowOffsets length 0).flatMap (rowCells env address length)).filterMap cellValue =
      (List.range length).map fun k => env.byteAt (wrap32 (address + k)) := by
  have h := rows_cover (fun k => env.byteAt (wrap32 (address + k))) length
    ((length - 0 + 15) / 16) 0 rfl
  rw [List.filterMap_flatMap]
  simp only [filterMap_rowCells]
  rw [h, Nat.sub_zero, List.range_eq_range']

theorem hexLoop_rows (fuel : Nat) (env : Target) (address length : Nat)
    (hl : length ≤ 4294967280) (hf : (length + 15) / 16 < fuel) :
    ∃ rows, hexLoop env address length fuel 0 = some rows ∧
      prints rows = (rowOffsets length 0).flatMap (rowPrints env address length) := by
  refine ⟨_, hexLoop_eq env address length hl fuel 0 (by simpa using hf), ?_⟩
  have hrow : ∀ i ∈ rowOffsets length 0, prints (hexRow env address length i) =
      rowPrints env address length i := by
    intro i hi
    unfold rowOffsets at hi
    obtain ⟨r, hr, rfl⟩ := List.mem_range'.mp hi
    exact prints_hexRow env address length _ (by omega)
  rw [prints_flatMap, List.flatMap_congr hrow]

/-- C13: the hex dump reads back. For every address, every length in `1..4096` and
every memory content the dump consists of the header, the rows and the terminator;
the hex cells of the rows, read in order as two hex digits each, give exactly the
bytes at `address, ..., address + length - 1`; and the ASCII column of a row has one
character per byte of the row, the byte's own character when its value is in
`32..126` and `.` otherwise. The standalone program prints the same rows. -/
theorem hex_dump_roundtrip (fuel : Nat) (env : Target) (address length : Nat)
    (h1 : 1 ≤ length) (h2 : length ≤ 4096) (hf : 257 ≤ fuel) :
    ∃ rows, hexLoop env address length fuel 0 = some rows ∧
      _picopeeker_send_hex_dump fuel env address length =
        some (hexHeader address length ++ rows ++ [P "\n===END===\n"]) ∧
      (∃ hdr, loads hdr = [] ∧
        MemoryExplorer.send_hex_dump fuel env address length =
          some (hdr ++ rows ++ [P "\n===END===\n"])) ∧
      prints rows =
        (rowOffsets length 0).flatMap (fun i =>
          [fmt_08x (address + i) ++ [':', ' ']] ++ rowCells env address length i ++
            [" ".toList] ++ rowAscii env address length i ++ ["\n".toList]) ∧
      ((rowOffsets length 0).flatMap (rowCells env address length)).filterMap cellValue =
        (List.range length).map (fun k => env.byteAt (wrap32 (address + k))) ∧
      (∀ i, rowAscii env address length i =
        (List.range (min 16 (length - i))).map fun j =>
          [if env.byteAt (wrap32 (address + (i + j))) ≥ 32 ∧
              env.byteAt (wrap32 (address + (i + j))) ≤ 126
            then Char.ofNat (env.byteAt (wrap32 (address + (i + j)))) else '.']) ∧
      (∀ i, (rowAscii env address length i).length = min 16 (length - i)) := by
  obtain ⟨rows, hr, hp⟩ := hexLoop_rows fuel env address length (by omega) (by omega)
  refine ⟨rows, hr, ?_, ?_, hp, cells_roundtrip env address length, fun _ => rfl, ?_⟩
  · unfold _picopeeker_send_hex_dump
    rw [hr]; rfl
  · refine ⟨_, ?_, by unfold MemoryExplorer.send_hex_dump; rw [hr]; rfl⟩
    rfl
  · intro i
    unfold rowAscii
    rw [List.length_map, List.length_range]

theorem hex_dump_roundtrip_witness :
    ((rowOffsets 2 0).flatMap
        (rowCells ⟨fun a => if a = 0x20000000 then 0x41 else 0, 0⟩ 0x20000000 2)).filterMap
      cellValue = [0x41, 0] ∧
    rowAscii ⟨fun a => if a = 0x20000000 then 0x41 else 0, 0⟩ 0x20000000 2 0 =
      [['A'], ['.']] := by
  obtain ⟨rows, -, -, -, -, h5, h6, -⟩ := hex_dump_roundtrip 257
    ⟨fun a => if a = 0x20000000 then 0x41 else 0, 0⟩ 0x20000000 2 (by decide) (by decide)
    (by decide)
  refine ⟨?_, ?_⟩
  · rw [h5]; decide
  · rw [h6 0]; decide

/-- C14: the layout of a dump of `n` bytes (`1 <= n <= 4096`) at address `a`: the
four header lines, then exactly `ceil(n/16)` rows, then the terminator. Row `k`
starts with the eight hex digits of `a + 16k` followed by `: `, then has exactly
sixteen cells of three characters, a cell beyond the end of the range being three
blanks, then one blank, so that the ASCII column starts after 59 characters in
every row. -/
theorem hex_dump_layout (fuel : Nat) (env : Target) (address length : Nat)
    (h1 : 1 ≤ length) (h2 : length ≤ 4096) (hf : 257 ≤ fuel) :
    ∃ ev, _picopeeker_send_hex_dump fuel env address length = some ev ∧
      prints ev =
        ["=== HEX DUMP ===\n".toList,
         "Address: 0x".toList ++ fmt_08x address ++ ", Length: ".toList ++ fmt_u length ++
           " bytes\n\n".toList,
         "Address:  00 01 02 03 04 05 06 07 08 09 0A 0B 0C 0D 0E 0F  ASCII\n".toList,
         "--------  -----------------------------------------------  ----------------\n".toList]
        ++ (List.range ((length + 15) / 16)).flatMap (fun k =>
          [fmt_08x (address + 16 * k) ++ [':', ' ']] ++ rowCells env address length (16 * k) ++
            [" ".toList] ++ rowAscii env address length (16 * k) ++ ["\n".toList])
        ++ ["\n===END===\n".toList] ∧
      (∀ v, (fmt_08x v).length = 8) ∧
      (∀ i, (rowCells env address length i).length = 16 ∧
        ∀ cell ∈ rowCells env address length i, cell.length = 3) ∧
      (∀ i j, j < 16 → length ≤ i + j →
        (rowCells env address length i).getD j [] = "   ".toList) ∧
      (∀ i j, j < 16 → i + j < length →
        (rowCells env address length i).getD j [] =
          fmt_02x (env.byteAt (wrap32 (address + (i + j)))) ++ [' ']) ∧
      (∀ i, ([fmt_08x (address + i) ++ [':', ' ']] ++ rowCells env address length i ++
        [" ".toList]).flatten.length = 59) := by
  obtain ⟨ev, hev, hp⟩ := prints_send_hex_dump fuel env address length (by omega) (by omega)
  have hcell : ∀ i, ∀ cell ∈ rowCells env address length i, cell.length = 3 := by
    intro i cell hc
    unfold rowCells at hc
    obtain ⟨j, -, rfl⟩ := List.mem_map.mp hc
    split_ifs
    · rw [fmt_02x_byte _ (byteAt_lt _ _)]; rfl
    · rfl
  have hlen : ∀ i, (rowCells env address length i).length = 16 := by
    intro i; unfold rowCells; rw [List.length_map, List.length_range]
  have hget : ∀ i j, j < 16 → (rowCells env address length i).getD j [] =
      if i + j < length then fmt_02x (env.byteAt (wrap32 (address + (i + j)))) ++ [' ']
      else "   ".toList := by
    intro i j hj
    rw [List.getD_eq_getElem _ _ (by rw [hlen]; exact hj)]
    unfold rowCells
    simp
  refine ⟨ev, hev, ?_, fmt_08x_length, fun i => ⟨hlen i, hcell i⟩, ?_, ?_, ?_⟩
  · rw [hp, rowOffsets_eq_map, List.flatMap_map]
    rfl
  · intro i j hj hn
    rw [hget i j hj, if_neg (by omega)]
  · intro i j hj hn
    rw [hget i j hj, if_pos hn]
  · intro i
    have hsum : ∀ l : List (List Char), (∀ c ∈ l, c.length = 3) →
        l.flatten.length = 3 * l.length := by
      intro l
      induction l with
      | nil => intro _; rfl
      | cons x xs ih =>
        intro h
        rw [List.flatten_cons, List.length_append, h x (List.mem_cons_self _ _),
          ih (fun c hc => h c (List.mem_cons_of_mem _ hc)), List.length_cons]
        omega
    rw [List.flatten_append, List.flatten_append, List.length_append, List.length_append,
      hsum _ (hcell i), hlen i]
    simp only [List.flatten_cons, List.flatten_nil, List.append_nil, List.length_append,
      fmt_08x_length]
    rfl

theorem hex_dump_layout_witness :
    ∃ ev, _picopeeker_parse_command 257 ⟨fun _ => 0, 0⟩ "READ:0x20000000:16".toList = some ev ∧
      prints ev =
        ["=== HEX DUMP ===\n".toList,
         "Address: 0x20000000, Length: 16 bytes\n\n".toList,
         "Address:  00 01 02 03 04 05 06 07 08 09 0A 0B 0C 0D 0E 0F  ASCII\n".toList,
         "--------  -----------------------------------------------  ----------------\n".toList,
         "20000000: ".toList] ++ List.replicate 16 "00 ".toList ++ [" ".toList] ++
        List.replicate 16 ".".toList ++ ["\n".toList, "\n===END===\n".toList] := by
  obtain ⟨ev, h1, h2, -⟩ := hex_dump_layout 257 ⟨fun _ => 0, 0⟩ 0x20000000 16 (by decide)
    (by decide) (by decide)
  refine ⟨ev, ?_, ?_⟩
  · rw [← h1]
    have e := @parse_read 257 ⟨fun _ => 0, 0⟩ "READ:0x20000000:16".toList
      "0x20000000:16".toList (by decide)
    rw [e]
    rfl
  · rw [h2]; decide

/-! ## The outcomes of the parser -/

theorem parse_classify (fuel : Nat) (env : Target) (cmd : List Char) :
    (cmd = "LANDMARKS".toList ∧
      _picopeeker_parse_command fuel env cmd = some (_picopeeker_send_landmarks env)) ∨
    (cmd ≠ "LANDMARKS".toList ∧
      ∃ ev, ev ∈ errorResponses ∧ _picopeeker_parse_command fuel env cmd = some ev) ∨
    (cmd ≠ "LANDMARKS".toList ∧
      ∃ flash rest tok r2 k, strtok cmd ':' = some (searchKeyword flash, rest) ∧
        strtok rest ':' = some (tok, r2) ∧ tok.length = 2 * k ∧ 1 ≤ k ∧ k ≤ 64 ∧
        _picopeeker_parse_command fuel env cmd =
          (_picopeeker_search_region fuel env (scopeStart flash) (scopeEnd flash)
            (scopeName flash) (decodePattern tok k)).map
            (fun ev => ev ++ [P "===END===\n"])) ∨
    (cmd ≠ "LANDMARKS".toList ∧
      ∃ rest ta r2 tl r3 e, strtok cmd ':' = some ("READ".toList, rest) ∧
        strtok rest ':' = some (ta, r2) ∧ strtok r2 ':' = some (tl, r3) ∧
        1 ≤ toU32 (atoi tl) ∧ toU32 (atoi tl) ≤ 4096 ∧
        boundsFor (strtoul ta 16) = some e ∧
        _picopeeker_parse_command fuel env cmd =
          (_picopeeker_send_hex_dump fuel env (strtoul ta 16)
              (min (toU32 (atoi tl)) (e - strtoul ta 16))).map
            (fun dump =>
              (if strtoul ta 16 + toU32 (atoi tl) > e then
                [clampWarning (toU32 (atoi tl)) (e - strtoul ta 16)] else []) ++ dump)) := by
  by_cases hL : cmd = "LANDMARKS".toList
  · exact Or.inl ⟨hL, by unfold _picopeeker_parse_command; rw [if_pos hL]⟩
  have searchCase : ∀ (flash : Bool) (rest : List Char),
      strtok cmd ':' = some (searchKeyword flash, rest) →
      (∃ ev, ev ∈ errorResponses ∧ _picopeeker_parse_command fuel env cmd = some ev) ∨
      (∃ flash rest tok r2 k, strtok cmd ':' = some (searchKeyword flash, rest) ∧
        strtok rest ':' = some (tok, r2) ∧ tok.length = 2 * k ∧ 1 ≤ k ∧ k ≤ 64 ∧
        _picopeeker_parse_command fuel env cmd =
          (_picopeeker_search_region fuel env (scopeStart flash) (scopeEnd flash)
            (scopeName flash) (decodePattern tok k)).map
            (fun ev => ev ++ [P "===END===\n"])) := by
    intro flash rest hs
    rcases Option.eq_none_or_eq_some (strtok rest ':') with ht | ⟨⟨tok, r2⟩, ht⟩
    · left
      cases flash
      · exact ⟨[P "ERROR: Missing search pattern\n", P "Usage: SEARCH:HEXPATTERN\n",
          P "Example: SEARCH:DEADBEEF\n"], by decide,
          by rw [parse_search fuel env hs, ht]⟩
      · exact ⟨[P "ERROR: Missing search pattern\n", P "Usage: SEARCHFLASH:HEXPATTERN\n",
          P "Example: SEARCHFLASH:48656C6C6F (search for \x27Hello\x27)\n"],
          by decide, by rw [parse_searchflash fuel env hs, ht]⟩
    · have hp := parse_search_token fuel env flash hs ht
      by_cases e1 : tok.length % 2 ≠ 0
      · left
        exact ⟨[P "ERROR: Hex pattern must have even number of digits\n"], by decide,
          by rw [hp]; unfold searchCommand; rw [if_pos e1]⟩
      · by_cases e2 : tok.length / 2 = 0 ∨ tok.length / 2 > PICOPEEKER_MAX_PATTERN_SIZE
        · left
          exact ⟨[patternLengthError], by decide,
            by rw [hp]; unfold searchCommand; rw [if_neg e1, if_pos e2]⟩
        · right
          simp only [PICOPEEKER_MAX_PATTERN_SIZE] at e2
          refine ⟨flash, rest, tok, r2, tok.length / 2, hs, ht, by omega, by omega, by omega,
            ?_⟩
          rw [hp, searchCommand_accepts fuel env flash tok (tok.length / 2) (by omega)
            (by omega) (by omega)]
  rcases Option.eq_none_or_eq_some (strtok cmd ':') with hs | ⟨⟨tok, rest⟩, hs⟩
  · exact Or.inr (Or.inl ⟨hL, [P "ERROR: Invalid command\n"], by decide,
      by unfold _picopeeker_parse_command; rw [if_neg hL, hs]⟩)
  by_cases t1 : tok = "SEARCH".toList
  · subst t1
    rcases searchCase false rest hs with h | h
    · exact Or.inr (Or.inl ⟨hL, h⟩)
    · exact Or.inr (Or.inr (Or.inl ⟨hL, h⟩))
  by_cases t2 : tok = "SEARCHFLASH".toList
  · subst t2
    rcases searchCase true rest hs with h | h
    · exact Or.inr (Or.inl ⟨hL, h⟩)
    · exact Or.inr (Or.inr (Or.inl ⟨hL, h⟩))
  by_cases t3 : tok = "READ".toList
  · subst t3
    have hp := parse_read fuel env hs
    rcases Option.eq_none_or_eq_some (strtok rest ':') with hta | ⟨⟨ta, r2⟩, hta⟩
    · exact Or.inr (Or.inl ⟨hL, [P "ERROR: Missing address\n"], by decide,
        by rw [hp]; unfold readCommand; simp only [hta]⟩)
    rcases Option.eq_none_or_eq_some (strtok r2 ':') with htl | ⟨⟨tl, r3⟩, htl⟩
    · exact Or.inr (Or.inl ⟨hL, [P "ERROR: Missing length\n"], by decide,
        by rw [hp]; unfold readCommand; simp only [hta, htl]⟩)
    by_cases hlen : toU32 (atoi tl) = 0 ∨ toU32 (atoi tl) > PICOPEEKER_MAX_READ_SIZE
    · exact Or.inr (Or.inl ⟨hL, [lengthError], by decide,
        by rw [hp]; unfold readCommand; simp only [hta, htl, if_pos hlen]⟩)
    rcases Option.eq_none_or_eq_some (boundsFor (strtoul ta 16)) with hb | ⟨e, hb⟩
    · exact Or.inr (Or.inl ⟨hL, addressError, by decide,
        by rw [hp]; unfold readCommand; simp only [hta, htl, if_neg hlen, hb]⟩)
    · simp only [PICOPEEKER_MAX_READ_SIZE] at hlen
      refine Or.inr (Or.inr (Or.inr ⟨hL, rest, ta, r2, tl, r3, e, hs, hta, htl, by omega,
        by omega, hb, ?_⟩))
      rw [hp, readCommand_in_region fuel env hta htl (by omega) (by omega) hb]
  · refine Or.inr (Or.inl ⟨hL, [P "ERROR: Invalid command\n"], by decide, ?_⟩)
    unfold _picopeeker_parse_command
    rw [if_neg hL, hs]
    simp only [if_neg t1, if_neg t2, ne_eq, t3, not_false_eq_true, if_true]

theorem errorResponses_facts : ∀ ev ∈ errorResponses,
    loads ev = [] ∧
    (∃ s, (prints ev).head? = some s ∧ "ERROR:".toList.isPrefixOf s = true) ∧
    (∃ s, ev.head? = some (Event.print s) ∧ s.head? = some 'E') ∧
    ∀ s ∈ prints ev,
      "=== HEX DUMP".toList.isPrefixOf s = false ∧
      "=== SEARCHING".toList.isPrefixOf s = false ∧
      "FOUND: ".toList.isPrefixOf s = false ∧
      "WARNING:".toList.isPrefixOf s = false := by
  intro ev hev
  simp only [errorResponses, List.mem_cons, List.mem_nil_iff, or_false] at hev
  rcases hev with rfl | rfl | rfl | rfl | rfl | rfl | rfl | rfl | rfl
  all_goals
    refine ⟨by decide, ⟨_, rfl, by decide⟩, ⟨_, rfl, by decide⟩, ?_⟩
    decide

theorem search_region_head (fuel : Nat) (env : Target) (start_addr end_addr : Nat)
    (region_name : List Char) (pattern : List Nat) (ev : List Event)
    (h : _picopeeker_search_region fuel env start_addr end_addr region_name pattern = some ev) :
    ev.head? = some (Event.print ("=== SEARCHING ".toList ++ region_name ++
      " ===\n".toList)) := by
  unfold _picopeeker_search_region at h
  rcases Option.eq_none_or_eq_some (searchLoop env start_addr
    (sub32 (sub32 end_addr start_addr) pattern.length) pattern fuel 0 0) with hn | ⟨r, hr⟩
  · rw [hn] at h; cases h
  · rw [hr] at h
    obtain rfl := Option.some.inj h
    rfl

theorem send_hex_dump_head (fuel : Nat) (env : Target) (address length : Nat)
    (ev : List Event) (h : _picopeeker_send_hex_dump fuel env address length = some ev) :
    ev.head? = some (P "=== HEX DUMP ===\n") := by
  unfold _picopeeker_send_hex_dump at h
  rcases Option.eq_none_or_eq_some (hexLoop env address length fuel 0) with hn | ⟨r, hr⟩
  · rw [hn] at h; cases h
  · rw [hr] at h
    obtain rfl := Option.some.inj h
    rfl

theorem parse_head (fuel : Nat) (env : Target) (cmd : List Char) (ev : List Event)
    (hne : cmd ≠ "LANDMARKS".toList)
    (h : _picopeeker_parse_command fuel env cmd = some ev) :
    ∃ s, ev.head? = some (Event.print s) ∧
      (s.head? = some 'E' ∨ s.head? = some '=' ∨ s.head? = some 'W') := by
  rcases parse_classify fuel env cmd with ⟨hl, -⟩ | ⟨-, ev2, he, hp⟩ |
    ⟨-, flash, rest, tok, r2, k, -, -, -, -, -, hp⟩ |
    ⟨-, rest, ta, r2, tl, r3, e, -, -, -, -, -, -, hp⟩
  · exact absurd hl hne
  · obtain rfl := Option.some.inj (hp.symm.trans h)
    obtain ⟨-, -, ⟨s, h1, h2⟩, -⟩ := errorResponses_facts _ he
    exact ⟨s, h1, Or.inl h2⟩
  · rw [hp] at h
    rcases Option.eq_none_or_eq_some (_picopeeker_search_region fuel env (scopeStart flash)
      (scopeEnd flash) (scopeName flash) (decodePattern tok k)) with hn | ⟨r, hr⟩
    · rw [hn] at h; cases h
    · rw [hr] at h
      obtain rfl := Option.some.inj h
      have hh := search_region_head fuel env _ _ _ _ r hr
      cases r with
      | nil => cases hh
      | cons x xs =>
        obtain rfl := Option.some.inj hh
        exact ⟨_, rfl, Or.inr (Or.inl rfl)⟩
  · rw [hp] at h
    rcases Option.eq_none_or_eq_some (_picopeeker_send_hex_dump fuel env (strtoul ta 16)
      (min (toU32 (atoi tl)) (e - strtoul ta 16))) with hn | ⟨r, hr⟩
    · rw [hn] at h; cases h
    · rw [hr] at h
      obtain rfl := Option.some.inj h
      have hh := send_hex_dump_head fuel env _ _ r hr
      by_cases c : strtoul ta 16 + toU32 (atoi tl) > e
      · rw [if_pos c]
        exact ⟨_, rfl, Or.inr (Or.inr rfl)⟩
      · cases r with
        | nil => cases hh
        | cons x xs =>
          obtain rfl := Option.some.inj hh
          rw [if_neg c]
          exact ⟨_, rfl, Or.inr (Or.inl rfl)⟩

theorem landmarks_head (env : Target) :
    (_picopeeker_send_landmarks env).head? = some (P "LANDMARKS:\n") := rfl

theorem parse_invalid_no_token (fuel : Nat) (env : Target) (cmd : List Char)
    (hne : cmd ≠ "LANDMARKS".toList) (hs : strtok cmd ':' = none) :
    _picopeeker_parse_command fuel env cmd = some [P "ERROR: Invalid command\n"] := by
  unfold _picopeeker_parse_command
  rw [if_neg hne, hs]

theorem parse_invalid_keyword (fuel : Nat) (env : Target) (cmd tok rest : List Char)
    (hne : cmd ≠ "LANDMARKS".toList) (hs : strtok cmd ':' = some (tok, rest))
    (h1 : tok ≠ "READ".toList) (h2 : tok ≠ "SEARCH".toList)
    (h3 : tok ≠ "SEARCHFLASH".toList) :
    _picopeeker_parse_command fuel env cmd = some [P "ERROR: Invalid command\n"] := by
  unfold _picopeeker_parse_command
  rw [if_neg hne, hs]
  simp only [if_neg h2, if_neg h3, ne_eq, h1, not_false_eq_true, if_true]

/-- C17: keyword recognition is exact and case-sensitive. The landmark report is
produced exactly when the whole line is `LANDMARKS`; otherwise the first token
cut at `:` selects the branch, `READ`, `SEARCH` and `SEARCHFLASH` being the only
keywords; a line without a token, and a line whose first token is none of the
three, is answered with the single line `ERROR: Invalid command` and nothing
else, as are `read:0x20000000:16`, `READX:0:1`, `LANDMARKS:`, `landmarks`, `:`
and the empty line. -/
theorem keyword_recognition (fuel : Nat) (env : Target) (cmd : List Char) :
    (cmd = "LANDMARKS".toList →
      _picopeeker_parse_command fuel env cmd = some (_picopeeker_send_landmarks env)) ∧
    (cmd ≠ "LANDMARKS".toList → ∀ ev, _picopeeker_parse_command fuel env cmd = some ev →
      ev.head? ≠ some (P "LANDMARKS:\n") ∧ ev ≠ _picopeeker_send_landmarks env) ∧
    (cmd ≠ "LANDMARKS".toList → strtok cmd ':' = none →
      _picopeeker_parse_command fuel env cmd = some [P "ERROR: Invalid command\n"]) ∧
    (∀ tok rest, cmd ≠ "LANDMARKS".toList → strtok cmd ':' = some (tok, rest) →
      tok ≠ "READ".toList → tok ≠ "SEARCH".toList → tok ≠ "SEARCHFLASH".toList →
      _picopeeker_parse_command fuel env cmd = some [P "ERROR: Invalid command\n"]) ∧
    (∀ rest, strtok cmd ':' = some ("READ".toList, rest) →
      _picopeeker_parse_command fuel env cmd = readCommand fuel env rest) ∧
    (∀ rest, strtok cmd ':' = some ("SEARCH".toList, rest) →
      _picopeeker_parse_command fuel env cmd =
        match strtok rest ':' with
        | none =>
          some [P "ERROR: Missing search pattern\n", P "Usage: SEARCH:HEXPATTERN\n",
                P "Example: SEARCH:DEADBEEF\n"]
        | some (token, _) => searchCommand fuel env token false true) ∧
    (∀ rest, strtok cmd ':' = some ("SEARCHFLASH".toList, rest) →
      _picopeeker_parse_command fuel env cmd =
        match strtok rest ':' with
        | none =>
          some [P "ERROR: Missing search pattern\n", P "Usage: SEARCHFLASH:HEXPATTERN\n",
                P "Example: SEARCHFLASH:48656C6C6F (search for \x27Hello\x27)\n"]
        | some (token, _) => searchCommand fuel env token true false) ∧
    (∀ line ∈ ["read:0x20000000:16".toList, "READX:0:1".toList, "LANDMARKS:".toList,
        "landmarks".toList, "Read:0x20000000:16".toList, "search:2A".toList,
        " READ:0x20000000:16".toList, ":".toList, "".toList],
      _picopeeker_parse_command fuel env line = some [P "ERROR: Invalid command\n"]) := by
  refine ⟨?_, ?_, parse_invalid_no_token fuel env cmd,
    fun tok rest => parse_invalid_keyword fuel env cmd tok rest,
    fun rest h => parse_read fuel env h, fun rest h => parse_search fuel env h,
    fun rest h => parse_searchflash fuel env h, ?_⟩
  · intro h
    unfold _picopeeker_parse_command
    rw [if_pos h]
  · intro hne ev hev
    obtain ⟨s, hs, hc⟩ := parse_head fuel env cmd ev hne hev
    have hh : ev.head? ≠ some (P "LANDMARKS:\n") := by
      rw [hs]
      intro he
      have e : s = "LANDMARKS:\n".toList := Event.print.inj (Option.some.inj he)
      rw [e] at hc
      revert hc
      decide
    exact ⟨hh, fun he => hh (by rw [he]; rfl)⟩
  · intro line hl
    simp only [List.mem_cons, List.mem_nil_iff, or_false] at hl
    rcases hl with rfl | rfl | rfl | rfl | rfl | rfl | rfl | rfl | rfl
    · exact parse_invalid_keyword fuel env _ "read".toList "0x20000000:16".toList
        (by decide) (by decide) (by decide) (by decide) (by decide)
    · exact parse_invalid_keyword fuel env _ "READX".toList "0:1".toList
        (by decide) (by decide) (by decide) (by decide) (by decide)
    · exact parse_invalid_keyword fuel env _ "LANDMARKS".toList "".toList
        (by decide) (by decide) (by decide) (by decide) (by decide)
    · exact parse_invalid_keyword fuel env _ "landmarks".toList "".toList
        (by decide) (by decide) (by decide) (by decide) (by decide)
    · exact parse_invalid_keyword fuel env _ "Read".toList "0x20000000:16".toList
        (by decide) (by decide) (by decide) (by decide) (by decide)
    · exact parse_invalid_keyword fuel env _ "search".toList "2A".toList
        (by decide) (by decide) (by decide) (by decide) (by decide)
    · exact parse_invalid_keyword fuel env _ " READ".toList "0x20000000:16".toList
        (by decide) (by decide) (by decide) (by decide) (by decide)
    · exact parse_invalid_no_token fuel env _ (by decide) (by decide)
    · exact parse_invalid_no_token fuel env _ (by decide) (by decide)

/-! ## Lines beginning with a given character -/

theorem lineStartsWith_cons (a : Char) (b : Bool) (c : Char) (cs : List Char) :
    lineStartsWith [a] b (c :: cs) =
      ((b && a == c) || lineStartsWith [a] (c == '\n') cs) := by
  simp [lineStartsWith, List.isPrefixOf]

theorem endsLine_cons (b : Bool) (c : Char) (cs : List Char) :
    endsLine b (c :: cs) = endsLine (c == '\n') cs := by
  cases cs with
  | nil => rfl
  | cons d ds =>
    unfold endsLine
    rw [List.getLast?_cons_cons]
    rcases Option.eq_none_or_eq_some (d :: ds).getLast? with h | ⟨x, h⟩
    · exact absurd (List.getLast?_eq_none_iff.mp h) (List.cons_ne_nil _ _)
    · rw [h]

theorem endsLine_concat (b : Bool) (s : List Char) (c : Char) :
    endsLine b (s ++ [c]) = (c == '\n') := by
  simp [endsLine, List.getLast?_append]

theorem lineStartsWith_append (a : Char) :
    ∀ (s t : List Char) (b : Bool), lineStartsWith [a] b (s ++ t) =
      (lineStartsWith [a] b s || lineStartsWith [a] (endsLine b s) t) := by
  intro s
  induction s with
  | nil => intro t b; simp [lineStartsWith, endsLine]
  | cons c cs ih =>
    intro t b
    rw [List.cons_append, lineStartsWith_cons, lineStartsWith_cons, ih, endsLine_cons,
      Bool.or_assoc]

theorem lineStartsWith_absent (a : Char) :
    ∀ (s : List Char), (∀ c ∈ s, c ≠ a) → ∀ b, lineStartsWith [a] b s = false := by
  intro s
  induction s with
  | nil => intro _ b; rfl
  | cons c cs ih =>
    intro h b
    rw [lineStartsWith_cons, ih (fun x hx => h x (List.mem_cons_of_mem _ hx))]
    have hc : (a == c) = false := by
      simpa using fun e : a = c => h c (List.mem_cons_self _ _) e.symm
    rw [hc]
    simp

theorem lineStartsWith_midline (a : Char) :
    ∀ (s : List Char), (∀ c ∈ s, c ≠ '\n') → lineStartsWith [a] false s = false := by
  intro s
  induction s with
  | nil => intro _; rfl
  | cons c cs ih =>
    intro h
    have hc : (c == '\n') = false := by simpa using h c (List.mem_cons_self _ _)
    rw [lineStartsWith_cons, hc, ih (fun x hx => h x (List.mem_cons_of_mem _ hx))]
    rfl

theorem endsLine_midline : ∀ (s : List Char), (∀ c ∈ s, c ≠ '\n') → endsLine false s = false := by
  intro s
  induction s with
  | nil => intro _; rfl
  | cons c cs ih =>
    intro h
    have hc : (c == '\n') = false := by simpa using h c (List.mem_cons_self _ _)
    rw [endsLine_cons, hc, ih (fun x hx => h x (List.mem_cons_of_mem _ hx))]

theorem lineStartsWith_mono (a : Char) (p : List Char) :
    ∀ (s : List Char) (b : Bool), lineStartsWith (a :: p) b s = true →
      lineStartsWith [a] b s = true := by
  intro s
  induction s with
  | nil => intro b h; cases h
  | cons c cs ih =>
    intro b h
    rw [lineStartsWith_cons]
    simp only [lineStartsWith, List.isPrefixOf, Bool.or_eq_true, Bool.and_eq_true] at h
    rcases h with ⟨hb, ha, -⟩ | h
    · simp [hb, ha]
    · rw [ih _ h]; simp

theorem lineStartsWith_flatten (a : Char) :
    ∀ (rows : List (List Char)), (∀ r ∈ rows, ∀ b, lineStartsWith [a] b r = false) →
      ∀ b, lineStartsWith [a] b rows.flatten = false := by
  intro rows
  induction rows with
  | nil => intro _ b; rfl
  | cons r rs ih =>
    intro h b
    rw [List.flatten_cons, lineStartsWith_append, h r (List.mem_cons_self _ _),
      ih (fun x hx => h x (List.mem_cons_of_mem _ hx))]
    rfl

theorem absent_flatten (a : Char) (chunks : List (List Char))
    (h : ∀ s ∈ chunks, ∀ c ∈ s, c ≠ a) : ∀ c ∈ chunks.flatten, c ≠ a := by
  intro c hc
  obtain ⟨s, hs, hcs⟩ := List.mem_flatten.mp hc
  exact h s hs c hcs

theorem flatten_flatMap {α : Type} (l : List α) (f : α → List (List Char)) :
    (l.flatMap f).flatten = (l.map fun x => (f x).flatten).flatten := by
  induction l with
  | nil => rfl
  | cons x xs ih => simp [List.flatMap_cons, List.flatten_append, ih]

theorem stdout_append (xs ys : List Event) : stdout (xs ++ ys) = stdout xs ++ stdout ys := by
  unfold stdout
  rw [prints_append, List.flatten_append]

/-! ## Where a line beginning with `W` can come from -/

theorem absent_append {a : Char} {s t : List Char} (hs : ∀ c ∈ s, c ≠ a)
    (ht : ∀ c ∈ t, c ≠ a) : ∀ c ∈ s ++ t, c ≠ a := by
  intro c hc
  rcases List.mem_append.mp hc with h | h
  · exact hs c h
  · exact ht c h

theorem fmt_08x_absent (a : Char) (ha : isLowerHex a = false) (v : Nat) :
    ∀ c ∈ fmt_08x v, c ≠ a := fun c h => lowerHex_ne (fmt_08x_lowerHex v c h) ha

theorem fmt_02x_absent (a : Char) (ha : isLowerHex a = false) (v : Nat) :
    ∀ c ∈ fmt_02x v, c ≠ a := fun c h => lowerHex_ne (fmt_02x_lowerHex v c h) ha

theorem fmt_u_absent (a : Char) (ha : isLowerHex a = false) (v : Nat) :
    ∀ c ∈ fmt_u v, c ≠ a := fun c h => lowerHex_ne (fmt_u_lowerHex v c h) ha

theorem landmarks_no_W (env : Target) :
    ∀ c ∈ stdout (_picopeeker_send_landmarks env), c ≠ 'W' := by
  apply absent_flatten
  intro s hs
  have e : prints (_picopeeker_send_landmarks env) =
      ["LANDMARKS:\n".toList, "main=0x".toList ++ fmt_08x env.main_addr ++ "\n".toList,
        "END_LANDMARKS\n\n".toList] := rfl
  rw [e] at hs
  simp only [List.mem_cons, List.mem_nil_iff, or_false] at hs
  rcases hs with rfl | rfl | rfl
  · decide
  · exact absent_append (absent_append (by decide) (fmt_08x_absent _ (by decide) _))
      (by decide)
  · decide

theorem search_output_no_W (fuel : Nat) (env : Target) (flash : Bool) (pattern : List Nat)
    (hp1 : 1 ≤ pattern.length) (hp2 : pattern.length ≤ 64) (hf : 4194305 ≤ fuel) :
    ∃ ev, _picopeeker_search_region fuel env (scopeStart flash) (scopeEnd flash)
        (scopeName flash) pattern = some ev ∧
      ∀ c ∈ stdout (ev ++ [P "===END===\n"]), c ≠ 'W' := by
  obtain ⟨hs, he, hsz, hsz2⟩ := scope_bounds flash
  obtain ⟨ev, hev, hpr, -⟩ := search_region_closed fuel env (scopeStart flash)
    (scopeEnd flash) (scopeName flash) pattern hs he hp1 (by omega) (by omega)
  refine ⟨ev, hev, ?_⟩
  have hname : ∀ c ∈ scopeName flash, c ≠ 'W' := by cases flash <;> decide
  rw [stdout_append]
  refine absent_append ?_ (by decide)
  apply absent_flatten
  intro s hs
  rw [hpr, prints_searchHeader] at hs
  simp only [List.mem_append, List.mem_cons, List.mem_nil_iff, or_false, List.mem_map] at hs
  rcases hs with (((((rfl | rfl | rfl) | ⟨b, -, rfl⟩) | rfl) | ⟨o, -, rfl⟩) | hstop) | rfl
  · exact absent_append (absent_append (by decide) hname) (by decide)
  · exact absent_append (absent_append (absent_append (absent_append (absent_append
      (absent_append (by decide) (fmt_08x_absent _ (by decide) _)) (by decide))
      (fmt_08x_absent _ (by decide) _)) (by decide)) (fmt_u_absent _ (by decide) _))
      (by decide)
  · decide
  · exact absent_append (fmt_02x_absent _ (by decide) _) (by decide)
  · exact absent_append (absent_append (by decide) (fmt_u_absent _ (by decide) _))
      (by decide)
  · exact absent_append (absent_append (by decide) (fmt_08x_absent _ (by decide) _))
      (by decide)
  · split_ifs at hstop
    · simp only [List.mem_cons, List.mem_nil_iff, or_false] at hstop
      subst hstop
      decide
    · cases hstop
  · exact absent_append (absent_append (absent_append (absent_append (by decide) hname)
      (by decide)) (fmt_u_absent _ (by decide) _)) (by decide)

theorem asciiChar_ne_newline (c : Nat) : asciiChar c ≠ '\n' := by
  unfold asciiChar
  split_ifs with h
  · have hall : ∀ n, n < 127 → 32 ≤ n → Char.ofNat n ≠ '\n' := by decide
    exact hall c (by omega) h.1
  · decide

theorem row_no_line_W (env : Target) (address length i : Nat) :
    ∀ b, lineStartsWith ['W'] b (rowPrints env address length i).flatten = false := by
  intro b
  have hcells : ∀ c ∈ (rowCells env address length i).flatten, c ≠ 'W' := by
    apply absent_flatten
    intro s hs
    unfold rowCells at hs
    obtain ⟨j, -, rfl⟩ := List.mem_map.mp hs
    split_ifs
    · exact absent_append (fmt_02x_absent _ (by decide) _) (by decide)
    · decide
  have hascii : ∀ c ∈ (rowAscii env address length i).flatten, c ≠ '\n' := by
    apply absent_flatten
    intro s hs
    unfold rowAscii at hs
    obtain ⟨j, -, rfl⟩ := List.mem_map.mp hs
    intro c hc
    rw [List.mem_singleton.mp hc]
    exact asciiChar_ne_newline _
  have e : (rowPrints env address length i).flatten =
      ((fmt_08x (address + i) ++ [':', ' '] ++ (rowCells env address length i).flatten) ++
        [' ']) ++ ((rowAscii env address length i).flatten ++ ['\n']) := by
    unfold rowPrints
    simp only [List.flatten_append, List.flatten_cons, List.flatten_nil, List.append_nil,
      List.append_assoc]
    rfl
  have h1 : lineStartsWith ['W'] b ((fmt_08x (address + i) ++ [':', ' '] ++
      (rowCells env address length i).flatten) ++ [' ']) = false :=
    lineStartsWith_absent 'W' _ (absent_append (absent_append (absent_append
      (fmt_08x_absent _ (by decide) _) (by decide)) hcells) (by decide)) b
  have h2 : lineStartsWith ['W'] false ((rowAscii env address length i).flatten ++ ['\n']) =
      false := by
    rw [lineStartsWith_append, lineStartsWith_midline _ _ hascii, endsLine_midline _ hascii]
    rfl
  have h3 : (' ' == '\n') = false := by decide
  rw [e, lineStartsWith_append, endsLine_concat, h1, h3, h2]
  rfl

theorem hex_dump_no_line_W (fuel : Nat) (env : Target) (address length : Nat)
    (hl : length ≤ 4096) (hf : 257 ≤ fuel) :
    ∃ dump, _picopeeker_send_hex_dump fuel env address length = some dump ∧
      ∀ b, lineStartsWith ['W'] b (stdout dump) = false := by
  obtain ⟨dump, hd, hpr⟩ := prints_send_hex_dump fuel env address length (by omega) (by omega)
  refine ⟨dump, hd, ?_⟩
  intro b
  have hhead : ∀ c ∈ (prints (hexHeader address length)).flatten, c ≠ 'W' := by
    apply absent_flatten
    intro s hs
    have e : prints (hexHeader address length) =
        ["=== HEX DUMP ===\n".toList,
          "Address: 0x".toList ++ fmt_08x address ++ ", Length: ".toList ++ fmt_u length ++
            " bytes\n\n".toList,
          "Address:  00 01 02 03 04 05 06 07 08 09 0A 0B 0C 0D 0E 0F  ASCII\n".toList,
          "--------  -----------------------------------------------  ----------------\n".toList]
        := rfl
    rw [e] at hs
    simp only [List.mem_cons, List.mem_nil_iff, or_false] at hs
    rcases hs with rfl | rfl | rfl | rfl
    · decide
    · exact absent_append (absent_append (absent_append (absent_append (by decide)
        (fmt_08x_absent _ (by decide) _)) (by decide)) (fmt_u_absent _ (by decide) _))
        (by decide)
    · decide
    · decide
  unfold stdout
  rw [hpr, List.flatten_append, List.flatten_append, flatten_flatMap, lineStartsWith_append,
    lineStartsWith_append, lineStartsWith_absent 'W' _ hhead,
    lineStartsWith_flatten 'W' _ (by
      intro r hr
      obtain ⟨i, -, rfl⟩ := List.mem_map.mp hr
      exact row_no_line_W env address length i),
    lineStartsWith_absent 'W' _ (by decide)]
  rfl

/-! ## Rejected lines -/

set_option maxRecDepth 100000 in
theorem errorResponses_lines : ∀ ev ∈ errorResponses,
    loads ev = [] ∧ "ERROR:".toList.isPrefixOf (stdout ev) = true ∧
    lineStartsWith "=== HEX DUMP".toList true (stdout ev) = false ∧
    lineStartsWith "=== SEARCHING".toList true (stdout ev) = false ∧
    lineStartsWith "FOUND:".toList true (stdout ev) = false ∧
    lineStartsWith "===END===".toList true (stdout ev) = false ∧
    lineStartsWith "WARNING:".toList true (stdout ev) = false := by
  decide

theorem parse_accepted_search (fuel : Nat) (env : Target) (flash : Bool)
    {cmd rest tok r2 : List Char} {k : Nat}
    (hs : strtok cmd ':' = some (searchKeyword flash, rest))
    (ht : strtok rest ':' = some (tok, r2)) (hk : tok.length = 2 * k) (h1 : 1 ≤ k)
    (h2 : k ≤ 64) :
    _picopeeker_parse_command fuel env cmd =
      (_picopeeker_search_region fuel env (scopeStart flash) (scopeEnd flash)
          (scopeName flash) (decodePattern tok k)).map
        (fun ev => ev ++ [P "===END===\n"]) := by
  rw [parse_search_token fuel env flash hs ht, searchCommand_accepts fuel env flash tok k hk h1 h2]

theorem parse_accepted_read (fuel : Nat) (env : Target) {cmd rest ta r2 tl r3 : List Char}
    {e : Nat} (hs : strtok cmd ':' = some ("READ".toList, rest))
    (hta : strtok rest ':' = some (ta, r2)) (htl : strtok r2 ':' = some (tl, r3))
    (h1 : 1 ≤ toU32 (atoi tl)) (h2 : toU32 (atoi tl) ≤ 4096)
    (hb : boundsFor (strtoul ta 16) = some e) :
    _picopeeker_parse_command fuel env cmd =
      (_picopeeker_send_hex_dump fuel env (strtoul ta 16)
          (min (toU32 (atoi tl)) (e - strtoul ta 16))).map
        (fun dump =>
          (if strtoul ta 16 + toU32 (atoi tl) > e then
            [clampWarning (toU32 (atoi tl)) (e - strtoul ta 16)] else []) ++ dump) := by
  rw [parse_read fuel env hs, readCommand_in_region fuel env hta htl h1 h2 hb]

theorem search_map_head (fuel : Nat) (env : Target) (start_addr end_addr : Nat)
    (region_name : List Char) (pattern : List Nat) (ev : List Event)
    (h : (_picopeeker_search_region fuel env start_addr end_addr region_name pattern).map
      (fun ev => ev ++ [P "===END===\n"]) = some ev) :
    ∃ s, ev.head? = some (Event.print s) ∧ s.head? = some '=' := by
  rcases Option.eq_none_or_eq_some (_picopeeker_search_region fuel env start_addr end_addr
    region_name pattern) with hn | ⟨r, hr⟩
  · rw [hn] at h; cases h
  · rw [hr] at h
    obtain rfl := Option.some.inj h
    have hh := search_region_head fuel env _ _ _ _ r hr
    cases r with
    | nil => cases hh
    | cons x xs =>
      obtain rfl := Option.some.inj hh
      exact ⟨_, rfl, rfl⟩

theorem dump_map_head (fuel : Nat) (env : Target) (address length : Nat) (w : List Event)
    (hw : w = [] ∨ ∃ s, w = [Event.print s] ∧ s.head? = some 'W') (ev : List Event)
    (h : (_picopeeker_send_hex_dump fuel env address length).map (fun dump => w ++ dump) =
      some ev) :
    ∃ s, ev.head? = some (Event.print s) ∧ (s.head? = some '=' ∨ s.head? = some 'W') := by
  rcases Option.eq_none_or_eq_some (_picopeeker_send_hex_dump fuel env address length)
    with hn | ⟨r, hr⟩
  · rw [hn] at h; cases h
  · rw [hr] at h
    obtain rfl := Option.some.inj h
    have hh := send_hex_dump_head fuel env _ _ r hr
    rcases hw with rfl | ⟨s, rfl, hs⟩
    · cases r with
      | nil => cases hh
      | cons x xs =>
        obtain rfl := Option.some.inj hh
        exact ⟨_, rfl, Or.inl rfl⟩
    · exact ⟨s, rfl, Or.inr hs⟩

theorem clamp_choice (c : Prop) [Decidable c] (l m : Nat) :
    (if c then [clampWarning l m] else []) = [] ∨
      ∃ s, (if c then [clampWarning l m] else []) = [Event.print s] ∧ s.head? = some 'W' := by
  by_cases h : c
  · rw [if_pos h]; exact Or.inr ⟨_, rfl, rfl⟩
  · rw [if_neg h]; exact Or.inl rfl

theorem accepted_not_error (fuel : Nat) (env : Target) (cmd : List Char)
    (h : cmd = "LANDMARKS".toList ∨ AcceptedSearch cmd ∨ AcceptedRead cmd) (ev : List Event)
    (hev : _picopeeker_parse_command fuel env cmd = some ev) : ev ∉ errorResponses := by
  have key : ∃ s, ev.head? = some (Event.print s) ∧
      (s.head? = some 'L' ∨ s.head? = some '=' ∨ s.head? = some 'W') := by
    rcases h with rfl | ⟨flash, rest, tok, r2, k, hs, ht, hk, h1, h2⟩ |
      ⟨rest, ta, r2, tl, r3, e, hs, hta, htl, h1, h2, hb⟩
    · have e : _picopeeker_parse_command fuel env "LANDMARKS".toList =
          some (_picopeeker_send_landmarks env) := by
        unfold _picopeeker_parse_command; rw [if_pos rfl]
      obtain rfl := Option.some.inj (e.symm.trans hev)
      exact ⟨_, rfl, Or.inl rfl⟩
    · rw [parse_accepted_search fuel env flash hs ht hk h1 h2] at hev
      obtain ⟨s, h1, h2⟩ := search_map_head fuel env _ _ _ _ ev hev
      exact ⟨s, h1, Or.inr (Or.inl h2)⟩
    · rw [parse_accepted_read fuel env hs hta htl h1 h2 hb] at hev
      obtain ⟨s, h1, h2⟩ := dump_map_head fuel env _ _ _ (clamp_choice _ _ _) ev hev
      exact ⟨s, h1, Or.inr h2⟩
  intro hmem
  obtain ⟨s, hs, hc⟩ := key
  obtain ⟨-, -, ⟨s2, hs2, hc2⟩, -⟩ := errorResponses_facts ev hmem
  have e : s = s2 := Event.print.inj (Option.some.inj (hs.symm.trans hs2))
  rw [e, hc2] at hc
  revert hc
  decide

theorem rejected_line (fuel : Nat) (env : Target) (cmd : List Char)
    (hne : cmd ≠ "LANDMARKS".toList) (h1 : ¬ AcceptedSearch cmd) (h2 : ¬ AcceptedRead cmd) :
    ∃ ev, ev ∈ errorResponses ∧ _picopeeker_parse_command fuel env cmd = some ev := by
  rcases parse_classify fuel env cmd with ⟨hl, -⟩ | ⟨-, h⟩ |
    ⟨-, flash, rest, tok, r2, k, a1, a2, a3, a4, a5, -⟩ |
    ⟨-, rest, ta, r2, tl, r3, e, a1, a2, a3, a4, a5, a6, -⟩
  · exact absurd hl hne
  · exact h
  · exact absurd ⟨flash, rest, tok, r2, k, a1, a2, a3, a4, a5⟩ h1
  · exact absurd ⟨rest, ta, r2, tl, r3, e, a1, a2, a3, a4, a5, a6⟩ h2

theorem isPrefixOf_append_right (p s t : List Char) (h : p.isPrefixOf s = true) :
    p.isPrefixOf (s ++ t) = true :=
  List.isPrefixOf_iff_prefix.mpr ((List.isPrefixOf_iff_prefix.mp h).trans
    (List.prefix_append s t))

theorem warning_line_origin (fuel : Nat) (env : Target) (cmd : List Char)
    (hf : 4194305 ≤ fuel) (ev : List Event)
    (hev : _picopeeker_parse_command fuel env cmd = some ev)
    (hw : lineStartsWith "WARNING:".toList true (stdout ev) = true) :
    ∃ rest ta r2 tl r3 e dump, strtok cmd ':' = some ("READ".toList, rest) ∧
      strtok rest ':' = some (ta, r2) ∧ strtok r2 ':' = some (tl, r3) ∧
      1 ≤ toU32 (atoi tl) ∧ toU32 (atoi tl) ≤ 4096 ∧
      boundsFor (strtoul ta 16) = some e ∧ strtoul ta 16 + toU32 (atoi tl) > e ∧
      _picopeeker_send_hex_dump fuel env (strtoul ta 16) (e - strtoul ta 16) = some dump ∧
      ev = clampWarning (toU32 (atoi tl)) (e - strtoul ta 16) :: dump ∧
      "WARNING:".toList.isPrefixOf (stdout ev) = true ∧
      lineStartsWith "WARNING:".toList true (stdout dump) = false := by
  have hW := lineStartsWith_mono 'W' "ARNING:".toList _ _ hw
  have none_of : ∀ {t : List Char}, lineStartsWith ['W'] true t = false →
      lineStartsWith "WARNING:".toList true t = false := by
    intro t ht
    rcases Bool.eq_false_or_eq_true (lineStartsWith "WARNING:".toList true t) with h | h
    · rw [lineStartsWith_mono 'W' "ARNING:".toList _ _ h] at ht; cases ht
    · exact h
  rcases parse_classify fuel env cmd with ⟨-, hp⟩ | ⟨-, ev2, he, hp⟩ |
    ⟨-, flash, rest, tok, r2, k, hs, ht, hk, h1, h2, hp⟩ |
    ⟨-, rest, ta, r2, tl, r3, e, hs, hta, htl, h1, h2, hb, hp⟩
  · obtain rfl := Option.some.inj (hp.symm.trans hev)
    rw [lineStartsWith_absent 'W' _ (landmarks_no_W env)] at hW
    cases hW
  · obtain rfl := Option.some.inj (hp.symm.trans hev)
    rw [(errorResponses_lines _ he).2.2.2.2.2.2] at hw
    cases hw
  · obtain ⟨ev0, h0, hno⟩ := search_output_no_W fuel env flash (decodePattern tok k)
      (by rw [length_decodePattern]; exact h1) (by rw [length_decodePattern]; exact h2) hf
    rw [hp, h0] at hev
    obtain rfl := Option.some.inj hev
    rw [lineStartsWith_absent 'W' _ hno] at hW
    cases hW
  · obtain ⟨dump, hd, hno⟩ := hex_dump_no_line_W fuel env (strtoul ta 16)
      (min (toU32 (atoi tl)) (e - strtoul ta 16)) (by omega) (by omega)
    rw [hp, hd] at hev
    by_cases c : strtoul ta 16 + toU32 (atoi tl) > e
    · rw [if_pos c] at hev
      obtain rfl := Option.some.inj hev
      have hm : min (toU32 (atoi tl)) (e - strtoul ta 16) = e - strtoul ta 16 := by omega
      rw [hm] at hd
      refine ⟨rest, ta, r2, tl, r3, e, dump, hs, hta, htl, h1, h2, hb, c, hd, rfl, ?_,
        none_of (hno true)⟩
      exact isPrefixOf_append_right _ _ _
        (isPrefixOf_append_right _ "WARNING: Length clamped from ".toList _ (by decide))
    · rw [if_neg c] at hev
      obtain rfl := Option.some.inj hev
      have hx : lineStartsWith ['W'] true (stdout dump) = true := hW
      rw [hno true] at hx
      cases hx

/-- C18: a rejected line never reaches execution. A line other than `LANDMARKS`
that is neither an accepted search nor an accepted READ is answered, whatever the
fuel, with one of the rejection responses, and only such lines are; every
rejection response starts with `ERROR:`, holds no line of a hex dump or of a
search report, and reads no memory; the input loop then goes on with an empty
buffer; with enough fuel the parser returns on every line; and a line beginning
with `WARNING:` occurs only for a clamped READ, as the first line, followed by
the dump. -/
theorem rejected_never_executes (fuel : Nat) (env : Target) (cmd : List Char) :
    (cmd ≠ "LANDMARKS".toList → ¬ AcceptedSearch cmd → ¬ AcceptedRead cmd →
      ∃ ev, ev ∈ errorResponses ∧ _picopeeker_parse_command fuel env cmd = some ev) ∧
    (cmd = "LANDMARKS".toList ∨ AcceptedSearch cmd ∨ AcceptedRead cmd →
      ∀ ev, _picopeeker_parse_command fuel env cmd = some ev → ev ∉ errorResponses) ∧
    (∀ ev ∈ errorResponses,
      loads ev = [] ∧ "ERROR:".toList.isPrefixOf (stdout ev) = true ∧
      lineStartsWith "=== HEX DUMP".toList true (stdout ev) = false ∧
      lineStartsWith "=== SEARCHING".toList true (stdout ev) = false ∧
      lineStartsWith "FOUND:".toList true (stdout ev) = false ∧
      lineStartsWith "===END===".toList true (stdout ev) = false ∧
      lineStartsWith "WARNING:".toList true (stdout ev) = false) ∧
    (∀ (s : PeekerState) (t : Char), (t = '\n' ∨ t = '\r') → 0 < s.cmd_index →
      cmd = cstr (s.cmd_buffer.set s.cmd_index (Char.ofNat 0)) →
      cmd ≠ "LANDMARKS".toList → ¬ AcceptedSearch cmd → ¬ AcceptedRead cmd →
      ∃ ev, ev ∈ errorResponses ∧
        core1_iteration fuel env s (some t) =
          some (⟨s.initialized, s.cmd_buffer.set s.cmd_index (Char.ofNat 0), 0⟩, ev)) ∧
    (4194305 ≤ fuel → ∃ ev, _picopeeker_parse_command fuel env cmd = some ev) ∧
    (4194305 ≤ fuel → ∀ ev, _picopeeker_parse_command fuel env cmd = some ev →
      lineStartsWith "WARNING:".toList true (stdout ev) = true →
      ∃ rest ta r2 tl r3 e dump, strtok cmd ':' = some ("READ".toList, rest) ∧
        strtok rest ':' = some (ta, r2) ∧ strtok r2 ':' = some (tl, r3) ∧
        1 ≤ toU32 (atoi tl) ∧ toU32 (atoi tl) ≤ 4096 ∧
        boundsFor (strtoul ta 16) = some e ∧ strtoul ta 16 + toU32 (atoi tl) > e ∧
        _picopeeker_send_hex_dump fuel env (strtoul ta 16) (e - strtoul ta 16) = some dump ∧
        ev = clampWarning (toU32 (atoi tl)) (e - strtoul ta 16) :: dump ∧
        "WARNING:".toList.isPrefixOf (stdout ev) = true ∧
        lineStartsWith "WARNING:".toList true (stdout dump) = false) ∧
    (∀ p ∈ [("FOO".toList, [P "ERROR: Invalid command\n"]),
        ("READ".toList, [P "ERROR: Missing address\n"]),
        ("READ:0x20000000".toList, [P "ERROR: Missing length\n"]),
        ("READ:0x20000000:0".toList, [lengthError]),
        ("READ:0x20000000:4097".toList, [lengthError]),
        ("READ:0x30000000:16".toList, addressError),
        ("SEARCH:ABC".toList, [P "ERROR: Hex pattern must have even number of digits\n"]),
        ("SEARCHFLASH:".toList,
          [P "ERROR: Missing search pattern\n", P "Usage: SEARCHFLASH:HEXPATTERN\n",
           P "Example: SEARCHFLASH:48656C6C6F (search for \x27Hello\x27)\n"])],
      _picopeeker_parse_command fuel env p.1 = some p.2 ∧ p.2 ∈ errorResponses) := by
  refine ⟨rejected_line fuel env cmd, accepted_not_error fuel env cmd, errorResponses_lines,
    ?_, fun hf => ?_, fun hf ev => warning_line_origin fuel env cmd hf ev, ?_⟩
  · intro s t ht hi hc hne h1 h2
    obtain ⟨ev, he, hp⟩ := rejected_line fuel env cmd hne h1 h2
    refine ⟨ev, he, ?_⟩
    unfold core1_iteration
    rw [lineStep_terminator s t ht hi]
    simp only
    rw [← hc, hp]
    rfl
  · obtain ⟨ev, hev, -⟩ := parse_total_loads fuel env cmd hf
    exact ⟨ev, hev⟩
  · intro p hp
    simp only [List.mem_cons, List.mem_nil_iff, or_false] at hp
    rcases hp with rfl | rfl | rfl | rfl | rfl | rfl | rfl | rfl
    all_goals exact ⟨rfl, by decide⟩

/-! ## READ fields without digits -/

theorem skipHexMark_first (base : Nat) (c : Char) (cs : List Char) (h : c ≠ '0') :
    skipHexMark base (c :: cs) = c :: cs := by
  cases cs with
  | nil => rfl
  | cons x r =>
    have n : ¬ (base = 16 ∧ c = '0' ∧ (x = 'x' ∨ x = 'X')) := fun hh => h hh.2.1
    simp only [skipHexMark, if_neg n]

theorem skipHexMark_decimal (s : List Char) : skipHexMark 10 s = s := by
  unfold skipHexMark
  split
  · rw [if_neg (by omega)]
  · rfl

theorem scanSign_plain (c : Char) (cs : List Char) (hsp : isspace c = false) (hm : c ≠ '-')
    (hp : c ≠ '+') : scanSign ((c :: cs).dropWhile isspace) = (false, c :: cs) := by
  rw [List.dropWhile_cons_of_neg (by simp [hsp])]
  simp only [scanSign, if_neg hm, if_neg hp]

theorem strtoul_no_digits (c : Char) (cs : List Char) (h : hexValue c = none)
    (hsp : isspace c = false) (hm : c ≠ '-') (hp : c ≠ '+') : strtoul (c :: cs) 16 = 0 := by
  obtain ⟨hd, h48⟩ := hexValue_none h
  have h0 : c ≠ '0' := char_ne_of_toNat_ne h48
  unfold strtoul scanNumber
  simp only [scanSign_plain c cs hsp hm hp, skipHexMark_first 16 c cs h0,
    accumDigits_stop _ _ hd]
  rfl

theorem accumDigits_stop_decimal {c : Char} (cs : List Char) (acc : Nat)
    (h : ¬ (48 ≤ c.toNat ∧ c.toNat ≤ 57)) : accumDigits 10 (c :: cs) acc = acc := by
  unfold accumDigits
  cases hd : digitVal c with
  | none => rfl
  | some d =>
    have hge : 10 ≤ d := by
      unfold digitVal at hd
      split_ifs at hd <;> simp only [Option.some.injEq] at hd <;> omega
    simp only
    rw [if_neg (by omega)]

theorem atoi_no_digits (c : Char) (cs : List Char) (h : ¬ (48 ≤ c.toNat ∧ c.toNat ≤ 57))
    (hsp : isspace c = false) (hm : c ≠ '-') (hp : c ≠ '+') : atoi (c :: cs) = 0 := by
  unfold atoi strtol scanNumber
  simp only [scanSign_plain c cs hsp hm hp, skipHexMark_decimal,
    accumDigits_stop_decimal cs 0 h]
  rfl

theorem standalone_dump_loads (fuel : Nat) (env : Target) (address length : Nat)
    (dump : List Event) (h : MemoryExplorer.send_hex_dump fuel env address length = some dump) :
    ∃ dump2, _picopeeker_send_hex_dump fuel env address length = some dump2 ∧
      loads dump = loads dump2 ∧ dump.head? = dump2.head? := by
  unfold MemoryExplorer.send_hex_dump at h
  unfold _picopeeker_send_hex_dump
  rcases Option.eq_none_or_eq_some (hexLoop env address length fuel 0) with hn | ⟨r, hr⟩
  · rw [hn] at h; cases h
  · rw [hr] at h ⊢
    obtain rfl := Option.some.inj h
    exact ⟨_, rfl, by simp [loads, loads_append, hexHeader, P], rfl⟩

/-! ## Termination of the loops -/

theorem hexLoop_none (env : Target) (address length : Nat) (hl : length ≤ 4294967280) :
    ∀ fuel i, fuel ≤ (length - i + 15) / 16 → hexLoop env address length fuel i = none := by
  intro fuel
  induction fuel with
  | zero => intro i _; rfl
  | succ fuel ih =>
    intro i h
    have hi : i < length := by
      by_contra hc
      have : (length - i + 15) / 16 = 0 := by omega
      omega
    have hw : wrap32 (i + 16) = i + 16 := wrap32_of_lt (by omega)
    unfold hexLoop
    rw [if_pos hi, hw, ih (i + 16) (by omega)]
    rfl

theorem hexLoop_isSome (env : Target) (address length : Nat) (hl : length ≤ 4294967280)
    (fuel : Nat) :
    (hexLoop env address length fuel 0).isSome = true ↔ (length + 15) / 16 < fuel := by
  constructor
  · intro h
    by_contra hc
    rw [hexLoop_none env address length hl fuel 0 (by simpa using Nat.le_of_not_lt hc)] at h
    cases h
  · intro h
    rw [hexLoop_eq env address length hl fuel 0 (by simpa using h)]
    rfl

theorem rowOffsets_length (length : Nat) : (rowOffsets length 0).length = (length + 15) / 16 := by
  simp [rowOffsets]

theorem searchLoop_result_le (env : Target) (start_addr bound : Nat) (pattern : List Nat)
    (fuel : Nat) (r : List Event × Nat)
    (h : searchLoop env start_addr bound pattern fuel 0 0 = some r) :
    (foundLines r.1).length = r.2 ∧ r.2 ≤ 100 := by
  have := searchLoop_found_count env start_addr bound pattern fuel 0 0 r h (by omega)
  omega

/-- C21: every operation dispatched by the parser terminates, where the fuel of a
loop bounds the number of times its condition is evaluated. For every length in
`1..4096` the row loop of the hex dump returns exactly when the fuel exceeds
`ceil(length/16)`: it runs that many rows, its counter never wrapping. On a region
with `region_size >= pattern_len >= 1` the bound `total_size - pattern_len` does
not wrap, the offset counter does not wrap up to the bound, and the scan loop
returns as soon as the fuel exceeds `region_size - pattern_len + 1`, having gone
through the offsets `0 .. region_size - pattern_len` at most and counted and
printed at most 100 hits, whatever the memory holds. With fuel for the largest
region the parser returns on every line. -/
theorem operations_terminate (fuel : Nat) (env : Target) :
    (∀ address length, 1 ≤ length → length ≤ 4096 →
      ((hexLoop env address length fuel 0).isSome = true ↔ (length + 15) / 16 < fuel) ∧
      (rowOffsets length 0).length = (length + 15) / 16 ∧
      (length + 15) / 16 ≤ 256 ∧
      (∀ i ∈ rowOffsets length 0, i < length ∧ wrap32 (i + 16) = i + 16) ∧
      ((length + 15) / 16 < fuel →
        hexLoop env address length fuel 0 =
          some ((rowOffsets length 0).flatMap (hexRow env address length)) ∧
        (_picopeeker_send_hex_dump fuel env address length).isSome = true)) ∧
    (∀ start_addr end_addr region_name pattern, start_addr ≤ end_addr →
      end_addr < 4294967296 → 1 ≤ pattern.length → pattern.length ≤ end_addr - start_addr →
      sub32 (sub32 end_addr start_addr) pattern.length =
        end_addr - start_addr - pattern.length ∧
      (∀ offset, offset ≤ end_addr - start_addr - pattern.length →
        wrap32 (offset + 1) = offset + 1) ∧
      (end_addr - start_addr - pattern.length + 1 < fuel →
        ∃ r ev,
          searchLoop env start_addr (sub32 (sub32 end_addr start_addr) pattern.length)
            pattern fuel 0 0 = some r ∧
          r = scanOffsets env start_addr pattern
            (List.range (end_addr - start_addr - pattern.length + 1)) 0 ∧
          (foundLines r.1).length = r.2 ∧ r.2 ≤ 100 ∧
          _picopeeker_search_region fuel env start_addr end_addr region_name pattern =
            some ev ∧
          (foundLines ev).length ≤ 100)) ∧
    (4194305 ≤ fuel → ∀ cmd, ∃ ev, _picopeeker_parse_command fuel env cmd = some ev) := by
  refine ⟨?_, ?_, ?_⟩
  · intro address length h1 h2
    refine ⟨hexLoop_isSome env address length (by omega) fuel, rowOffsets_length length,
      by omega, ?_, ?_⟩
    · intro i hi
      unfold rowOffsets at hi
      obtain ⟨k, hk, rfl⟩ := List.mem_range'.mp hi
      have hlt : 0 + 16 * k < length := by omega
      exact ⟨hlt, wrap32_of_lt (by omega)⟩
    · intro hf
      refine ⟨hexLoop_eq env address length (by omega) fuel 0 (by simpa using hf), ?_⟩
      rw [send_hex_dump_eq fuel env address length (by omega) hf]
      rfl
  · intro start_addr end_addr region_name pattern hs he hp1 hp2
    have e1 : sub32 end_addr start_addr = end_addr - start_addr := sub32_of_le hs he
    have e2 : sub32 (end_addr - start_addr) pattern.length =
        end_addr - start_addr - pattern.length := sub32_of_le hp2 (by omega)
    refine ⟨by rw [e1, e2], fun offset ho => wrap32_of_lt (by omega), ?_⟩
    intro hf
    have hloop := searchLoop_eq_scan env start_addr (end_addr - start_addr - pattern.length)
      pattern (by omega) fuel 0 0 (by omega)
    rw [Nat.sub_zero, ← List.range_eq_range'] at hloop
    have hev := search_region_eq fuel env start_addr end_addr region_name pattern hs he
      hp1 hp2 hf
    rw [e1, e2]
    refine ⟨_, _, hloop, rfl, ?_, ?_, hev,
      search_region_found_le fuel env start_addr end_addr region_name pattern _ hev⟩
    · exact (searchLoop_result_le env start_addr _ pattern fuel _ hloop).1
    · exact (searchLoop_result_le env start_addr _ pattern fuel _ hloop).2
  · intro hf cmd
    obtain ⟨ev, hev, -⟩ := parse_total_loads fuel env cmd hf
    exact ⟨ev, hev⟩

/-! ## `strtok` and empty fields -/

theorem collapseColons_cons_ne (c : Char) (cs : List Char) (h : c ≠ ':') :
    collapseColons (c :: cs) = c :: collapseColons cs := by
  cases cs with
  | nil => rfl
  | cons d ds =>
    have n : ¬ (c = ':' ∧ d = ':') := fun hh => h hh.1
    conv_lhs => unfold collapseColons
    rw [if_neg n]

theorem collapseColons_colon (cs : List Char) :
    collapseColons (':' :: cs) = ':' :: collapseColons (cs.dropWhile (fun c => c == ':')) := by
  induction cs with
  | nil => rfl
  | cons d ds ih =>
    by_cases hd : d = ':'
    · subst hd
      have e : collapseColons (':' :: ':' :: ds) = collapseColons (':' :: ds) := by
        conv_lhs => unfold collapseColons
        rw [if_pos ⟨rfl, rfl⟩]
      rw [e, ih, List.dropWhile_cons_of_pos (by simp)]
    · have n : ¬ (':' = ':' ∧ d = ':') := fun hh => hd hh.2
      have e : collapseColons (':' :: d :: ds) = ':' :: collapseColons (d :: ds) := by
        conv_lhs => unfold collapseColons
        rw [if_neg n]
      rw [e, List.dropWhile_cons_of_neg (by simpa using hd)]

theorem takeWhile_collapseColons (s : List Char) :
    (collapseColons s).takeWhile (fun c => c != ':') = s.takeWhile (fun c => c != ':') := by
  induction s with
  | nil => rfl
  | cons c cs ih =>
    by_cases hc : c = ':'
    · subst hc
      rw [collapseColons_colon]
      rfl
    · rw [collapseColons_cons_ne c cs hc, List.takeWhile_cons_of_pos (by simpa using hc),
        List.takeWhile_cons_of_pos (by simpa using hc), ih]

theorem dropWhile_collapseColons (s : List Char) :
    (collapseColons s).dropWhile (fun c => c != ':') =
      collapseColons (s.dropWhile (fun c => c != ':')) := by
  induction s with
  | nil => rfl
  | cons c cs ih =>
    by_cases hc : c = ':'
    · subst hc
      rw [List.dropWhile_cons_of_neg (by simp), collapseColons_colon,
        List.dropWhile_cons_of_neg (by simp)]
    · rw [collapseColons_cons_ne c cs hc, List.dropWhile_cons_of_pos (by simpa using hc),
        List.dropWhile_cons_of_pos (by simpa using hc), ih]

theorem dropWhile_colon_cases (s : List Char) :
    s.dropWhile (fun c => c == ':') = [] ∨
      ∃ c r, s.dropWhile (fun c => c == ':') = c :: r ∧ c ≠ ':' := by
  induction s with
  | nil => exact Or.inl rfl
  | cons c cs ih =>
    by_cases hc : c = ':'
    · rw [List.dropWhile_cons_of_pos (by simpa using hc)]
      exact ih
    · rw [List.dropWhile_cons_of_neg (by simpa using hc)]
      exact Or.inr ⟨c, cs, rfl, hc⟩

theorem dropWhile_field_cases (s : List Char) :
    s.dropWhile (fun c => c != ':') = [] ∨
      ∃ r, s.dropWhile (fun c => c != ':') = ':' :: r := by
  induction s with
  | nil => exact Or.inl rfl
  | cons c cs ih =>
    by_cases hc : c = ':'
    · subst hc
      rw [List.dropWhile_cons_of_neg (by simp)]
      exact Or.inr ⟨cs, rfl⟩
    · rw [List.dropWhile_cons_of_pos (by simpa using hc)]
      exact ih

theorem strtok_normalizeLine (s : List Char) :
    strtok (normalizeLine s) ':' =
      (strtok s ':').map (fun p => (p.1, normalizeLine p.2)) := by
  unfold normalizeLine
  rcases dropWhile_colon_cases s with h | ⟨c, r, h, hc⟩
  · have e : strtok s ':' = none := by unfold strtok; rw [h]
    rw [h, e]
    rfl
  · have e : strtok s ':' = some ((c :: r).takeWhile (fun c => c != ':'),
        ((c :: r).dropWhile (fun c => c != ':')).drop 1) := by
      unfold strtok; rw [h]
    have e2 : strtok (collapseColons (c :: r)) ':' =
        some ((collapseColons (c :: r)).takeWhile (fun c => c != ':'),
          ((collapseColons (c :: r)).dropWhile (fun c => c != ':')).drop 1) := by
      rw [collapseColons_cons_ne c r hc]
      unfold strtok
      rw [List.dropWhile_cons_of_neg (by simpa using hc)]
    rw [h, e, e2, takeWhile_collapseColons, dropWhile_collapseColons]
    simp only [Option.map_some']
    rcases dropWhile_field_cases (c :: r) with h2 | ⟨r2, h2⟩
    · rw [h2]
      rfl
    · rw [h2, collapseColons_colon]
      rfl

theorem strtok_token (s tok rest : List Char) (h : strtok s ':' = some (tok, rest)) :
    tok ≠ [] ∧ 1 ≤ tok.length ∧ (∀ c ∈ tok, c ≠ ':') ∧ tok.length + rest.length ≤ s.length := by
  rcases dropWhile_colon_cases s with h0 | ⟨c, r, h0, hc⟩
  · unfold strtok at h; rw [h0] at h; cases h
  · unfold strtok at h
    rw [h0] at h
    simp only [Option.some.injEq, Prod.mk.injEq] at h
    obtain ⟨h1, h2⟩ := h
    have hne : tok ≠ [] := by
      rw [← h1, List.takeWhile_cons_of_pos (by simpa using hc)]
      exact List.cons_ne_nil _ _
    have hlen : (c :: r).length ≤ s.length := by
      rw [← h0]
      exact (List.dropWhile_sublist _).length_le
    have hsplit := List.takeWhile_append_dropWhile (fun c => c != ':') (c :: r)
    have hl : tok.length + ((c :: r).dropWhile (fun c => c != ':')).length = (c :: r).length := by
      rw [← h1, ← List.length_append, hsplit]
    have hd : rest.length ≤ ((c :: r).dropWhile (fun c => c != ':')).length := by
      rw [← h2, List.length_drop]
      omega
    refine ⟨hne, List.length_pos.mpr hne, ?_, by omega⟩
    intro x hx
    rw [← h1] at hx
    simpa using List.mem_takeWhile_imp hx

theorem readCommand_normalizeLine (fuel : Nat) (env : Target) (rest : List Char) :
    readCommand fuel env (normalizeLine rest) = readCommand fuel env rest := by
  unfold readCommand
  rw [strtok_normalizeLine rest]
  rcases Option.eq_none_or_eq_some (strtok rest ':') with h | ⟨⟨ta, r2⟩, h⟩
  · rw [h]; rfl
  · rw [h]
    simp only [Option.map_some']
    rw [strtok_normalizeLine r2]
    rcases Option.eq_none_or_eq_some (strtok r2 ':') with h2 | ⟨⟨tl, r3⟩, h2⟩
    · rw [h2]; rfl
    · rw [h2]; rfl

theorem parse_normalizeLine (fuel : Nat) (env : Target) (cmd : List Char)
    (h1 : cmd ≠ "LANDMARKS".toList) (h2 : normalizeLine cmd ≠ "LANDMARKS".toList) :
    _picopeeker_parse_command fuel env (normalizeLine cmd) =
      _picopeeker_parse_command fuel env cmd := by
  unfold _picopeeker_parse_command
  rw [if_neg h1, if_neg h2, strtok_normalizeLine cmd]
  rcases Option.eq_none_or_eq_some (strtok cmd ':') with h | ⟨⟨tok, rest⟩, h⟩
  · rw [h]; rfl
  · rw [h]
    simp only [Option.map_some']
    rw [strtok_normalizeLine rest, readCommand_normalizeLine]
    rcases Option.eq_none_or_eq_some (strtok rest ':') with h3 | ⟨⟨t2, r2⟩, h3⟩
    · rw [h3]; rfl
    · rw [h3]; rfl

theorem keyword_not_landmarks (cmd tok rest : List Char)
    (h : strtok cmd ':' = some (tok, rest)) (hk : tok ≠ "LANDMARKS".toList) :
    cmd ≠ "LANDMARKS".toList ∧ normalizeLine cmd ≠ "LANDMARKS".toList := by
  constructor
  · intro hc
    rw [strtok_landmarks hc] at h
    exact hk (Prod.mk.inj (Option.some.inj h)).1.symm
  · intro hc
    have e := strtok_normalizeLine cmd
    rw [strtok_landmarks hc, h] at e
    exact hk (Prod.mk.inj (Option.some.inj e)).1.symm

/-- C22: `strtok` skips empty fields. A line whose first token is `READ`, `SEARCH`
or `SEARCHFLASH` is answered exactly as the line obtained by removing the leading
`:` characters and collapsing every run of `:`, and so is every line as long as
neither of the two is `LANDMARKS`: the tokens of the two lines are the same,
and a token is never empty. `:READ::0x20000000::16` is answered as
`READ:0x20000000:16`; in `READ::16` the address token is `16`, of value `0x16`,
and the length is missing; `SEARCH:` lacks its pattern; and a pattern token of
even length has at least one byte, so the test `pattern_len == 0` never holds.
The line `:LANDMARKS`, whose first token is no command keyword, shows the limit
of the equation: it is an invalid command although it collapses to
`LANDMARKS`. -/
theorem empty_fields_skipped (fuel : Nat) (env : Target) (cmd : List Char) :
    (∀ tok rest, strtok cmd ':' = some (tok, rest) →
      tok = "READ".toList ∨ tok = "SEARCH".toList ∨ tok = "SEARCHFLASH".toList →
      _picopeeker_parse_command fuel env (normalizeLine cmd) =
        _picopeeker_parse_command fuel env cmd) ∧
    (cmd ≠ "LANDMARKS".toList → normalizeLine cmd ≠ "LANDMARKS".toList →
      _picopeeker_parse_command fuel env (normalizeLine cmd) =
        _picopeeker_parse_command fuel env cmd) ∧
    strtok (normalizeLine cmd) ':' =
      (strtok cmd ':').map (fun p => (p.1, normalizeLine p.2)) ∧
    (∀ tok rest, strtok cmd ':' = some (tok, rest) → tok ≠ [] ∧ ∀ c ∈ tok, c ≠ ':') ∧
    (strtok cmd ':' = none ↔ ∀ c ∈ cmd, c = ':') ∧
    (∀ flash rest tok r2, strtok cmd ':' = some (searchKeyword flash, rest) →
      strtok rest ':' = some (tok, r2) →
      1 ≤ tok.length ∧ (tok.length % 2 = 0 → 1 ≤ tok.length / 2) ∧
      (_picopeeker_parse_command fuel env cmd = some [patternLengthError] →
        tok.length / 2 > PICOPEEKER_MAX_PATTERN_SIZE)) ∧
    (normalizeLine ":READ::0x20000000::16".toList = "READ:0x20000000:16".toList ∧
      _picopeeker_parse_command fuel env ":READ::0x20000000::16".toList =
        _picopeeker_parse_command fuel env "READ:0x20000000:16".toList) ∧
    (strtok "READ::16".toList ':' = some ("READ".toList, ":16".toList) ∧
      strtok ":16".toList ':' = some ("16".toList, []) ∧
      strtok [] ':' = none ∧ strtoul "16".toList 16 = 0x16 ∧
      normalizeLine "READ::16".toList = "READ:16".toList ∧
      _picopeeker_parse_command fuel env "READ::16".toList =
        some [P "ERROR: Missing length\n"] ∧
      _picopeeker_parse_command fuel env "READ:16".toList =
        some [P "ERROR: Missing length\n"]) ∧
    (∀ line ∈ ["SEARCH:".toList, "SEARCH".toList, "SEARCH:::".toList, ":SEARCH:".toList],
      _picopeeker_parse_command fuel env line =
        some [P "ERROR: Missing search pattern\n", P "Usage: SEARCH:HEXPATTERN\n",
              P "Example: SEARCH:DEADBEEF\n"]) ∧
    (normalizeLine ":LANDMARKS".toList = "LANDMARKS".toList ∧
      _picopeeker_parse_command fuel env ":LANDMARKS".toList =
        some [P "ERROR: Invalid command\n"] ∧
      _picopeeker_parse_command fuel env "LANDMARKS".toList =
        some (_picopeeker_send_landmarks env)) := by
  refine ⟨?_, parse_normalizeLine fuel env cmd, strtok_normalizeLine cmd, ?_, ?_, ?_, ?_, ?_,
    ?_, ?_⟩
  · intro tok rest h hk
    have hne : tok ≠ "LANDMARKS".toList := by
      rcases hk with rfl | rfl | rfl <;> decide
    obtain ⟨h1, h2⟩ := keyword_not_landmarks cmd tok rest h hne
    exact parse_normalizeLine fuel env cmd h1 h2
  · intro tok rest h
    obtain ⟨h1, -, h3, -⟩ := strtok_token cmd tok rest h
    exact ⟨h1, h3⟩
  · constructor
    · intro h c hc
      rcases dropWhile_colon_cases cmd with h0 | ⟨x, r, h0, -⟩
      · have := List.dropWhile_eq_nil_iff.mp h0 c hc
        simpa using this
      · unfold strtok at h; rw [h0] at h; cases h
    · intro h
      have h0 : cmd.dropWhile (fun c => c == ':') = [] :=
        List.dropWhile_eq_nil_iff.mpr (fun c hc => by simpa using h c hc)
      unfold strtok
      rw [h0]
  · intro flash rest tok r2 hs ht
    obtain ⟨-, h1, -, -⟩ := strtok_token rest tok r2 ht
    refine ⟨h1, fun he => by omega, ?_⟩
    intro hp
    rw [parse_search_token fuel env flash hs ht] at hp
    unfold searchCommand at hp
    by_cases e1 : tok.length % 2 ≠ 0
    · rw [if_pos e1] at hp
      have hne : some [P "ERROR: Hex pattern must have even number of digits\n"] ≠
          some [patternLengthError] := by decide
      exact absurd hp hne
    · rw [if_neg e1] at hp
      by_cases e2 : tok.length / 2 = 0 ∨ tok.length / 2 > PICOPEEKER_MAX_PATTERN_SIZE
      · rcases e2 with e2 | e2
        · omega
        · exact e2
      · rw [if_neg e2] at hp
        simp only [PICOPEEKER_MAX_PATTERN_SIZE] at e2
        have hk : tok.length = 2 * (tok.length / 2) := by omega
        have hacc := searchCommand_accepts fuel env flash tok (tok.length / 2) hk (by omega)
          (by omega)
        unfold searchCommand at hacc
        rw [if_neg e1, if_neg (by simp only [PICOPEEKER_MAX_PATTERN_SIZE]; omega)] at hacc
        rw [hacc] at hp
        obtain ⟨s, hs1, hs2⟩ := search_map_head fuel env _ _ _ _ _ hp
        have hpe : patternLengthError =
            Event.print "ERROR: Pattern length must be 1-64 bytes\n".toList := by decide
        have e : "ERROR: Pattern length must be 1-64 bytes\n".toList = s :=
          Event.print.inj (hpe.symm.trans (Option.some.inj hs1))
        rw [← e] at hs2
        have hne : "ERROR: Pattern length must be 1-64 bytes\n".toList.head? ≠ some '=' := by
          decide
        exact absurd hs2 hne
  · have hn : normalizeLine ":READ::0x20000000::16".toList = "READ:0x20000000:16".toList := by
      decide
    refine ⟨hn, ?_⟩
    rw [← hn]
    exact (parse_normalizeLine fuel env _ (by decide) (by decide)).symm
  · exact ⟨by decide, by decide, by decide, by decide, by decide, rfl, rfl⟩
  · intro line hl
    simp only [List.mem_cons, List.mem_nil_iff, or_false] at hl
    rcases hl with rfl | rfl | rfl | rfl <;> rfl
  · exact ⟨by decide, rfl, rfl⟩

/-! ## Lines assembled by the input loop and the pattern limit -/

theorem lineStep_dispatch (s : PeekerState) (c : Option Char) (buf : List Char)
    (h : (lineStep s c).2 = some buf) :
    0 < s.cmd_index ∧ buf = s.cmd_buffer.set s.cmd_index (Char.ofNat 0) := by
  cases c with
  | none => rw [lineStep_timeout] at h; cases h
  | some c =>
    by_cases hc : c = '\n' ∨ c = '\r'
    · by_cases h0 : 0 < s.cmd_index
      · rw [lineStep_terminator s c hc h0] at h
        exact ⟨h0, (Option.some.inj h).symm⟩
      · rw [lineStep_terminator_empty s c hc (by omega)] at h; cases h
    · by_cases h1 : s.cmd_index < 127
      · rw [lineStep_store s c hc h1] at h; cases h
      · rw [lineStep_full s c hc (by omega)] at h; cases h

theorem cstr_length_le (l : List Char) : (cstr l).length ≤ l.length :=
  (List.takeWhile_prefix _).length_le

theorem dispatched_lines : ∀ (polls : List (Option Char)) (s : PeekerState),
    s.cmd_index ≤ 127 ∧ s.cmd_buffer.length = 128 →
    ∀ buf ∈ (lineLoop s polls).2, buf.length = 128 ∧ (cstr buf).length ≤ 127 := by
  intro polls
  induction polls with
  | nil => intro s _ buf hb; cases hb
  | cons c cs ih =>
    intro s h buf hb
    rw [lineLoop_cons] at hb
    rcases List.mem_append.mp hb with h1 | h1
    · have hd : (lineStep s c).2 = some buf := by
        rcases Option.eq_none_or_eq_some (lineStep s c).2 with hn | ⟨x, hx⟩
        · rw [hn] at h1; cases h1
        · rw [hx] at h1
          rw [hx, List.mem_singleton.mp h1]
      obtain ⟨-, rfl⟩ := lineStep_dispatch s c buf hd
      refine ⟨by rw [List.length_set]; exact h.2, ?_⟩
      rw [cstr_set_nul _ _ (by omega)]
      have := cstr_length_le (s.cmd_buffer.take s.cmd_index)
      have := List.length_take_le s.cmd_index s.cmd_buffer
      omega
    · have hs := lineStep_bounds s c h
      exact ih (lineStep s c).1 ⟨hs.1, hs.2.1⟩ buf h1

theorem strtok_rest_bound (s tok rest : List Char) (h : strtok s ':' = some (tok, rest))
    (hr : rest ≠ []) : tok.length + rest.length + 1 ≤ s.length := by
  rcases dropWhile_colon_cases s with h0 | ⟨c, r, h0, hc⟩
  · unfold strtok at h; rw [h0] at h; cases h
  · unfold strtok at h
    rw [h0] at h
    simp only [Option.some.injEq, Prod.mk.injEq] at h
    obtain ⟨h1, h2⟩ := h
    have hlen : (c :: r).length ≤ s.length := by
      rw [← h0]
      exact (List.dropWhile_sublist _).length_le
    have hsplit := List.takeWhile_append_dropWhile (fun c => c != ':') (c :: r)
    have hl : tok.length + ((c :: r).dropWhile (fun c => c != ':')).length = (c :: r).length := by
      rw [← h1, ← List.length_append, hsplit]
    rcases dropWhile_field_cases (c :: r) with h3 | ⟨r2, h3⟩
    · rw [h3] at h2
      exact absurd h2.symm hr
    · rw [h3] at h2 hl
      have e : rest = r2 := h2.symm
      rw [e]
      simp only [List.length_cons] at hl hlen ⊢
      omega

theorem search_token_bound (cmd rest tok r2 : List Char) (flash : Bool)
    (hlen : cmd.length ≤ 127) (hs : strtok cmd ':' = some (searchKeyword flash, rest))
    (ht : strtok rest ':' = some (tok, r2)) :
    1 ≤ tok.length ∧ tok.length ≤ (if flash then 115 else 120) := by
  have hr : rest ≠ [] := by
    intro e
    rw [e] at ht
    cases ht
  have h1 := strtok_rest_bound cmd _ rest hs hr
  obtain ⟨-, h2, -, h3⟩ := strtok_token rest tok r2 ht
  refine ⟨h2, ?_⟩
  cases flash
  · have e : (searchKeyword false).length = 6 := by decide
    rw [e] at h1
    simp only [Bool.false_eq_true, if_false]
    omega
  · have e : (searchKeyword true).length = 11 := by decide
    rw [e] at h1
    simp only [if_true]
    omega

theorem pattern_length_error_origin (fuel : Nat) (env : Target) (cmd : List Char)
    (h : _picopeeker_parse_command fuel env cmd = some [patternLengthError]) :
    ∃ flash rest tok r2, strtok cmd ':' = some (searchKeyword flash, rest) ∧
      strtok rest ':' = some (tok, r2) ∧ tok.length % 2 = 0 ∧
      tok.length / 2 > PICOPEEKER_MAX_PATTERN_SIZE := by
  have hpe : patternLengthError =
      Event.print "ERROR: Pattern length must be 1-64 bytes\n".toList := by decide
  have hhead : ∀ ev : List Event, (∃ s, ev.head? = some (Event.print s) ∧
      (s.head? = some 'L' ∨ s.head? = some '=' ∨ s.head? = some 'W')) →
      some ev ≠ some [patternLengthError] := by
    rintro ev ⟨s, h1, h2⟩ he
    rw [Option.some.inj he, hpe] at h1
    have e : "ERROR: Pattern length must be 1-64 bytes\n".toList = s :=
      Event.print.inj (Option.some.inj h1)
    rw [← e] at h2
    have hne : ¬ ("ERROR: Pattern length must be 1-64 bytes\n".toList.head? = some 'L' ∨
        "ERROR: Pattern length must be 1-64 bytes\n".toList.head? = some '=' ∨
        "ERROR: Pattern length must be 1-64 bytes\n".toList.head? = some 'W') := by decide
    exact hne h2
  rcases parse_classify fuel env cmd with ⟨-, hp⟩ | ⟨hL, -⟩ |
    ⟨-, flash, rest, tok, r2, k, -, -, -, -, -, hp⟩ |
    ⟨-, rest, ta, r2, tl, r3, e, -, -, -, -, -, -, hp⟩
  · rw [hp] at h
    exact absurd h (hhead _ ⟨_, landmarks_head env, Or.inl rfl⟩)
  · have searchCase : ∀ (flash : Bool) (rest : List Char),
        strtok cmd ':' = some (searchKeyword flash, rest) →
        ∃ flash rest tok r2, strtok cmd ':' = some (searchKeyword flash, rest) ∧
          strtok rest ':' = some (tok, r2) ∧ tok.length % 2 = 0 ∧
          tok.length / 2 > PICOPEEKER_MAX_PATTERN_SIZE := by
      intro flash rest hs
      rcases Option.eq_none_or_eq_some (strtok rest ':') with ht | ⟨⟨tok, r2⟩, ht⟩
      · cases flash
        · rw [parse_search fuel env hs, ht] at h
          have h2 : some [P "ERROR: Missing search pattern\n", P "Usage: SEARCH:HEXPATTERN\n",
            P "Example: SEARCH:DEADBEEF\n"] = some [patternLengthError] := h
          exact absurd h2 (by decide)
        · rw [parse_searchflash fuel env hs, ht] at h
          have h2 : some [P "ERROR: Missing search pattern\n",
            P "Usage: SEARCHFLASH:HEXPATTERN\n",
            P "Example: SEARCHFLASH:48656C6C6F (search for \x27Hello\x27)\n"] =
              some [patternLengthError] := h
          exact absurd h2 (by decide)
      · obtain ⟨-, h1, -, -⟩ := strtok_token rest tok r2 ht
        rw [parse_search_token fuel env flash hs ht] at h
        unfold searchCommand at h
        by_cases e1 : tok.length % 2 ≠ 0
        · rw [if_pos e1] at h
          exact absurd h (by decide)
        · rw [if_neg e1] at h
          by_cases e2 : tok.length / 2 = 0 ∨ tok.length / 2 > PICOPEEKER_MAX_PATTERN_SIZE
          · refine ⟨flash, rest, tok, r2, hs, ht, by omega, ?_⟩
            rcases e2 with e2 | e2
            · omega
            · exact e2
          · simp only [PICOPEEKER_MAX_PATTERN_SIZE] at e2
            have hk : tok.length = 2 * (tok.length / 2) := by omega
            have hacc := searchCommand_accepts fuel env flash tok (tok.length / 2) hk
              (by omega) (by omega)
            unfold searchCommand at hacc
            rw [if_neg e1, if_neg (by simp only [PICOPEEKER_MAX_PATTERN_SIZE]; omega)] at hacc
            rw [if_neg (by simp only [PICOPEEKER_MAX_PATTERN_SIZE]; omega), hacc] at h
            obtain ⟨s, hs1, hs2⟩ := search_map_head fuel env _ _ _ _ _ h
            exact absurd rfl (hhead _ ⟨s, hs1, Or.inr (Or.inl hs2)⟩)
    rcases Option.eq_none_or_eq_some (strtok cmd ':') with hs | ⟨⟨tok, rest⟩, hs⟩
    · rw [parse_invalid_no_token fuel env cmd hL hs] at h
      exact absurd h (by decide)
    by_cases t1 : tok = "SEARCH".toList
    · subst t1; exact searchCase false rest hs
    by_cases t2 : tok = "SEARCHFLASH".toList
    · subst t2; exact searchCase true rest hs
    by_cases t3 : tok = "READ".toList
    · subst t3
      rw [parse_read fuel env hs] at h
      rcases Option.eq_none_or_eq_some (strtok rest ':') with hta | ⟨⟨ta, r2⟩, hta⟩
      · unfold readCommand at h
        simp only [hta] at h
        exact absurd h (by decide)
      rcases Option.eq_none_or_eq_some (strtok r2 ':') with htl | ⟨⟨tl, r3⟩, htl⟩
      · unfold readCommand at h
        simp only [hta, htl] at h
        exact absurd h (by decide)
      by_cases hlen : toU32 (atoi tl) = 0 ∨ toU32 (atoi tl) > PICOPEEKER_MAX_READ_SIZE
      · unfold readCommand at h
        simp only [hta, htl, if_pos hlen] at h
        exact absurd h (by decide)
      rcases Option.eq_none_or_eq_some (boundsFor (strtoul ta 16)) with hb | ⟨e, hb⟩
      · unfold readCommand at h
        simp only [hta, htl, if_neg hlen, hb] at h
        exact absurd h (by decide)
      · simp only [PICOPEEKER_MAX_READ_SIZE] at hlen
        rw [readCommand_in_region fuel env hta htl (by omega) (by omega) hb] at h
        obtain ⟨s, hs1, hs2⟩ := dump_map_head fuel env _ _ _ (clamp_choice _ _ _) _ h
        exact absurd rfl (hhead _ ⟨s, hs1, Or.inr hs2⟩)
    · rw [parse_invalid_keyword fuel env cmd tok rest hL hs t3 t1 t2] at h
      exact absurd h (by decide)
  · rw [hp] at h
    obtain ⟨s, hs1, hs2⟩ := search_map_head fuel env _ _ _ _ _ h
    exact absurd rfl (hhead _ ⟨s, hs1, Or.inr (Or.inl hs2)⟩)
  · rw [hp] at h
    obtain ⟨s, hs1, hs2⟩ := dump_map_head fuel env _ _ _ (clamp_choice _ _ _) _ h
    exact absurd rfl (hhead _ ⟨s, hs1, Or.inr hs2⟩)

theorem short_line_pattern_ok (fuel : Nat) (env : Target) (cmd : List Char)
    (hlen : cmd.length ≤ 127) :
    _picopeeker_parse_command fuel env cmd ≠ some [patternLengthError] := by
  intro h
  obtain ⟨flash, rest, tok, r2, hs, ht, -, hk⟩ := pattern_length_error_origin fuel env cmd h
  obtain ⟨-, hb⟩ := search_token_bound cmd rest tok r2 flash hlen hs ht
  simp only [PICOPEEKER_MAX_PATTERN_SIZE] at hk
  cases flash
  · simp only [Bool.false_eq_true, if_false] at hb; omega
  · simp only [if_true] at hb; omega

set_option maxRecDepth 100000 in
/-- C23: on a line assembled by the input loop the pattern limit is never reached.
Every line the loop passes to the parser has at most 127 characters; its pattern
token has at most 120 characters after `SEARCH` and at most 115 after
`SEARCHFLASH`, so the line is either rejected for an odd number of digits or
searched with a pattern of at most 60, respectively 57, bytes, fewer than the 64
of the pattern buffer, and the answer is never the pattern-length error. When 127
or more bytes arrive before the terminator the line passed is the first 127 of
them. `SEARCH:` with 120 digits and `SEARCHFLASH:` with 115 fill the line: the
first is searched with 60 bytes, the second is rejected as odd; the parser alone,
given `SEARCH:` with 130 digits, does answer with the pattern-length error. -/
theorem pattern_limit_unreachable (fuel : Nat) (env : Target) (s : PeekerState)
    (hi : s.cmd_index ≤ 127) (hb : s.cmd_buffer.length = 128) :
    (∀ polls, ∀ buf ∈ (lineLoop s polls).2,
      (cstr buf).length ≤ 127 ∧
      _picopeeker_parse_command fuel env (cstr buf) ≠ some [patternLengthError] ∧
      ∀ flash rest tok r2, strtok (cstr buf) ':' = some (searchKeyword flash, rest) →
        strtok rest ':' = some (tok, r2) →
        1 ≤ tok.length ∧ tok.length ≤ (if flash then 115 else 120) ∧
        (tok.length % 2 ≠ 0 →
          _picopeeker_parse_command fuel env (cstr buf) =
            some [P "ERROR: Hex pattern must have even number of digits\n"]) ∧
        (tok.length % 2 = 0 →
          1 ≤ tok.length / 2 ∧ tok.length / 2 ≤ (if flash then 57 else 60) ∧
          (decodePattern tok (tok.length / 2)).length = tok.length / 2 ∧
          (decodePattern tok (tok.length / 2)).length < PICOPEEKER_MAX_PATTERN_SIZE ∧
          _picopeeker_parse_command fuel env (cstr buf) =
            (_picopeeker_search_region fuel env (scopeStart flash) (scopeEnd flash)
                (scopeName flash) (decodePattern tok (tok.length / 2))).map
              (fun ev => ev ++ [P "===END===\n"]))) ∧
    (∀ polls t, s.cmd_index = 0 → (∀ c, some c ∈ polls → ¬ (c = '\n' ∨ c = '\r')) →
      127 ≤ (polls.filterMap id).length → t = '\n' ∨ t = '\r' →
      ∃ buf, lineLoop s (polls ++ [some t]) = (⟨s.initialized, buf, 0⟩, [buf]) ∧
        cstr buf = cstr ((polls.filterMap id).take 127)) ∧
    (∀ cmd, cmd.length ≤ 127 →
      _picopeeker_parse_command fuel env cmd ≠ some [patternLengthError]) ∧
    (("SEARCH:".toList ++ List.replicate 120 'A').length = 127 ∧
      _picopeeker_parse_command fuel env ("SEARCH:".toList ++ List.replicate 120 'A') =
        (_picopeeker_search_region fuel env 0x20000000 0x20082000 "SRAM".toList
            (List.replicate 60 0xAA)).map
          (fun ev => ev ++ [P "===END===\n"])) ∧
    (("SEARCHFLASH:".toList ++ List.replicate 114 'A').length = 126 ∧
      _picopeeker_parse_command fuel env ("SEARCHFLASH:".toList ++ List.replicate 114 'A') =
        (_picopeeker_search_region fuel env 0x10000000 0x10400000 "FLASH".toList
            (List.replicate 57 0xAA)).map
          (fun ev => ev ++ [P "===END===\n"])) ∧
    (("SEARCHFLASH:".toList ++ List.replicate 115 'A').length = 127 ∧
      _picopeeker_parse_command fuel env ("SEARCHFLASH:".toList ++ List.replicate 115 'A') =
        some [P "ERROR: Hex pattern must have even number of digits\n"]) ∧
    (("SEARCH:".toList ++ List.replicate 130 'A').length = 137 ∧
      _picopeeker_parse_command fuel env ("SEARCH:".toList ++ List.replicate 130 'A') =
        some [patternLengthError]) := by
  refine ⟨?_, ?_, short_line_pattern_ok fuel env, ?_, ?_, ?_, ?_⟩
  · intro polls buf hbuf
    obtain ⟨-, hlen⟩ := dispatched_lines polls s ⟨hi, hb⟩ buf hbuf
    refine ⟨hlen, short_line_pattern_ok fuel env _ hlen, ?_⟩
    intro flash rest tok r2 hs ht
    obtain ⟨h1, h2⟩ := search_token_bound _ rest tok r2 flash hlen hs ht
    have hp := parse_search_token fuel env flash hs ht
    refine ⟨h1, h2, ?_, ?_⟩
    · intro ho
      rw [hp]
      unfold searchCommand
      rw [if_pos ho]
    · intro he
      have hk : tok.length / 2 ≤ (if flash then 57 else 60) := by
        cases flash
        · simp only [Bool.false_eq_true, if_false] at h2 ⊢; omega
        · simp only [if_true] at h2 ⊢; omega
      have hk64 : tok.length / 2 < 64 := by
        cases flash
        · simp only [Bool.false_eq_true, if_false] at hk; omega
        · simp only [if_true] at hk; omega
      refine ⟨by omega, hk, length_decodePattern _ _, ?_, ?_⟩
      · rw [length_decodePattern]
        exact hk64
      · exact parse_accepted_search fuel env flash hs ht (by omega) (by omega) (by omega)
  · intro polls t h0 hp hn ht
    obtain ⟨buf, h1, -, -, -, h5⟩ := lineLoop_line s polls t h0 hb hp (by omega) ht
    exact ⟨buf, h1, h5⟩
  · refine ⟨by decide, ?_⟩
    have hd : decodePattern (List.replicate 120 'A') 60 = List.replicate 60 0xAA := by decide
    rw [@parse_accepted_search fuel env false _ (List.replicate 120 'A')
      (List.replicate 120 'A') [] 60 (by decide) (by decide) (by decide) (by omega)
      (by omega), hd]
    rfl
  · refine ⟨by decide, ?_⟩
    have hd : decodePattern (List.replicate 114 'A') 57 = List.replicate 57 0xAA := by decide
    rw [@parse_accepted_search fuel env true _ (List.replicate 114 'A')
      (List.replicate 114 'A') [] 57 (by decide) (by decide) (by decide) (by omega)
      (by omega), hd]
    rfl
  · refine ⟨by decide, ?_⟩
    rw [@parse_search_token fuel env true _ (List.replicate 115 'A')
      (List.replicate 115 'A') [] (by decide) (by decide)]
    unfold searchCommand
    rw [if_pos (by decide)]
  · refine ⟨by decide, ?_⟩
    rw [@parse_search_token fuel env false _ (List.replicate 130 'A')
      (List.replicate 130 'A') [] (by decide) (by decide)]
    unfold searchCommand
    rw [if_neg (by decide), if_pos (by decide)]

set_option maxRecDepth 100000 in
/-- From the initial state the polls `S E A R C H : A A` followed by `\r` pass one
line to the parser, of at most 127 characters, which is not answered with the
pattern-length error. -/
theorem pattern_limit_unreachable_witness :
    (_picopeeker_state.cmd_index ≤ 127 ∧ _picopeeker_state.cmd_buffer.length = 128) ∧
    ∃ buf, buf ∈ (lineLoop _picopeeker_state ("SEARCH:AA\r".toList.map some)).2 ∧
      (cstr buf).length ≤ 127 ∧
      _picopeeker_parse_command 0 ⟨fun _ => 0, 0⟩ (cstr buf) ≠ some [patternLengthError] := by
  refine ⟨⟨Nat.zero_le _, List.length_replicate _ _⟩, ?_⟩
  obtain ⟨buf, h1, -⟩ := lineLoop_line _picopeeker_state ("SEARCH:AA".toList.map some) '\r' rfl
    (List.length_replicate _ _)
    (fun c h => (by decide : ∀ c ∈ "SEARCH:AA".toList, ¬ (c = '\n' ∨ c = '\r')) c
      (by simpa using h))
    (by decide) (by decide)
  have hm : buf ∈ (lineLoop _picopeeker_state ("SEARCH:AA\r".toList.map some)).2 := by
    have e : "SEARCH:AA\r".toList.map some = "SEARCH:AA".toList.map some ++ [some '\r'] := by
      decide
    rw [e, h1]
    exact List.mem_singleton_self _
  have h := (pattern_limit_unreachable 0 ⟨fun _ => 0, 0⟩ _picopeeker_state (Nat.zero_le _)
    (List.length_replicate _ _)).1 _ buf hm
  exact ⟨buf, hm, h.1, h.2.1⟩

/-! ## A region smaller than the pattern -/

theorem strtoul_no_number (s : List Char) (h : startsWithDigit isHexDigit s = false) :
    strtoul s 16 = 0 := by
  have key : accumDigits 16 (skipHexMark 16 (numberBody s)) 0 = 0 := by
    unfold startsWithDigit at h
    cases hb : numberBody s with
    | nil => rfl
    | cons c cs =>
      rw [hb] at h
      have h2 : (hexValue c).isSome = false := h
      have hx : hexValue c = none := by
        rcases Option.eq_none_or_eq_some (hexValue c) with hv | ⟨d, hv⟩
        · exact hv
        · rw [hv] at h2; cases h2
      obtain ⟨hd, h48⟩ := hexValue_none hx
      rw [skipHexMark_first 16 c cs (char_ne_of_toNat_ne h48), accumDigits_stop _ _ hd]
  unfold numberBody at key
  unfold strtoul scanNumber
  simp only [key]
  cases (scanSign (List.dropWhile isspace s)).1 <;> rfl

theorem atoi_no_number (s : List Char) (h : startsWithDigit isDecDigit s = false) :
    atoi s = 0 := by
  have key : accumDigits 10 (skipHexMark 10 (numberBody s)) 0 = 0 := by
    unfold startsWithDigit at h
    rw [skipHexMark_decimal]
    cases hb : numberBody s with
    | nil => rfl
    | cons c cs =>
      rw [hb] at h
      have h2 : decide (48 ≤ c.toNat ∧ c.toNat ≤ 57) = false := h
      have hx : ¬ (48 ≤ c.toNat ∧ c.toNat ≤ 57) := of_decide_eq_false h2
      exact accumDigits_stop_decimal cs 0 hx
  unfold numberBody at key
  unfold atoi strtol scanNumber
  simp only [key]
  cases (scanSign (List.dropWhile isspace s)).1 <;> rfl

theorem standalone_readCommand_in_region (fuel : Nat) (env : Target)
    {rest ta r2 tl r3 : List Char} {e : Nat} (hta : strtok rest ':' = some (ta, r2))
    (htl : strtok r2 ':' = some (tl, r3))
    (hl1 : 1 ≤ toU32 (atoi tl)) (hl2 : toU32 (atoi tl) ≤ 4096)
    (hb : boundsFor (strtoul ta 16) = some e) :
    MemoryExplorer.readCommand fuel env rest =
      (MemoryExplorer.send_hex_dump fuel env (strtoul ta 16)
          (min (toU32 (atoi tl)) (e - strtoul ta 16))).map
        (fun dump =>
          (if strtoul ta 16 + toU32 (atoi tl) > e then
            [clampWarning (toU32 (atoi tl)) (e - strtoul ta 16)] else []) ++ dump) := by
  obtain ⟨s, hs, h1, h2⟩ := (boundsFor_eq_some_iff _ _).mp hb
  have he : e ≤ 1610612736 := by
    simp only [regionTable, PICOPEEKER_ROM_START, PICOPEEKER_ROM_END, PICOPEEKER_FLASH_START,
      PICOPEEKER_FLASH_END, PICOPEEKER_SRAM_START, PICOPEEKER_SRAM_END,
      PICOPEEKER_PERIPH_START, PICOPEEKER_PERIPH_END, List.mem_cons, Prod.mk.injEq,
      List.mem_nil_iff, or_false] at hs
    omega
  have hlen : ¬ (toU32 (atoi tl) = 0 ∨ toU32 (atoi tl) > 4096) := by omega
  have hb2 : MemoryExplorer.boundsFor (strtoul ta 16) = some e := hb
  unfold MemoryExplorer.readCommand
  simp only [hta, htl, if_neg hlen, hb2]
  rw [wrap32_of_lt (by omega), sub32_of_le (by omega) (by omega)]
  by_cases c : strtoul ta 16 + toU32 (atoi tl) > e
  · have m : min (toU32 (atoi tl)) (e - strtoul ta 16) = e - strtoul ta 16 := by omega
    rw [if_pos c, if_pos c, m]
    rfl
  · have m : min (toU32 (atoi tl)) (e - strtoul ta 16) = toU32 (atoi tl) := by omega
    rw [if_neg c, if_neg c, m]
    simp

set_option maxRecDepth 100000 in
/-- C19, counterexample: the address field of `READ:zzz:16` is not a hexadecimal
number, yet both parsers answer with the hex dump of the sixteen bytes at address
0 (each read once for the hex column and once for the ASCII column) and print no
`ERROR:` line; the same happens with the address fields ` zz` and `-zz`; likewise
the length field `1x` of `READ:0x20000000:1x` is not a decimal number and the
byte at `0x20000000` is dumped. -/
theorem nonnumeric_address_counterexample :
    hexValue 'z' = none ∧
    strtok "READ:zzz:16".toList ':' = some ("READ".toList, "zzz:16".toList) ∧
    strtok "zzz:16".toList ':' = some ("zzz".toList, "16".toList) ∧
    (_picopeeker_parse_command 2 ⟨fun _ => 0, 0⟩ "READ:zzz:16".toList).map
      (fun ev => ("ERROR:".toList.isPrefixOf (stdout ev), ev.head?, loads ev)) =
      some (false, some (P "=== HEX DUMP ===\n"), List.range 16 ++ List.range 16) ∧
    (MemoryExplorer.parse_command 2 ⟨fun _ => 0, 0⟩ ⟨0, 0⟩ "READ:zzz:16".toList).map
      (fun ev => ("ERROR:".toList.isPrefixOf (stdout ev), ev.head?, loads ev)) =
      some (false, some (P "=== HEX DUMP ===\n"), List.range 16 ++ List.range 16) ∧
    (_picopeeker_parse_command 2 ⟨fun _ => 0, 0⟩ "READ: zz:4".toList).map
      (fun ev => ("ERROR:".toList.isPrefixOf (stdout ev), ev.head?, loads ev)) =
      some (false, some (P "=== HEX DUMP ===\n"), List.range 4 ++ List.range 4) ∧
    (_picopeeker_parse_command 2 ⟨fun _ => 0, 0⟩ "READ:-zz:4".toList).map
      (fun ev => ("ERROR:".toList.isPrefixOf (stdout ev), ev.head?, loads ev)) =
      some (false, some (P "=== HEX DUMP ===\n"), List.range 4 ++ List.range 4) ∧
    (_picopeeker_parse_command 2 ⟨fun _ => 0, 0⟩ "READ:0x20000000:1x".toList).map
      (fun ev => ("ERROR:".toList.isPrefixOf (stdout ev), ev.head?, loads ev)) =
      some (false, some (P "=== HEX DUMP ===\n"), [0x20000000, 0x20000000]) := by
  refine ⟨by decide, by decide, by decide, ?_, ?_, ?_, ?_, ?_⟩ <;> decide

/-- C19, amended: neither parser checks that a READ field is a number. With both
fields present the address is `strtoul(field, NULL, 16)` and the length is
`(uint32_t) atoi(field)`, whatever characters the fields hold, and the answer
depends on these two values alone: the length error when the length is 0 or above
4096, otherwise the address error when the address lies in no region, otherwise
the hex dump, clamped to the end of the region. A length field in which no decimal
digit follows the optional white space and sign has the value 0: both parsers
answer with `ERROR: Length must be 1-4096` alone and read no memory. An address
field in which no hexadecimal digit follows the optional white space and sign has
the value 0, an address in ROM: with a length in `1..4096` both parsers run the
hex dump of that many bytes from address 0, whose response starts with the dump
header, not with `ERROR:`, and reads exactly the addresses below the length. -/
theorem nonnumeric_read_fields (fuel : Nat) (env : Target) (g : MemoryExplorer.Globals)
    (cmd rest ta r2 tl r3 : List Char)
    (hcmd : strtok cmd ':' = some ("READ".toList, rest))
    (hta : strtok rest ':' = some (ta, r2)) (htl : strtok r2 ':' = some (tl, r3)) :
    (toU32 (atoi tl) = 0 ∨ toU32 (atoi tl) > 4096 →
      _picopeeker_parse_command fuel env cmd =
        some [Event.print "ERROR: Length must be 1-4096\n".toList] ∧
      MemoryExplorer.parse_command fuel env g cmd =
        some [Event.print "ERROR: Length must be 1-4096\n".toList]) ∧
    (1 ≤ toU32 (atoi tl) → toU32 (atoi tl) ≤ 4096 → boundsFor (strtoul ta 16) = none →
      _picopeeker_parse_command fuel env cmd = some addressError ∧
      MemoryExplorer.parse_command fuel env g cmd = some MemoryExplorer.addressError) ∧
    (1 ≤ toU32 (atoi tl) → toU32 (atoi tl) ≤ 4096 →
      ∀ e, boundsFor (strtoul ta 16) = some e →
      _picopeeker_parse_command fuel env cmd =
        (_picopeeker_send_hex_dump fuel env (strtoul ta 16)
            (min (toU32 (atoi tl)) (e - strtoul ta 16))).map
          (fun dump =>
            (if strtoul ta 16 + toU32 (atoi tl) > e then
              [clampWarning (toU32 (atoi tl)) (e - strtoul ta 16)] else []) ++ dump) ∧
      MemoryExplorer.parse_command fuel env g cmd =
        (MemoryExplorer.send_hex_dump fuel env (strtoul ta 16)
            (min (toU32 (atoi tl)) (e - strtoul ta 16))).map
          (fun dump =>
            (if strtoul ta 16 + toU32 (atoi tl) > e then
              [clampWarning (toU32 (atoi tl)) (e - strtoul ta 16)] else []) ++ dump)) ∧
    (startsWithDigit isDecDigit tl = false →
      atoi tl = 0 ∧
      _picopeeker_parse_command fuel env cmd =
        some [Event.print "ERROR: Length must be 1-4096\n".toList] ∧
      MemoryExplorer.parse_command fuel env g cmd =
        some [Event.print "ERROR: Length must be 1-4096\n".toList] ∧
      loads [Event.print "ERROR: Length must be 1-4096\n".toList] = []) ∧
    (startsWithDigit isHexDigit ta = false →
      strtoul ta 16 = 0 ∧
      (1 ≤ toU32 (atoi tl) → toU32 (atoi tl) ≤ 4096 →
        _picopeeker_parse_command fuel env cmd =
          _picopeeker_send_hex_dump fuel env 0 (toU32 (atoi tl)) ∧
        MemoryExplorer.parse_command fuel env g cmd =
          MemoryExplorer.send_hex_dump fuel env 0 (toU32 (atoi tl)) ∧
        (257 ≤ fuel →
          ∃ dump, _picopeeker_send_hex_dump fuel env 0 (toU32 (atoi tl)) = some dump ∧
            dump.head? = some (P "=== HEX DUMP ===\n") ∧
            "ERROR:".toList.isPrefixOf (stdout dump) = false ∧
            ∀ x, x ∈ loads dump ↔ x < toU32 (atoi tl)))) := by
  have lenErr : toU32 (atoi tl) = 0 ∨ toU32 (atoi tl) > 4096 →
      _picopeeker_parse_command fuel env cmd =
        some [Event.print "ERROR: Length must be 1-4096\n".toList] ∧
      MemoryExplorer.parse_command fuel env g cmd =
        some [Event.print "ERROR: Length must be 1-4096\n".toList] := fun hz =>
    ⟨(((read_order_library fuel env cmd rest hcmd).2 ta r2 hta).2 tl r3 htl).1 hz,
      (((read_order_standalone fuel env g cmd rest hcmd).2 ta r2 hta).2 tl r3 htl).1 hz⟩
  have inRegion : 1 ≤ toU32 (atoi tl) → toU32 (atoi tl) ≤ 4096 →
      ∀ e, boundsFor (strtoul ta 16) = some e →
      _picopeeker_parse_command fuel env cmd =
        (_picopeeker_send_hex_dump fuel env (strtoul ta 16)
            (min (toU32 (atoi tl)) (e - strtoul ta 16))).map
          (fun dump =>
            (if strtoul ta 16 + toU32 (atoi tl) > e then
              [clampWarning (toU32 (atoi tl)) (e - strtoul ta 16)] else []) ++ dump) ∧
      MemoryExplorer.parse_command fuel env g cmd =
        (MemoryExplorer.send_hex_dump fuel env (strtoul ta 16)
            (min (toU32 (atoi tl)) (e - strtoul ta 16))).map
          (fun dump =>
            (if strtoul ta 16 + toU32 (atoi tl) > e then
              [clampWarning (toU32 (atoi tl)) (e - strtoul ta 16)] else []) ++ dump) := by
    intro h1 h2 e hb
    refine ⟨parse_accepted_read fuel env hcmd hta htl h1 h2 hb, ?_⟩
    rw [standalone_parse_read fuel env g hcmd,
      standalone_readCommand_in_region fuel env hta htl h1 h2 hb]
  refine ⟨lenErr, ?_, inRegion, ?_, ?_⟩
  · intro h1 h2 hb
    exact ⟨((((read_order_library fuel env cmd rest hcmd).2 ta r2 hta).2 tl r3 htl).2
        ⟨h1, h2⟩).1 hb,
      ((((read_order_standalone fuel env g cmd rest hcmd).2 ta r2 hta).2 tl r3 htl).2
        ⟨h1, h2⟩).1 hb⟩
  · intro hd
    have h0 : atoi tl = 0 := atoi_no_number tl hd
    have hz : toU32 (atoi tl) = 0 ∨ toU32 (atoi tl) > 4096 := by
      left; rw [h0]; rfl
    exact ⟨h0, (lenErr hz).1, (lenErr hz).2, rfl⟩
  · intro hx
    have h0 : strtoul ta 16 = 0 := strtoul_no_number ta hx
    refine ⟨h0, ?_⟩
    intro h1 h2
    have hb : boundsFor (strtoul ta 16) = some 16384 := by rw [h0]; decide
    obtain ⟨e1, e2⟩ := inRegion h1 h2 16384 hb
    rw [h0, if_neg (by omega), Nat.min_eq_left (by omega)] at e1 e2
    refine ⟨?_, ?_, ?_⟩
    · rw [e1]
      cases _picopeeker_send_hex_dump fuel env 0 (toU32 (atoi tl)) <;> rfl
    · rw [e2]
      cases MemoryExplorer.send_hex_dump fuel env 0 (toU32 (atoi tl)) <;> rfl
    · intro hf
      obtain ⟨dump, hd, hh, hl⟩ := mem_loads_send_hex_dump fuel env 0 (toU32 (atoi tl))
        (by omega) (by omega) (by omega)
      refine ⟨dump, hd, hh, ?_, fun x => by rw [hl x]; omega⟩
      cases dump with
      | nil => cases hh
      | cons e es =>
        obtain rfl := Option.some.inj hh
        rfl

/-- The READ line `READ: zz:16`: no hexadecimal digit follows the blank of the
address field, which has the value 0, and the line is run as the dump of sixteen
bytes from address 0. -/
theorem nonnumeric_read_fields_witness :
    strtok "READ: zz:16".toList ':' = some ("READ".toList, " zz:16".toList) ∧
    strtok " zz:16".toList ':' = some (" zz".toList, "16".toList) ∧
    strtok "16".toList ':' = some ("16".toList, []) ∧
    startsWithDigit isHexDigit " zz".toList = false ∧
    strtoul " zz".toList 16 = 0 ∧
    _picopeeker_parse_command 257 ⟨fun _ => 0, 0⟩ "READ: zz:16".toList =
      _picopeeker_send_hex_dump 257 ⟨fun _ => 0, 0⟩ 0 (toU32 (atoi "16".toList)) :=
  ⟨by decide, by decide, by decide, by decide,
    ((nonnumeric_read_fields 257 ⟨fun _ => 0, 0⟩ ⟨0, 0⟩ "READ: zz:16".toList " zz:16".toList
      " zz".toList "16".toList "16".toList [] (by decide) (by decide) (by decide)).2.2.2.2
      (by decide)).1,
    (((nonnumeric_read_fields 257 ⟨fun _ => 0, 0⟩ ⟨0, 0⟩ "READ: zz:16".toList " zz:16".toList
      " zz".toList "16".toList "16".toList [] (by decide) (by decide) (by decide)).2.2.2.2
      (by decide)).2 (by decide) (by decide)).1⟩

end PicoPeeker
